import Mathlib

/-!
# Reference-counted owning / observing handles (`control_block.h`, `shared_ptr.h`)

A shallow embedding of the control block and of the two handle types.

* Every C++ object (control block, `shared_ptr`, `weak_ptr`) lives in a store and is
  named by its index there; an index plays the role of the object's address, so
  `this != &other` is a comparison of indices.
* A function of the source becomes a function `State → … → Option State`; the result
  `none` stands for undefined behaviour (reading through a null or deleted control
  block, using a handle whose lifetime has ended).
* `std::size_t` counters are natural numbers below `2 ^ 64`, incremented and
  decremented modulo `2 ^ 64`.
* What the user supplies (the deleter, the destructor of the managed value) is
  recorded as an event in a log; it does not itself call handle operations.
* `new` always returns a fresh index; whether it throws is an argument of the
  operation that allocates.
* A function that takes a reference to a handle has undefined behaviour when that handle
  is not within its lifetime at the call.
-/

namespace SharedPtr

/-! ## Data model -/

/-- Number of values of `std::size_t`. -/
def SIZE_MOD : Nat := 18446744073709551616

/-- The value of `n++` on a `std::size_t`. -/
def size_inc (n : Nat) : Nat := (n + 1) % SIZE_MOD

/-- The value of `n--` on a `std::size_t`. -/
def size_dec (n : Nat) : Nat := (n + SIZE_MOD - 1) % SIZE_MOD

/-- A raw access pointer `T*`: null, the address of some object, or the address of the
storage `stg` inside the in-place control block `c`. -/
inductive Ptr where
  | null
  | obj (a : Nat)
  | stg (c : Nat)
  deriving DecidableEq, Repr

/-- An exception object, identified by a number. -/
abbrev Exn := Nat

/-- The deleter `std::default_delete`. -/
def default_delete : Nat := 0

/-- Observable effects, in the order in which they happen. -/
inductive Event where
  /-- the virtual call `delete_object()` on block `c` -/
  | delete_object (c : Nat)
  /-- the call `deleter(ptr)` -/
  | deleter (d : Nat) (p : Ptr)
  /-- the call `~T()` on the storage of the in-place block `c` -/
  | destructor (c : Nat)
  /-- the statement `delete this` in block `c` -/
  | delete_this (c : Nat)
  deriving DecidableEq, Repr

/-- The two final classes derived from `control_block`, with their own members. -/
inductive Variant where
  /-- `regular_control_block<T, D>` with members `ptr` and `deleter` -/
  | regular (ptr : Ptr) (deleter : Nat)
  /-- `inplace_control_block<T>`, whose member `stg` holds `T(args...)` -/
  | inplace (stg : List Nat)
  deriving DecidableEq, Repr

/-- `struct control_block`: members `refs` and `weak_refs`, and the dynamic type. -/
structure control_block where
  refs : Nat
  weak_refs : Nat
  variant : Variant
  deriving DecidableEq, Repr

/-- `struct shared_ptr<T>`: members `cblock` and `ptr`. -/
structure shared_ptr where
  cblock : Option Nat
  ptr : Ptr
  deriving DecidableEq, Repr

/-- `struct weak_ptr<T>`: members `cblock` and `ptr`. -/
structure weak_ptr where
  cblock : Option Nat
  ptr : Ptr
  deriving DecidableEq, Repr

/-- The program state: the control blocks on the heap (`none` once deleted), the
`shared_ptr` and `weak_ptr` objects (`none` once their lifetime has ended), and the
log of events. -/
structure State where
  heap : List (Option control_block)
  sps : List (Option shared_ptr)
  wps : List (Option weak_ptr)
  log : List Event
  deriving DecidableEq, Repr

/-- The state of a program that has not yet created anything. -/
def State.init : State := ⟨[], [], [], []⟩

/-- The control block at address `c`, if there is a live one. -/
def State.load (s : State) (c : Nat) : Option control_block := s.heap.getD c none

/-- Write the members of the control block at address `c`. -/
def State.store (s : State) (c : Nat) (cb : control_block) : State :=
  { s with heap := s.heap.set c (some cb) }

/-- The owning handle at index `i`, if it is within its lifetime. -/
def State.sp (s : State) (i : Nat) : Option shared_ptr := s.sps.getD i none

/-- The observing handle at index `i`, if it is within its lifetime. -/
def State.wp (s : State) (i : Nat) : Option weak_ptr := s.wps.getD i none

/-- Record an event. -/
def State.emit (s : State) (e : Event) : State := { s with log := s.log ++ [e] }

/-- Allocate a control block at a fresh address (the old length of the heap). -/
def State.alloc (s : State) (cb : control_block) : State :=
  { s with heap := s.heap ++ [some cb] }

/-- Release the storage of the control block at address `c`. -/
def State.free (s : State) (c : Nat) : State := { s with heap := s.heap.set c none }

/-- Begin the lifetime of an owning handle with the given members, at a fresh index
(the old length of `sps`). -/
def State.pushSp (s : State) (h : shared_ptr) : State := { s with sps := s.sps ++ [some h] }

/-- Write the members of the owning handle at index `i` (`none` ends its lifetime). -/
def State.setSp (s : State) (i : Nat) (h : Option shared_ptr) : State :=
  { s with sps := s.sps.set i h }

/-- Begin the lifetime of an observing handle with the given members, at a fresh index
(the old length of `wps`). -/
def State.pushWp (s : State) (h : weak_ptr) : State := { s with wps := s.wps ++ [some h] }

/-- Write the members of the observing handle at index `i` (`none` ends its lifetime). -/
def State.setWp (s : State) (i : Nat) (h : Option weak_ptr) : State :=
  { s with wps := s.wps.set i h }

/-! ## `control_block.h` -/

/-- `control_block::add_weak`: `weak_refs++`. -/
def control_block.add_weak (s : State) (c : Nat) : Option State :=
  match s.load c with
  | none => none
  | some cb => some (s.store c { cb with weak_refs := size_inc cb.weak_refs })

/-- `control_block::add_strong`: `if (refs == 0) add_weak(); refs++`. -/
def control_block.add_strong (s : State) (c : Nat) : Option State :=
  match s.load c with
  | none => none
  | some cb =>
    match (if cb.refs = 0 then control_block.add_weak s c else some s) with
    | none => none
    | some s1 =>
      match s1.load c with
      | none => none
      | some cb1 => some (s1.store c { cb1 with refs := size_inc cb1.refs })

/-- `control_block::del_weak`: `weak_refs--; if (weak_refs == 0) delete this`. -/
def control_block.del_weak (s : State) (c : Nat) : Option State :=
  match s.load c with
  | none => none
  | some cb =>
    let s1 := s.store c { cb with weak_refs := size_dec cb.weak_refs }
    if size_dec cb.weak_refs = 0 then
      some ((s1.emit (Event.delete_this c)).free c)
    else some s1

/-- The virtual `delete_object`: `regular_control_block` calls `deleter(ptr)` and sets
`ptr = nullptr`; `inplace_control_block` calls `~T()` on its storage. -/
def control_block.delete_object (s : State) (c : Nat) : Option State :=
  match s.load c with
  | none => none
  | some cb =>
    match cb.variant with
    | Variant.regular p d =>
      some ((((s.emit (Event.delete_object c)).emit (Event.deleter d p)).store c
        { cb with variant := Variant.regular Ptr.null d }))
    | Variant.inplace _ =>
      some ((s.emit (Event.delete_object c)).emit (Event.destructor c))

/-- The first statement of `del_strong`: `refs--`. -/
def control_block.dec_refs (s : State) (c : Nat) : Option State :=
  match s.load c with
  | none => none
  | some cb => some (s.store c { cb with refs := size_dec cb.refs })

/-- `control_block::del_strong`:
`refs--; if (refs == 0) { delete_object(); del_weak(); }`. -/
def control_block.del_strong (s : State) (c : Nat) : Option State :=
  match control_block.dec_refs s c with
  | none => none
  | some s1 =>
    match s1.load c with
    | none => none
    | some cb1 =>
      if cb1.refs = 0 then
        match control_block.delete_object s1 c with
        | none => none
        | some s2 => control_block.del_weak s2 c
      else some s1

/-- `control_block::strong_count`. -/
def control_block.strong_count (s : State) (c : Nat) : Option Nat :=
  (s.load c).map (fun cb => cb.refs)

/-- `control_block::weak_count`. -/
def control_block.weak_count (s : State) (c : Nat) : Option Nat :=
  (s.load c).map (fun cb => cb.weak_refs)

/-! ## `shared_ptr.h`: the owning handle -/

/-- `shared_ptr()`: a new handle with `cblock(nullptr), ptr(nullptr)`; returns the
state and the index of the new object. -/
def shared_ptr.ctor (s : State) : State × Nat :=
  (s.pushSp ⟨none, Ptr.null⟩, s.sps.length)

/-- `shared_ptr(std::nullptr_t)`, which delegates to `shared_ptr()`. -/
def shared_ptr.ctor_nullptr (s : State) : State × Nat := shared_ptr.ctor s

/-- The private `shared_ptr(control_block* _cblock, T* _ptr)`:
`cblock(_cblock), ptr(_ptr)`, then `add_strong` unless `cblock` is null. -/
def shared_ptr.ctor_cblock (s : State) (cb : Option Nat) (p : Ptr) : Option (State × Nat) :=
  let s1 : State := s.pushSp ⟨cb, p⟩
  match cb with
  | none => some (s1, s.sps.length)
  | some c =>
    match control_block.add_strong s1 c with
    | none => none
    | some s2 => some (s2, s.sps.length)

/-- `shared_ptr(Y* ptr, D deleter)`. The argument `alloc` tells whether
`new regular_control_block<Y, D>(ptr, deleter)` throws (`some e`) or returns a new
block (`none`). On a throw the handler runs `deleter(ptr)` and rethrows, and the
handle never comes to life. -/
def shared_ptr.ctor_ptr_deleter (s : State) (p : Ptr) (d : Nat) (alloc : Option Exn) :
    Option (State × Except Exn Nat) :=
  match alloc with
  | some e => some (s.emit (Event.deleter d p), Except.error e)
  | none =>
    let c := s.heap.length
    let s1 : State := (s.alloc ⟨0, 0, Variant.regular p d⟩).pushSp ⟨some c, p⟩
    match control_block.add_strong s1 c with
    | none => none
    | some s2 => some (s2, Except.ok s.sps.length)

/-- `explicit shared_ptr(Y* ptr)`, which delegates with `std::default_delete<Y>()`. -/
def shared_ptr.ctor_ptr (s : State) (p : Ptr) (alloc : Option Exn) :
    Option (State × Except Exn Nat) :=
  shared_ptr.ctor_ptr_deleter s p default_delete alloc

/-- The aliasing constructor `shared_ptr(shared_ptr<U> const& other, T* ptr)`, which
delegates to `shared_ptr(other.cblock, ptr)`. -/
def shared_ptr.ctor_alias (s : State) (other : Nat) (p : Ptr) : Option (State × Nat) :=
  match s.sp other with
  | none => none
  | some o => shared_ptr.ctor_cblock s o.cblock p

/-- The converting copy constructor `shared_ptr(shared_ptr<Y> const& other)`, which
delegates to `shared_ptr(other, other.ptr)`. -/
def shared_ptr.ctor_convert (s : State) (other : Nat) : Option (State × Nat) :=
  match s.sp other with
  | none => none
  | some o => shared_ptr.ctor_alias s other o.ptr

/-- The copy constructor `shared_ptr(shared_ptr<T> const& other)`, which delegates to
`shared_ptr(other.cblock, other.ptr)`. -/
def shared_ptr.ctor_copy (s : State) (other : Nat) : Option (State × Nat) :=
  match s.sp other with
  | none => none
  | some o => shared_ptr.ctor_cblock s o.cblock o.ptr

/-- `shared_ptr::swap`: `swap(cblock, other.cblock); swap(ptr, other.ptr)`. -/
def shared_ptr.swap (s : State) (self other : Nat) : Option State :=
  match s.sp self, s.sp other with
  | some a, some b =>
    some ((s.setSp self (some ⟨b.cblock, b.ptr⟩)).setSp other (some ⟨a.cblock, a.ptr⟩))
  | _, _ => none

/-- The move constructor `shared_ptr(shared_ptr<T>&& other)`: `shared_ptr()` followed by
`swap(other)`. -/
def shared_ptr.ctor_move (s : State) (other : Nat) : Option (State × Nat) :=
  match s.sp other with
  | none => none
  | some _ =>
    let (s1, self) := shared_ptr.ctor s
    match shared_ptr.swap s1 self other with
    | none => none
    | some s2 => some (s2, self)

/-- `~shared_ptr()`: `del_strong` unless `cblock` is null; then the object's lifetime
ends. -/
def shared_ptr.dtor (s : State) (self : Nat) : Option State :=
  match s.sp self with
  | none => none
  | some a =>
    match (match a.cblock with
           | none => some s
           | some c => control_block.del_strong s c) with
    | none => none
    | some s1 => some (s1.setSp self none)

/-- Copy assignment `operator=(shared_ptr<T> const& other)`:
`if (this != &other) { shared_ptr<T> safe(other); swap(safe); }`. -/
def shared_ptr.assign_copy (s : State) (self other : Nat) : Option State :=
  match s.sp self, s.sp other with
  | some _, some _ =>
    if self ≠ other then
      match shared_ptr.ctor_copy s other with
      | none => none
      | some (s1, safe) =>
        match shared_ptr.swap s1 self safe with
        | none => none
        | some s2 => shared_ptr.dtor s2 safe
    else some s
  | _, _ => none

/-- `reset()`: `shared_ptr<T> empty; swap(empty);`. -/
def shared_ptr.reset (s : State) (self : Nat) : Option State :=
  match s.sp self with
  | none => none
  | some _ =>
    let (s1, empty) := shared_ptr.ctor s
    match shared_ptr.swap s1 self empty with
    | none => none
    | some s2 => shared_ptr.dtor s2 empty

/-- Move assignment `operator=(shared_ptr<T>&& other)`:
`if (this != &other) { reset(); swap(other); }`. -/
def shared_ptr.assign_move (s : State) (self other : Nat) : Option State :=
  match s.sp self, s.sp other with
  | some _, some _ =>
    if self ≠ other then
      match shared_ptr.reset s self with
      | none => none
      | some s1 => shared_ptr.swap s1 self other
    else some s
  | _, _ => none

/-- `reset(Y* new_ptr, D deleter)`:
`shared_ptr<T> new_shared(new_ptr, deleter); swap(new_shared);`. An exception of the
constructor leaves the function before `swap`. -/
def shared_ptr.reset_ptr_deleter (s : State) (self : Nat) (p : Ptr) (d : Nat)
    (alloc : Option Exn) : Option (State × Except Exn Unit) :=
  match s.sp self with
  | none => none
  | some _ =>
    match shared_ptr.ctor_ptr_deleter s p d alloc with
    | none => none
    | some (s1, Except.error e) => some (s1, Except.error e)
    | some (s1, Except.ok new_shared) =>
      match shared_ptr.swap s1 self new_shared with
      | none => none
      | some s2 =>
        match shared_ptr.dtor s2 new_shared with
        | none => none
        | some s3 => some (s3, Except.ok ())

/-- `reset(Y* ptr)`, which calls `reset(ptr, std::default_delete<Y>())`. -/
def shared_ptr.reset_ptr (s : State) (self : Nat) (p : Ptr) (alloc : Option Exn) :
    Option (State × Except Exn Unit) :=
  shared_ptr.reset_ptr_deleter s self p default_delete alloc

/-- `shared_ptr::get`. -/
def shared_ptr.get (s : State) (self : Nat) : Option Ptr :=
  (s.sp self).map (fun a => a.ptr)

/-- `shared_ptr::operator bool`: `ptr != nullptr`. -/
def shared_ptr.to_bool (s : State) (self : Nat) : Option Bool :=
  (s.sp self).map (fun a => decide (a.ptr ≠ Ptr.null))

/-- `shared_ptr::use_count`: `cblock == nullptr ? 0 : cblock->strong_count()`. -/
def shared_ptr.use_count (s : State) (self : Nat) : Option Nat :=
  match s.sp self with
  | none => none
  | some a =>
    match a.cblock with
    | none => some 0
    | some c => control_block.strong_count s c

/-- `make_shared<T>(args...)`:
`auto* cblock = new inplace_control_block<T>(args...);`
`return shared_ptr<T>(cblock, reinterpret_cast<T*>(&cblock->stg));`.
The argument `alloc` tells whether the `new` expression throws. -/
def make_shared (s : State) (args : List Nat) (alloc : Option Exn) :
    Option (State × Except Exn Nat) :=
  match alloc with
  | some e => some (s, Except.error e)
  | none =>
    let c := s.heap.length
    let s1 : State := s.alloc ⟨0, 0, Variant.inplace args⟩
    match shared_ptr.ctor_cblock s1 (some c) (Ptr.stg c) with
    | none => none
    | some (s2, r) => some (s2, Except.ok r)

/-- `operator==(shared_ptr<T> const& a, shared_ptr<Y> const& b)`: `a.get() == b.get()`. -/
def shared_ptr.eq (s : State) (a b : Nat) : Option Bool :=
  match shared_ptr.get s a, shared_ptr.get s b with
  | some pa, some pb => some (decide (pa = pb))
  | _, _ => none

/-- `operator==(shared_ptr<T> const& a, std::nullptr_t)` and its mirror image:
`a.get() == nullptr`. -/
def shared_ptr.eq_nullptr (s : State) (a : Nat) : Option Bool :=
  (shared_ptr.get s a).map (fun pa => decide (pa = Ptr.null))

/-- `operator!=(shared_ptr<T> const& a, shared_ptr<Y> const& b)`: `!(a == b)`. -/
def shared_ptr.ne (s : State) (a b : Nat) : Option Bool :=
  (shared_ptr.eq s a b).map (fun r => !r)

/-- `operator!=(shared_ptr<T> const& a, std::nullptr_t)` and its mirror image:
`a.get() != nullptr`. -/
def shared_ptr.ne_nullptr (s : State) (a : Nat) : Option Bool :=
  (shared_ptr.get s a).map (fun pa => decide (pa ≠ Ptr.null))

/-! ## `shared_ptr.h`: the observing handle -/

/-- `weak_ptr()`: a new handle with `cblock(nullptr), ptr(nullptr)`. -/
def weak_ptr.ctor (s : State) : State × Nat :=
  (s.pushWp ⟨none, Ptr.null⟩, s.wps.length)

/-- The private `weak_ptr(control_block* cblock, T* ptr)`: `cblock(cblock), ptr(ptr)`,
then `add_weak` unless `cblock` is null. -/
def weak_ptr.ctor_cblock (s : State) (cb : Option Nat) (p : Ptr) : Option (State × Nat) :=
  let s1 : State := s.pushWp ⟨cb, p⟩
  match cb with
  | none => some (s1, s.wps.length)
  | some c =>
    match control_block.add_weak s1 c with
    | none => none
    | some s2 => some (s2, s.wps.length)

/-- The constructors `weak_ptr(weak_ptr<Y> const& other)` and
`weak_ptr(weak_ptr<T> const& other)`: `weak_ptr(other.cblock, other.ptr)`. -/
def weak_ptr.ctor_copy (s : State) (other : Nat) : Option (State × Nat) :=
  match s.wp other with
  | none => none
  | some o => weak_ptr.ctor_cblock s o.cblock o.ptr

/-- The constructor `weak_ptr(shared_ptr<Y> const& other)`:
`weak_ptr(other.cblock, other.ptr)`. -/
def weak_ptr.ctor_shared (s : State) (other : Nat) : Option (State × Nat) :=
  match s.sp other with
  | none => none
  | some o => weak_ptr.ctor_cblock s o.cblock o.ptr

/-- `weak_ptr::swap`: `swap(cblock, other.cblock); swap(ptr, other.ptr)`. -/
def weak_ptr.swap (s : State) (self other : Nat) : Option State :=
  match s.wp self, s.wp other with
  | some a, some b =>
    some ((s.setWp self (some ⟨b.cblock, b.ptr⟩)).setWp other (some ⟨a.cblock, a.ptr⟩))
  | _, _ => none

/-- The move constructor `weak_ptr(weak_ptr<T>&& other)`: `weak_ptr()` followed by
`swap(other)`. -/
def weak_ptr.ctor_move (s : State) (other : Nat) : Option (State × Nat) :=
  match s.wp other with
  | none => none
  | some _ =>
    let (s1, self) := weak_ptr.ctor s
    match weak_ptr.swap s1 self other with
    | none => none
    | some s2 => some (s2, self)

/-- `~weak_ptr()`: `del_weak` unless `cblock` is null; then the object's lifetime
ends. -/
def weak_ptr.dtor (s : State) (self : Nat) : Option State :=
  match s.wp self with
  | none => none
  | some a =>
    match (match a.cblock with
           | none => some s
           | some c => control_block.del_weak s c) with
    | none => none
    | some s1 => some (s1.setWp self none)

/-- Copy assignment `operator=(weak_ptr const& other)`:
`weak_ptr<T> safe(other); swap(safe);` (no test for self-assignment). -/
def weak_ptr.assign_copy (s : State) (self other : Nat) : Option State :=
  match s.wp self, s.wp other with
  | some _, some _ =>
    match weak_ptr.ctor_copy s other with
    | none => none
    | some (s1, safe) =>
      match weak_ptr.swap s1 self safe with
      | none => none
      | some s2 => weak_ptr.dtor s2 safe
  | _, _ => none

/-- Move assignment `operator=(weak_ptr&& other)`:
`if (this != &other) { weak_ptr<T> empty; weak_ptr(std::move(other)).swap(*this); }`.
The temporary dies at the end of its statement, `empty` at the end of the block. -/
def weak_ptr.assign_move (s : State) (self other : Nat) : Option State :=
  match s.wp self, s.wp other with
  | some _, some _ =>
    if self ≠ other then
      let (s1, empty) := weak_ptr.ctor s
      match weak_ptr.ctor_move s1 other with
      | none => none
      | some (s2, tmp) =>
        match weak_ptr.swap s2 tmp self with
        | none => none
        | some s3 =>
          match weak_ptr.dtor s3 tmp with
          | none => none
          | some s4 => weak_ptr.dtor s4 empty
    else some s
  | _, _ => none

/-- `weak_ptr::use_count`: `cblock == nullptr ? 0 : cblock->strong_count()`. -/
def weak_ptr.use_count (s : State) (self : Nat) : Option Nat :=
  match s.wp self with
  | none => none
  | some a =>
    match a.cblock with
    | none => some 0
    | some c => control_block.strong_count s c

/-- `weak_ptr::lock`:
`if (cblock == nullptr || cblock->strong_count() == 0) return shared_ptr<T>();`
`return shared_ptr<T>(cblock, ptr);`. Returns the index of the returned handle. -/
def weak_ptr.lock (s : State) (self : Nat) : Option (State × Nat) :=
  match s.wp self with
  | none => none
  | some a =>
    match a.cblock with
    | none => some (shared_ptr.ctor s)
    | some c =>
      match control_block.strong_count s c with
      | none => none
      | some n =>
        if n = 0 then some (shared_ptr.ctor s)
        else shared_ptr.ctor_cblock s a.cblock a.ptr

/-- `weak_ptr::operator bool`:
`if (cblock->strong_count() == 0) return false; return ptr != nullptr;`.
There is no test for a null `cblock`. -/
def weak_ptr.to_bool (s : State) (self : Nat) : Option Bool :=
  match s.wp self with
  | none => none
  | some a =>
    match a.cblock with
    | none => none
    | some c =>
      match control_block.strong_count s c with
      | none => none
      | some n => if n = 0 then some false else some (decide (a.ptr ≠ Ptr.null))

/-! ## Programs: sequences of calls of the public operations -/

/-- A call of a constructor, destructor, or state-changing member function. Handles are
named by their indices; a constructor puts the new handle at the next free index. -/
inductive Op where
  | sp_ctor
  | sp_ctor_nullptr
  | sp_ctor_ptr (p : Ptr) (alloc : Option Exn)
  | sp_ctor_ptr_deleter (p : Ptr) (d : Nat) (alloc : Option Exn)
  | sp_ctor_alias (other : Nat) (p : Ptr)
  | sp_ctor_convert (other : Nat)
  | sp_ctor_copy (other : Nat)
  | sp_ctor_move (other : Nat)
  | sp_assign_copy (self other : Nat)
  | sp_assign_move (self other : Nat)
  | sp_dtor (self : Nat)
  | sp_reset (self : Nat)
  | sp_reset_ptr (self : Nat) (p : Ptr) (alloc : Option Exn)
  | sp_reset_ptr_deleter (self : Nat) (p : Ptr) (d : Nat) (alloc : Option Exn)
  | sp_swap (self other : Nat)
  | make_shared (args : List Nat) (alloc : Option Exn)
  | wp_ctor
  | wp_ctor_copy (other : Nat)
  | wp_ctor_shared (other : Nat)
  | wp_ctor_move (other : Nat)
  | wp_dtor (self : Nat)
  | wp_assign_copy (self other : Nat)
  | wp_assign_move (self other : Nat)
  | wp_swap (self other : Nat)
  | wp_lock (self : Nat)
  deriving DecidableEq, Repr

/-- The state after one call; a thrown exception is caught by the caller, who goes on
with the state the throwing call has left. -/
def step (s : State) : Op → Option State
  | Op.sp_ctor => some (shared_ptr.ctor s).1
  | Op.sp_ctor_nullptr => some (shared_ptr.ctor_nullptr s).1
  | Op.sp_ctor_ptr p alloc => (shared_ptr.ctor_ptr s p alloc).map Prod.fst
  | Op.sp_ctor_ptr_deleter p d alloc => (shared_ptr.ctor_ptr_deleter s p d alloc).map Prod.fst
  | Op.sp_ctor_alias other p => (shared_ptr.ctor_alias s other p).map Prod.fst
  | Op.sp_ctor_convert other => (shared_ptr.ctor_convert s other).map Prod.fst
  | Op.sp_ctor_copy other => (shared_ptr.ctor_copy s other).map Prod.fst
  | Op.sp_ctor_move other => (shared_ptr.ctor_move s other).map Prod.fst
  | Op.sp_assign_copy self other => shared_ptr.assign_copy s self other
  | Op.sp_assign_move self other => shared_ptr.assign_move s self other
  | Op.sp_dtor self => shared_ptr.dtor s self
  | Op.sp_reset self => shared_ptr.reset s self
  | Op.sp_reset_ptr self p alloc => (shared_ptr.reset_ptr s self p alloc).map Prod.fst
  | Op.sp_reset_ptr_deleter self p d alloc =>
    (shared_ptr.reset_ptr_deleter s self p d alloc).map Prod.fst
  | Op.sp_swap self other => shared_ptr.swap s self other
  | Op.make_shared args alloc => (make_shared s args alloc).map Prod.fst
  | Op.wp_ctor => some (weak_ptr.ctor s).1
  | Op.wp_ctor_copy other => (weak_ptr.ctor_copy s other).map Prod.fst
  | Op.wp_ctor_shared other => (weak_ptr.ctor_shared s other).map Prod.fst
  | Op.wp_ctor_move other => (weak_ptr.ctor_move s other).map Prod.fst
  | Op.wp_dtor self => weak_ptr.dtor s self
  | Op.wp_assign_copy self other => weak_ptr.assign_copy s self other
  | Op.wp_assign_move self other => weak_ptr.assign_move s self other
  | Op.wp_swap self other => weak_ptr.swap s self other
  | Op.wp_lock self => (weak_ptr.lock s self).map Prod.fst

/-- Whether the slot holds an owning handle whose `cblock` is `c`. -/
def shared_ptr.refers (c : Nat) : Option shared_ptr → Bool
  | some h => decide (h.cblock = some c)
  | none => false

/-- Whether the slot holds an observing handle whose `cblock` is `c`. -/
def weak_ptr.refers (c : Nat) : Option weak_ptr → Bool
  | some h => decide (h.cblock = some c)
  | none => false

/-- The number of live owning handles whose `cblock` is `c`. -/
def State.owners (s : State) (c : Nat) : Nat := s.sps.countP (shared_ptr.refers c)

/-- The number of live observing handles whose `cblock` is `c`. -/
def State.observers (s : State) (c : Nat) : Nat := s.wps.countP (weak_ptr.refers c)

/-- The number of handles, of either kind, that are within their lifetime. -/
def State.live (s : State) : Nat :=
  s.sps.countP Option.isSome + s.wps.countP Option.isSome

/-- How often `delete_object` has been called on block `c`. -/
def State.deletions (s : State) (c : Nat) : Nat := s.log.count (Event.delete_object c)

/-- How often block `c` has executed `delete this`. -/
def State.frees (s : State) (c : Nat) : Nat := s.log.count (Event.delete_this c)

/-- Whether the call allocates a control block (and the allocation succeeds). -/
def Op.allocates : Op → Bool
  | Op.sp_ctor_ptr _ none => true
  | Op.sp_ctor_ptr_deleter _ _ none => true
  | Op.sp_reset_ptr _ _ none => true
  | Op.sp_reset_ptr_deleter _ _ _ none => true
  | Op.make_shared _ none => true
  | _ => false

/-- The state after a sequence of calls. The result is `none` when a call has undefined
behaviour, or is made while `2 ^ 64 - 2` or more handles are alive (a handle occupies
storage, so the address space bounds their number). -/
def run (s : State) : List Op → Option State
  | [] => some s
  | op :: ops =>
    if s.live + 1 < SIZE_MOD then
      match step s op with
      | none => none
      | some s1 => run s1 ops
    else none

/-- The states that a program reaches from the empty state. -/
def Reachable (s : State) : Prop := ∃ ops, run State.init ops = some s

/-- Invariant A of the control block: `weak_count ≥ (strong_count > 0 ? 1 : 0)`. -/
def InvariantA (cb : control_block) : Prop :=
  (if cb.refs > 0 then 1 else 0) ≤ cb.weak_refs

instance (cb : control_block) : Decidable (InvariantA cb) := by
  unfold InvariantA; infer_instance

/-- Invariant A holds for every control block that is alive. -/
def State.invariantA (s : State) : Prop := ∀ c cb, s.load c = some cb → InvariantA cb

/-- The accounting that ties the counters of block `c` and the log to the handles that
are alive: a live block counts its owners in `refs` and its observers, plus one while
`refs` is nonzero, in `weak_refs`; a deleted block has no handles; `delete_object` has
run once exactly if the block was created and has no owner left; `delete this` has run
once exactly if the block was created and is gone. -/
structure Accounted (s : State) (c : Nat) : Prop where
  live : ∀ cb, s.load c = some cb →
    cb.refs = s.owners c ∧ cb.weak_refs = s.observers c + (if cb.refs = 0 then 0 else 1) ∧
    0 < cb.weak_refs ∧ cb.refs < SIZE_MOD ∧ cb.weak_refs < SIZE_MOD
  dead : s.load c = none → s.owners c = 0 ∧ s.observers c = 0
  deletions : s.deletions c = if c < s.heap.length ∧ s.owners c = 0 then 1 else 0
  frees : s.frees c = if c < s.heap.length ∧ s.load c = none then 1 else 0

/-- The accounting holds for every block. -/
def WF (s : State) : Prop := ∀ c, Accounted s c

/-- The members of a block's derived class after `delete_object` has run:
`regular_control_block` has set `ptr = nullptr`. -/
def Variant.after : Variant → Variant
  | Variant.regular _ d => Variant.regular Ptr.null d
  | Variant.inplace stg => Variant.inplace stg

/-- The user code that `delete_object` runs in block `c`: `deleter(ptr)` or `~T()`. -/
def Variant.effect (c : Nat) : Variant → Event
  | Variant.regular p d => Event.deleter d p
  | Variant.inplace _ => Event.destructor c

/-- From `s` to `s1` the log has only been extended, and exactly `k` control blocks
have been allocated. -/
structure Ext (k : Nat) (s s1 : State) : Prop where
  log : ∃ l, s1.log = s.log ++ l
  heap : s1.heap.length = s.heap.length + k

/-- Between `s` and `s1` every block has lost at most one handle. -/
def ReleasesOne (s s1 : State) : Prop :=
  ∀ c, s.owners c + s.observers c ≤ s1.owners c + s1.observers c + 1 ∧
    s.owners c ≤ s1.owners c + 1 ∧ s.observers c ≤ s1.observers c + 1

/-- A program: adopt a pointer, copy the handle, observe it, make a second object in
place, alias the first object, and destroy the first handle. -/
def sample_ops : List Op :=
  [Op.sp_ctor_ptr_deleter (Ptr.obj 7) 3 none, Op.sp_ctor_copy 0, Op.wp_ctor_shared 0,
   Op.make_shared [42] none, Op.sp_ctor_alias 1 (Ptr.obj 8), Op.sp_dtor 0]

/-- The state that `sample_ops` reaches: block 0 has two owners (handles 1 and 3) and one
observer, block 1 has one owner (handle 2). -/
def sample_state : State :=
  { heap := [some ⟨2, 2, Variant.regular (Ptr.obj 7) 3⟩, some ⟨1, 1, Variant.inplace [42]⟩],
    sps := [none, some ⟨some 0, Ptr.obj 7⟩, some ⟨some 1, Ptr.stg 1⟩,
            some ⟨some 0, Ptr.obj 8⟩],
    wps := [some ⟨some 0, Ptr.obj 7⟩],
    log := [] }

/-- The state after the call `Op.sp_dtor 2` in `sample_state`: the only owner of block 1
is gone, and so are the object and the block. -/
def sample_next : State :=
  { heap := [some ⟨2, 2, Variant.regular (Ptr.obj 7) 3⟩, none],
    sps := [none, some ⟨some 0, Ptr.obj 7⟩, none, some ⟨some 0, Ptr.obj 8⟩],
    wps := [some ⟨some 0, Ptr.obj 7⟩],
    log := [Event.delete_object 1, Event.destructor 1, Event.delete_this 1] }

/-- Some live handle, owning or observing, has control block `cb` and access pointer
`p`. -/
def State.holds (s : State) (cb : Option Nat) (p : Ptr) : Prop :=
  some (shared_ptr.mk cb p) ∈ s.sps ∨ some (weak_ptr.mk cb p) ∈ s.wps

/-- The pairs of a control block and an access pointer that a call puts into a handle
without taking them from one handle: adoption and `reset(p)` join the new block and the
given pointer, `make_shared` the new block and its storage, the aliasing constructor the
block of `other` and the given pointer. -/
def Op.makes (s : State) : Op → Option Nat → Ptr → Prop
  | Op.sp_ctor_ptr q none, cb, p => cb = some s.heap.length ∧ p = q
  | Op.sp_ctor_ptr_deleter q _ none, cb, p => cb = some s.heap.length ∧ p = q
  | Op.sp_reset_ptr _ q none, cb, p => cb = some s.heap.length ∧ p = q
  | Op.sp_reset_ptr_deleter _ q _ none, cb, p => cb = some s.heap.length ∧ p = q
  | Op.make_shared _ none, cb, p => cb = some s.heap.length ∧ p = Ptr.stg s.heap.length
  | Op.sp_ctor_alias other q, cb, p => ∃ o, s.sp other = some o ∧ cb = o.cblock ∧ p = q
  | _, _, _ => False

/-- Every handle of `s1` has its members from a handle of `s`, or is empty, or has a pair
of members that `E` allows. -/
def Prov (E : Option Nat → Ptr → Prop) (s s1 : State) : Prop :=
  ∀ cb p, s1.holds cb p → s.holds cb p ∨ (cb = none ∧ p = Ptr.null) ∨ E cb p

/-- The calls that cannot separate "no control block" from "null access pointer": a
pointer that is adopted is not null, and an aliasing constructor gets a null pointer
exactly with an owner that has no control block. -/
def Op.keeps_pairing (s : State) : Op → Prop
  | Op.sp_ctor_ptr q _ => q ≠ Ptr.null
  | Op.sp_ctor_ptr_deleter q _ _ => q ≠ Ptr.null
  | Op.sp_reset_ptr _ q _ => q ≠ Ptr.null
  | Op.sp_reset_ptr_deleter _ q _ _ => q ≠ Ptr.null
  | Op.sp_ctor_alias other q => ∀ o, s.sp other = some o → (o.cblock = none ↔ q = Ptr.null)
  | _ => True

/-- In every live handle of either kind, the control block is absent exactly if the
access pointer is null. -/
def State.paired (s : State) : Prop :=
  ∀ cb p, s.holds cb p → (cb = none ↔ p = Ptr.null)

/-- The calls that construct, copy, move, assign, swap or destroy observing handles. -/
def Op.observing : Op → Bool
  | Op.wp_ctor => true
  | Op.wp_ctor_copy _ => true
  | Op.wp_ctor_shared _ => true
  | Op.wp_ctor_move _ => true
  | Op.wp_dtor _ => true
  | Op.wp_assign_copy _ _ => true
  | Op.wp_assign_move _ _ => true
  | Op.wp_swap _ _ => true
  | _ => false

/-- How often `~T()` has run on the storage inside block `c`. -/
def State.destructions (s : State) (c : Nat) : Nat := s.log.count (Event.destructor c)

/-- The relation between the states before and after a call that only extends the log and adds
`~T()` on the storage of a block at most as often as `delete_object` on that block. -/
def Tidy (s s1 : State) : Prop :=
  ∃ l, s1.log = s.log ++ l ∧
    ∀ c, l.count (Event.destructor c) ≤ l.count (Event.delete_object c)

/-- The scenario of the specification: adopt the raw pointer `p` with the deleter `d`,
then copy the handle three times. The four owning handles are the objects 0 to 3. -/
def scenario_setup (p : Ptr) (d : Nat) : List Op :=
  [Op.sp_ctor_ptr_deleter p d none, Op.sp_ctor_copy 0, Op.sp_ctor_copy 0, Op.sp_ctor_copy 0]

/-- The scenario followed by the destruction of the first `k` of the four handles, one at
a time. -/
def scenario (p : Ptr) (d : Nat) (k : Nat) : List Op :=
  scenario_setup p d ++ [Op.sp_dtor 0, Op.sp_dtor 1, Op.sp_dtor 2, Op.sp_dtor 3].take k

/-- How often the deleter `d` has been invoked on the pointer `p`. -/
def State.invocations (s : State) (d : Nat) (p : Ptr) : Nat := s.log.count (Event.deleter d p)

/-- Whether every handle that the call takes by reference (`*this` included) is within
its lifetime. -/
def Op.ready (s : State) : Op → Bool
  | Op.sp_ctor_alias other _ => (s.sp other).isSome
  | Op.sp_ctor_convert other => (s.sp other).isSome
  | Op.sp_ctor_copy other => (s.sp other).isSome
  | Op.sp_ctor_move other => (s.sp other).isSome
  | Op.sp_assign_copy self other => (s.sp self).isSome && (s.sp other).isSome
  | Op.sp_assign_move self other => (s.sp self).isSome && (s.sp other).isSome
  | Op.sp_dtor self => (s.sp self).isSome
  | Op.sp_reset self => (s.sp self).isSome
  | Op.sp_reset_ptr self _ _ => (s.sp self).isSome
  | Op.sp_reset_ptr_deleter self _ _ _ => (s.sp self).isSome
  | Op.sp_swap self other => (s.sp self).isSome && (s.sp other).isSome
  | Op.wp_ctor_copy other => (s.wp other).isSome
  | Op.wp_ctor_shared other => (s.sp other).isSome
  | Op.wp_ctor_move other => (s.wp other).isSome
  | Op.wp_dtor self => (s.wp self).isSome
  | Op.wp_assign_copy self other => (s.wp self).isSome && (s.wp other).isSome
  | Op.wp_assign_move self other => (s.wp self).isSome && (s.wp other).isSome
  | Op.wp_swap self other => (s.wp self).isSome && (s.wp other).isSome
  | Op.wp_lock self => (s.wp self).isSome
  | _ => true

/-- The body of an operation as the sequence of the constructor, `swap` and destructor
calls that it makes, in the state `s` in which it is called: a temporary or local handle
gets the next free index. The operations that call the control block themselves, or
touch no control block, stand for themselves. -/
def Op.expand (s : State) : Op → List Op
  | Op.sp_ctor_move other => [Op.sp_ctor, Op.sp_swap s.sps.length other]
  | Op.sp_assign_copy self other =>
    if self ≠ other then
      [Op.sp_ctor_copy other, Op.sp_swap self s.sps.length, Op.sp_dtor s.sps.length]
    else []
  | Op.sp_reset self => [Op.sp_ctor, Op.sp_swap self s.sps.length, Op.sp_dtor s.sps.length]
  | Op.sp_assign_move self other =>
    if self ≠ other then
      [Op.sp_ctor, Op.sp_swap self s.sps.length, Op.sp_dtor s.sps.length,
        Op.sp_swap self other]
    else []
  | Op.sp_reset_ptr self p alloc =>
    match alloc with
    | some e => [Op.sp_ctor_ptr p (some e)]
    | none => [Op.sp_ctor_ptr p none, Op.sp_swap self s.sps.length, Op.sp_dtor s.sps.length]
  | Op.sp_reset_ptr_deleter self p d alloc =>
    match alloc with
    | some e => [Op.sp_ctor_ptr_deleter p d (some e)]
    | none =>
      [Op.sp_ctor_ptr_deleter p d none, Op.sp_swap self s.sps.length,
        Op.sp_dtor s.sps.length]
  | Op.wp_ctor_move other => [Op.wp_ctor, Op.wp_swap s.wps.length other]
  | Op.wp_assign_copy self other =>
    [Op.wp_ctor_copy other, Op.wp_swap self s.wps.length, Op.wp_dtor s.wps.length]
  | Op.wp_assign_move self other =>
    if self ≠ other then
      [Op.wp_ctor, Op.wp_ctor, Op.wp_swap (s.wps.length + 1) other,
        Op.wp_swap (s.wps.length + 1) self, Op.wp_dtor (s.wps.length + 1),
        Op.wp_dtor s.wps.length]
    else []
  | op => [op]

/-- The operations whose body is not a sequence of other operations. -/
def Op.primitive : Op → Bool
  | Op.sp_ctor_move _ => false
  | Op.sp_assign_copy _ _ => false
  | Op.sp_reset _ => false
  | Op.sp_assign_move _ _ => false
  | Op.sp_reset_ptr _ _ _ => false
  | Op.sp_reset_ptr_deleter _ _ _ _ => false
  | Op.wp_ctor_move _ => false
  | Op.wp_assign_copy _ _ => false
  | Op.wp_assign_move _ _ => false
  | _ => true

/-! ## User code inside `delete_object`

`deleter(ptr)` and `~T()` are user code. When the managed object has handles as members,
that code destroys them. The functions below are `delete_object` and its callers up to
move assignment, with what the user code does to the state as the argument `user`. -/

/-- The function `control_block.delete_object`, where the call `deleter(ptr)`, or `~T()`,
does `user`. -/
def control_block.delete_object_with (user : State → Option State) (s : State) (c : Nat) :
    Option State :=
  match s.load c with
  | none => none
  | some cb =>
    match cb.variant with
    | Variant.regular p d =>
      match user ((s.emit (Event.delete_object c)).emit (Event.deleter d p)) with
      | none => none
      | some s1 =>
        match s1.load c with
        | none => none
        | some cb1 => some (s1.store c { cb1 with variant := Variant.regular Ptr.null d })
    | Variant.inplace _ =>
      user ((s.emit (Event.delete_object c)).emit (Event.destructor c))

/-- The function `control_block.del_strong`:
`refs--; if (refs == 0) { delete_object(); del_weak(); }`. -/
def control_block.del_strong_with (user : State → Option State) (s : State) (c : Nat) :
    Option State :=
  match control_block.dec_refs s c with
  | none => none
  | some s1 =>
    match s1.load c with
    | none => none
    | some cb1 =>
      if cb1.refs = 0 then
        match control_block.delete_object_with user s1 c with
        | none => none
        | some s2 => control_block.del_weak s2 c
      else some s1

/-- The destructor `~shared_ptr()`. -/
def shared_ptr.dtor_with (user : State → Option State) (s : State) (self : Nat) :
    Option State :=
  match s.sp self with
  | none => none
  | some a =>
    match (match a.cblock with
           | none => some s
           | some c => control_block.del_strong_with user s c) with
    | none => none
    | some s1 => some (s1.setSp self none)

/-- The function `reset()`: `shared_ptr<T> empty; swap(empty);`. -/
def shared_ptr.reset_with (user : State → Option State) (s : State) (self : Nat) :
    Option State :=
  match s.sp self with
  | none => none
  | some _ =>
    let (s1, empty) := shared_ptr.ctor s
    match shared_ptr.swap s1 self empty with
    | none => none
    | some s2 => shared_ptr.dtor_with user s2 empty

/-- Move assignment `operator=(shared_ptr<T>&& other)`:
`if (this != &other) { reset(); swap(other); }`. -/
def shared_ptr.assign_move_with (user : State → Option State) (s : State)
    (self other : Nat) : Option State :=
  match s.sp self, s.sp other with
  | some _, some _ =>
    if self ≠ other then
      match shared_ptr.reset_with user s self with
      | none => none
      | some s1 => shared_ptr.swap s1 self other
    else some s
  | _, _ => none

/-- A list of two nodes: the handle 0 (`head`) is the only owner of the object 7, the
handle 1 (`head->next`) is a member of the object 7 and the only owner of the object 8.
It is the state after `head = shared_ptr<Node>(new Node)` and
`head->next = shared_ptr<Node>(new Node)`. -/
def linked_state : State :=
  { heap := [some ⟨1, 1, Variant.regular (Ptr.obj 7) default_delete⟩,
             some ⟨1, 1, Variant.regular (Ptr.obj 8) default_delete⟩],
    sps := [some ⟨some 0, Ptr.obj 7⟩, some ⟨some 1, Ptr.obj 8⟩],
    wps := [], log := [] }

/-- What deleting the object 7 of `linked_state` does: its destructor destroys the member
`next`, the handle 1. -/
def linked_user (s : State) : Option State := shared_ptr.dtor s 1

/-! ## Lists of optional objects -/

theorem getD_set_none {α : Type} (l : List (Option α)) (i j : Nat) (x : Option α) :
    (l.set i x).getD j none = if j = i ∧ i < l.length then x else l.getD j none := by
  simp only [List.getD_eq_getElem?_getD, List.getElem?_set]
  by_cases h : i = j
  · subst h
    by_cases h2 : i < l.length
    · simp [h2]
    · simp [h2, List.getElem?_eq_none (Nat.le_of_not_lt h2)]
  · have h' : ¬ j = i := fun e => h e.symm
    simp [h, h']

theorem getD_append_one {α : Type} (l : List (Option α)) (j : Nat) (x : Option α) :
    (l ++ [x]).getD j none = if j = l.length then x else l.getD j none := by
  simp only [List.getD_eq_getElem?_getD]
  rcases Nat.lt_trichotomy j l.length with h | h | h
  · rw [List.getElem?_append_left h]; simp [Nat.ne_of_lt h]
  · subst h; simp
  · rw [List.getElem?_append_right (Nat.le_of_lt h)]
    have h1 : j - l.length = (j - l.length - 1) + 1 := by omega
    rw [h1]
    simp [Nat.ne_of_gt h, List.getElem?_eq_none (Nat.le_of_lt h)]

theorem lt_of_getD_some {α : Type} (l : List (Option α)) (i : Nat) (a : α)
    (h : l.getD i none = some a) : i < l.length := by
  by_contra hlt
  rw [List.getD_eq_default _ _ (by omega)] at h
  cases h

theorem countP_set_add {α : Type} (p : Option α → Bool) (hp : p none = false)
    (l : List (Option α)) (i : Nat) (x : Option α) :
    (l.set i x).countP p + (if p (l.getD i none) then 1 else 0)
      = l.countP p + (if i < l.length ∧ p x then 1 else 0) := by
  induction l generalizing i with
  | nil => simp [hp]
  | cons a l ih =>
    cases i with
    | zero =>
      simp only [List.set_cons_zero, List.countP_cons, List.getD_cons_zero, List.length_cons]
      by_cases h1 : p a <;> by_cases h2 : p x <;> simp [h1, h2]
    | succ i =>
      simp only [List.set_cons_succ, List.countP_cons, List.getD_cons_succ, List.length_cons]
      have := ih i
      simp only [Nat.add_lt_add_iff_right]
      omega

theorem countP_append_one {α : Type} (p : Option α → Bool) (l : List (Option α))
    (x : Option α) : (l ++ [x]).countP p = l.countP p + (if p x then 1 else 0) := by
  simp [List.countP_append, List.countP_cons]

/-! ## Reading a state after a write -/

section reads
variable (s : State) (c c1 i j : Nat) (cb : control_block) (e : Event)
  (h : shared_ptr) (oh : Option shared_ptr) (w : weak_ptr) (ow : Option weak_ptr)

@[simp] theorem heap_store : (s.store c cb).heap.length = s.heap.length := by simp [State.store]
@[simp] theorem heap_free : (s.free c).heap.length = s.heap.length := by simp [State.free]
@[simp] theorem heap_alloc : (s.alloc cb).heap.length = s.heap.length + 1 := by simp [State.alloc]
@[simp] theorem heap_emit : (s.emit e).heap = s.heap := rfl
@[simp] theorem heap_pushSp : (s.pushSp h).heap = s.heap := rfl
@[simp] theorem heap_setSp : (s.setSp i oh).heap = s.heap := rfl
@[simp] theorem heap_pushWp : (s.pushWp w).heap = s.heap := rfl
@[simp] theorem heap_setWp : (s.setWp i ow).heap = s.heap := rfl

@[simp] theorem load_store :
    (s.store c cb).load c1 = if c1 = c ∧ c < s.heap.length then some cb else s.load c1 :=
  getD_set_none _ _ _ _
@[simp] theorem load_free :
    (s.free c).load c1 = if c1 = c ∧ c < s.heap.length then none else s.load c1 :=
  getD_set_none _ _ _ _
@[simp] theorem load_alloc :
    (s.alloc cb).load c1 = if c1 = s.heap.length then some cb else s.load c1 :=
  getD_append_one _ _ _
@[simp] theorem load_emit : (s.emit e).load c = s.load c := rfl
@[simp] theorem load_pushSp : (s.pushSp h).load c = s.load c := rfl
@[simp] theorem load_setSp : (s.setSp i oh).load c = s.load c := rfl
@[simp] theorem load_pushWp : (s.pushWp w).load c = s.load c := rfl
@[simp] theorem load_setWp : (s.setWp i ow).load c = s.load c := rfl

@[simp] theorem sps_store : (s.store c cb).sps = s.sps := rfl
@[simp] theorem sps_free : (s.free c).sps = s.sps := rfl
@[simp] theorem sps_alloc : (s.alloc cb).sps = s.sps := rfl
@[simp] theorem sps_emit : (s.emit e).sps = s.sps := rfl
@[simp] theorem sps_pushWp : (s.pushWp w).sps = s.sps := rfl
@[simp] theorem sps_setWp : (s.setWp i ow).sps = s.sps := rfl
@[simp] theorem sps_length_pushSp : (s.pushSp h).sps.length = s.sps.length + 1 := by
  simp [State.pushSp]
@[simp] theorem sps_length_setSp : (s.setSp i oh).sps.length = s.sps.length := by
  simp [State.setSp]

@[simp] theorem wps_store : (s.store c cb).wps = s.wps := rfl
@[simp] theorem wps_free : (s.free c).wps = s.wps := rfl
@[simp] theorem wps_alloc : (s.alloc cb).wps = s.wps := rfl
@[simp] theorem wps_emit : (s.emit e).wps = s.wps := rfl
@[simp] theorem wps_pushSp : (s.pushSp h).wps = s.wps := rfl
@[simp] theorem wps_setSp : (s.setSp i oh).wps = s.wps := rfl
@[simp] theorem wps_length_pushWp : (s.pushWp w).wps.length = s.wps.length + 1 := by
  simp [State.pushWp]
@[simp] theorem wps_length_setWp : (s.setWp i ow).wps.length = s.wps.length := by
  simp [State.setWp]

@[simp] theorem log_store : (s.store c cb).log = s.log := rfl
@[simp] theorem log_free : (s.free c).log = s.log := rfl
@[simp] theorem log_alloc : (s.alloc cb).log = s.log := rfl
@[simp] theorem log_emit : (s.emit e).log = s.log ++ [e] := rfl
@[simp] theorem log_pushSp : (s.pushSp h).log = s.log := rfl
@[simp] theorem log_setSp : (s.setSp i oh).log = s.log := rfl
@[simp] theorem log_pushWp : (s.pushWp w).log = s.log := rfl
@[simp] theorem log_setWp : (s.setWp i ow).log = s.log := rfl

@[simp] theorem sp_store : (s.store c cb).sp i = s.sp i := rfl
@[simp] theorem sp_free : (s.free c).sp i = s.sp i := rfl
@[simp] theorem sp_alloc : (s.alloc cb).sp i = s.sp i := rfl
@[simp] theorem sp_emit : (s.emit e).sp i = s.sp i := rfl
@[simp] theorem sp_pushWp : (s.pushWp w).sp i = s.sp i := rfl
@[simp] theorem sp_setWp : (s.setWp j ow).sp i = s.sp i := rfl
@[simp] theorem sp_pushSp :
    (s.pushSp h).sp i = if i = s.sps.length then some h else s.sp i :=
  getD_append_one _ _ _
@[simp] theorem sp_setSp :
    (s.setSp j oh).sp i = if i = j ∧ j < s.sps.length then oh else s.sp i :=
  getD_set_none _ _ _ _

@[simp] theorem wp_store : (s.store c cb).wp i = s.wp i := rfl
@[simp] theorem wp_free : (s.free c).wp i = s.wp i := rfl
@[simp] theorem wp_alloc : (s.alloc cb).wp i = s.wp i := rfl
@[simp] theorem wp_emit : (s.emit e).wp i = s.wp i := rfl
@[simp] theorem wp_pushSp : (s.pushSp h).wp i = s.wp i := rfl
@[simp] theorem wp_setSp : (s.setSp j oh).wp i = s.wp i := rfl
@[simp] theorem wp_pushWp :
    (s.pushWp w).wp i = if i = s.wps.length then some w else s.wp i :=
  getD_append_one _ _ _
@[simp] theorem wp_setWp :
    (s.setWp j ow).wp i = if i = j ∧ j < s.wps.length then ow else s.wp i :=
  getD_set_none _ _ _ _

@[simp] theorem owners_store : (s.store c cb).owners c1 = s.owners c1 := rfl
@[simp] theorem owners_free : (s.free c).owners c1 = s.owners c1 := rfl
@[simp] theorem owners_alloc : (s.alloc cb).owners c1 = s.owners c1 := rfl
@[simp] theorem owners_emit : (s.emit e).owners c1 = s.owners c1 := rfl
@[simp] theorem owners_pushWp : (s.pushWp w).owners c1 = s.owners c1 := rfl
@[simp] theorem owners_setWp : (s.setWp i ow).owners c1 = s.owners c1 := rfl
@[simp] theorem owners_pushSp :
    (s.pushSp h).owners c = s.owners c + (if h.cblock = some c then 1 else 0) := by
  simp only [State.owners, State.pushSp, countP_append_one, shared_ptr.refers, decide_eq_true_eq]

@[simp] theorem observers_store : (s.store c cb).observers c1 = s.observers c1 := rfl
@[simp] theorem observers_free : (s.free c).observers c1 = s.observers c1 := rfl
@[simp] theorem observers_alloc : (s.alloc cb).observers c1 = s.observers c1 := rfl
@[simp] theorem observers_emit : (s.emit e).observers c1 = s.observers c1 := rfl
@[simp] theorem observers_pushSp : (s.pushSp h).observers c1 = s.observers c1 := rfl
@[simp] theorem observers_setSp : (s.setSp i oh).observers c1 = s.observers c1 := rfl
@[simp] theorem observers_pushWp :
    (s.pushWp w).observers c = s.observers c + (if w.cblock = some c then 1 else 0) := by
  simp only [State.observers, State.pushWp, countP_append_one, weak_ptr.refers, decide_eq_true_eq]

@[simp] theorem live_store : (s.store c cb).live = s.live := rfl
@[simp] theorem live_free : (s.free c).live = s.live := rfl
@[simp] theorem live_alloc : (s.alloc cb).live = s.live := rfl
@[simp] theorem live_emit : (s.emit e).live = s.live := rfl
@[simp] theorem live_pushSp : (s.pushSp h).live = s.live + 1 := by
  simp [State.live, State.pushSp, countP_append_one]; omega
@[simp] theorem live_pushWp : (s.pushWp w).live = s.live + 1 := by
  simp [State.live, State.pushWp, countP_append_one]; omega

@[simp] theorem deletions_store : (s.store c cb).deletions c1 = s.deletions c1 := rfl
@[simp] theorem deletions_free : (s.free c).deletions c1 = s.deletions c1 := rfl
@[simp] theorem deletions_alloc : (s.alloc cb).deletions c1 = s.deletions c1 := rfl
@[simp] theorem deletions_pushSp : (s.pushSp h).deletions c1 = s.deletions c1 := rfl
@[simp] theorem deletions_setSp : (s.setSp i oh).deletions c1 = s.deletions c1 := rfl
@[simp] theorem deletions_pushWp : (s.pushWp w).deletions c1 = s.deletions c1 := rfl
@[simp] theorem deletions_setWp : (s.setWp i ow).deletions c1 = s.deletions c1 := rfl
@[simp] theorem deletions_emit :
    (s.emit e).deletions c =
      s.deletions c + (if e = Event.delete_object c then 1 else 0) := by
  simp [State.deletions, State.emit, List.count_append, List.count_cons]

@[simp] theorem frees_store : (s.store c cb).frees c1 = s.frees c1 := rfl
@[simp] theorem frees_free : (s.free c).frees c1 = s.frees c1 := rfl
@[simp] theorem frees_alloc : (s.alloc cb).frees c1 = s.frees c1 := rfl
@[simp] theorem frees_pushSp : (s.pushSp h).frees c1 = s.frees c1 := rfl
@[simp] theorem frees_setSp : (s.setSp i oh).frees c1 = s.frees c1 := rfl
@[simp] theorem frees_pushWp : (s.pushWp w).frees c1 = s.frees c1 := rfl
@[simp] theorem frees_setWp : (s.setWp i ow).frees c1 = s.frees c1 := rfl
@[simp] theorem frees_emit :
    (s.emit e).frees c = s.frees c + (if e = Event.delete_this c then 1 else 0) := by
  simp [State.frees, State.emit, List.count_append, List.count_cons]

theorem owners_setSp :
    (s.setSp i oh).owners c + (if shared_ptr.refers c (s.sp i) then 1 else 0)
      = s.owners c + (if i < s.sps.length ∧ shared_ptr.refers c oh then 1 else 0) :=
  countP_set_add _ rfl _ _ _

theorem observers_setWp :
    (s.setWp i ow).observers c + (if weak_ptr.refers c (s.wp i) then 1 else 0)
      = s.observers c + (if i < s.wps.length ∧ weak_ptr.refers c ow then 1 else 0) :=
  countP_set_add _ rfl _ _ _

theorem live_setSp :
    (s.setSp i oh).live + (if (s.sp i).isSome then 1 else 0)
      = s.live + (if i < s.sps.length ∧ oh.isSome then 1 else 0) := by
  have := countP_set_add Option.isSome rfl s.sps i oh
  simp only [State.live, State.setSp, State.sp] at *
  omega

theorem live_setWp :
    (s.setWp i ow).live + (if (s.wp i).isSome then 1 else 0)
      = s.live + (if i < s.wps.length ∧ ow.isSome then 1 else 0) := by
  have := countP_set_add Option.isSome rfl s.wps i ow
  simp only [State.live, State.setWp, State.wp] at *
  omega

theorem load_lt {s : State} {c : Nat} {cb : control_block} (h : s.load c = some cb) :
    c < s.heap.length := lt_of_getD_some _ _ _ h

theorem sp_lt {s : State} {i : Nat} {h : shared_ptr} (hi : s.sp i = some h) :
    i < s.sps.length := lt_of_getD_some _ _ _ hi

theorem wp_lt {s : State} {i : Nat} {h : weak_ptr} (hi : s.wp i = some h) :
    i < s.wps.length := lt_of_getD_some _ _ _ hi

theorem owners_le_live (s : State) (c : Nat) : s.owners c + s.observers c ≤ s.live := by
  unfold State.owners State.observers State.live
  have h1 : s.sps.countP (shared_ptr.refers c) ≤ s.sps.countP Option.isSome := by
    apply List.countP_mono_left
    intro x _ hx
    cases x with
    | none => simp [shared_ptr.refers] at hx
    | some _ => rfl
  have h2 : s.wps.countP (weak_ptr.refers c) ≤ s.wps.countP Option.isSome := by
    apply List.countP_mono_left
    intro x _ hx
    cases x with
    | none => simp [weak_ptr.refers] at hx
    | some _ => rfl
  omega

end reads

/-! ## Closed forms of the control-block operations -/

theorem store_load {s : State} {c : Nat} {cb : control_block} (h : s.load c = some cb) :
    s.store c cb = s := by
  cases s with
  | mk heap sps wps log =>
    simp only [State.store, State.load] at *
    congr 1
    apply List.ext_getElem?
    intro n
    simp only [List.getElem?_set]
    by_cases hn : c = n
    · subst hn
      have hlt := lt_of_getD_some _ _ _ h
      simp only [List.getD_eq_getElem?_getD] at h
      simp only [hlt, if_true]
      rw [List.getElem?_eq_getElem hlt] at h ⊢
      simpa using h.symm
    · simp [hn]

theorem store_store (s : State) (c : Nat) (x y : control_block) :
    (s.store c x).store c y = s.store c y := by
  simp [State.store, List.set_set]

theorem free_store (s : State) (c : Nat) (x : control_block) :
    (s.store c x).free c = s.free c := by
  simp [State.store, State.free, List.set_set]

theorem add_weak_eq {s : State} {c : Nat} {cb : control_block} (h : s.load c = some cb) :
    control_block.add_weak s c
      = some (s.store c { cb with weak_refs := size_inc cb.weak_refs }) := by
  simp [control_block.add_weak, h]

theorem add_strong_eq {s : State} {c : Nat} {cb : control_block} (h : s.load c = some cb) :
    control_block.add_strong s c
      = some (s.store c ⟨size_inc cb.refs,
          if cb.refs = 0 then size_inc cb.weak_refs else cb.weak_refs, cb.variant⟩) := by
  have hlt := load_lt h
  by_cases h0 : cb.refs = 0
  · simp [control_block.add_strong, h, h0, add_weak_eq h, hlt, store_store]
  · simp [control_block.add_strong, h, h0]

theorem del_weak_eq {s : State} {c : Nat} {cb : control_block} (h : s.load c = some cb) :
    control_block.del_weak s c
      = some (if size_dec cb.weak_refs = 0 then (s.emit (Event.delete_this c)).free c
              else s.store c { cb with weak_refs := size_dec cb.weak_refs }) := by
  by_cases h0 : size_dec cb.weak_refs = 0
  · simp only [control_block.del_weak, h, h0, if_true]
    rw [← free_store (s.emit _) c { cb with weak_refs := 0 }]
    rfl
  · simp [control_block.del_weak, h, h0]

theorem delete_object_eq {s : State} {c : Nat} {cb : control_block}
    (h : s.load c = some cb) :
    control_block.delete_object s c
      = some (((s.emit (Event.delete_object c)).emit (cb.variant.effect c)).store c
          { cb with variant := cb.variant.after }) := by
  unfold control_block.delete_object
  rw [h]
  obtain ⟨r, w, v⟩ := cb
  cases v with
  | regular p d => simp [Variant.effect, Variant.after]
  | inplace a =>
    simp only [Variant.effect, Variant.after]
    have h2 : ((s.emit (Event.delete_object c)).emit (Event.destructor c)).load c
        = some ⟨r, w, Variant.inplace a⟩ := by
      simp only [load_emit, h]
    rw [store_load h2]

theorem del_strong_eq {s : State} {c : Nat} {cb : control_block} (h : s.load c = some cb) :
    control_block.del_strong s c
      = some (
        if size_dec cb.refs ≠ 0 then s.store c { cb with refs := size_dec cb.refs }
        else if size_dec cb.weak_refs ≠ 0 then
          ((s.emit (Event.delete_object c)).emit (cb.variant.effect c)).store c
            ⟨0, size_dec cb.weak_refs, cb.variant.after⟩
        else
          (((s.emit (Event.delete_object c)).emit (cb.variant.effect c)).emit
            (Event.delete_this c)).free c) := by
  have hlt := load_lt h
  have h1 : (s.store c { cb with refs := size_dec cb.refs }).load c
      = some { cb with refs := size_dec cb.refs } := by simp [hlt]
  by_cases h0 : size_dec cb.refs = 0
  · rw [h0] at h1
    have h3 : ((((s.store c ⟨0, cb.weak_refs, cb.variant⟩).emit (Event.delete_object c)).emit
        (cb.variant.effect c)).store c ⟨0, cb.weak_refs, cb.variant.after⟩).load c
        = some ⟨0, cb.weak_refs, cb.variant.after⟩ := by simp [hlt]
    simp only [control_block.del_strong, control_block.dec_refs, h, h1, h0, if_true,
      delete_object_eq h1, ne_eq, not_true_eq_false, if_false, del_weak_eq h3]
    by_cases h2 : size_dec cb.weak_refs = 0
    · simp only [h2, if_true, not_true_eq_false, if_false]
      simp only [State.store, State.emit, State.free, List.set_set]
    · simp only [h2, if_false, not_false_eq_true, if_true]
      simp only [State.store, State.emit, List.set_set]
  · simp [control_block.del_strong, control_block.dec_refs, h, h1, h0]
theorem size_inc_eq {n : Nat} (h : n + 1 < SIZE_MOD) : size_inc n = n + 1 := by
  unfold size_inc SIZE_MOD at *; omega

theorem size_dec_eq {n : Nat} (h : n < SIZE_MOD) (h1 : 0 < n) : size_dec n = n - 1 := by
  unfold size_dec SIZE_MOD at *; omega

theorem size_dec_eq_zero {n : Nat} (h : n < SIZE_MOD) : size_dec n = 0 ↔ n = 1 := by
  unfold size_dec SIZE_MOD at *; omega

theorem size_inc_lt (n : Nat) : size_inc n < SIZE_MOD := by
  unfold size_inc SIZE_MOD; omega

theorem size_dec_lt (n : Nat) : size_dec n < SIZE_MOD := by
  unfold size_dec SIZE_MOD; omega

theorem size_inc_zero : size_inc 0 = 1 := by decide

theorem size_inc_one : size_inc 1 = 2 := by decide

theorem size_dec_one : size_dec 1 = 0 := by decide

theorem size_dec_two : size_dec 2 = 1 := by decide

theorem owners_setSp_of {s : State} {i : Nat} {a : shared_ptr} (hi : s.sp i = some a)
    (oh : Option shared_ptr) (c : Nat) :
    (s.setSp i oh).owners c + (if a.cblock = some c then 1 else 0)
      = s.owners c + (if shared_ptr.refers c oh then 1 else 0) := by
  have := owners_setSp s c i oh
  simpa [hi, sp_lt hi, shared_ptr.refers] using this

theorem observers_setWp_of {s : State} {i : Nat} {a : weak_ptr} (hi : s.wp i = some a)
    (ow : Option weak_ptr) (c : Nat) :
    (s.setWp i ow).observers c + (if a.cblock = some c then 1 else 0)
      = s.observers c + (if weak_ptr.refers c ow then 1 else 0) := by
  have := observers_setWp s c i ow
  simpa [hi, wp_lt hi, weak_ptr.refers] using this

/-! ## The accounting is preserved by every operation -/

theorem Accounted.congr {s s1 : State} {c : Nat} (A : Accounted s c)
    (hl : s1.load c = s.load c) (ho : s1.owners c = s.owners c)
    (hb : s1.observers c = s.observers c) (hd : s1.deletions c = s.deletions c)
    (hf : s1.frees c = s.frees c) (hh : c < s1.heap.length ↔ c < s.heap.length) :
    Accounted s1 c := by
  constructor
  · intro cb h
    rw [hl] at h
    simpa [ho, hb] using A.live cb h
  · intro h
    rw [hl] at h
    simpa [ho, hb] using A.dead h
  · simpa [ho, hd, hh] using A.deletions
  · simpa [hl, hf, hh] using A.frees

theorem wf_pushSp_none {s : State} (p : Ptr) (hwf : WF s) : WF (s.pushSp ⟨none, p⟩) := by
  intro c
  exact (hwf c).congr rfl (by simp) rfl rfl rfl Iff.rfl

theorem wf_pushWp_none {s : State} (p : Ptr) (hwf : WF s) : WF (s.pushWp ⟨none, p⟩) := by
  intro c
  exact (hwf c).congr rfl rfl (by simp) rfl rfl Iff.rfl

theorem wf_emit_deleter {s : State} (d : Nat) (p : Ptr) (hwf : WF s) :
    WF (s.emit (Event.deleter d p)) := by
  intro c
  exact (hwf c).congr rfl rfl rfl (by simp) (by simp) Iff.rfl

theorem wf_acquire {s : State} {c : Nat} {cb : control_block} (p : Ptr) (hwf : WF s)
    (h : s.load c = some cb) (h0 : cb.refs ≠ 0) (hb : s.live + 1 < SIZE_MOD) :
    WF ((s.pushSp ⟨some c, p⟩).store c ⟨size_inc cb.refs, cb.weak_refs, cb.variant⟩) := by
  intro c1
  have A := hwf c1
  have hlt := load_lt h
  have hl := owners_le_live s c
  obtain ⟨a1, a2, a3, a4, a5⟩ := (hwf c).live cb h
  have hinc : size_inc cb.refs = cb.refs + 1 := size_inc_eq (by omega)
  by_cases hc : c1 = c
  · subst hc
    constructor
    · intro cb1 h1
      simp [hlt] at h1
      subst h1
      simp [hinc]
      split_ifs at * <;> omega
    · intro h1
      simp [hlt] at h1
    · have := A.deletions
      simp [hlt] at this ⊢
      split_ifs at * <;> omega
    · have := A.frees
      simp [hlt, h] at this ⊢
      omega
  · have hc' : ¬ c = c1 := fun e => hc e.symm
    exact A.congr (by simp [hc]) (by simp [hc']) rfl rfl rfl (by simp)

theorem wf_observe {s : State} {c : Nat} {cb : control_block} (p : Ptr) (hwf : WF s)
    (h : s.load c = some cb) (hb : s.live + 1 < SIZE_MOD) :
    WF ((s.pushWp ⟨some c, p⟩).store c { cb with weak_refs := size_inc cb.weak_refs }) := by
  intro c1
  have A := hwf c1
  have hlt := load_lt h
  have hl := owners_le_live s c
  obtain ⟨a1, a2, a3, a4, a5⟩ := (hwf c).live cb h
  have hinc : size_inc cb.weak_refs = cb.weak_refs + 1 :=
    size_inc_eq (by split_ifs at * <;> omega)
  by_cases hc : c1 = c
  · subst hc
    constructor
    · intro cb1 h1
      simp [hlt] at h1
      subst h1
      simp [hinc]
      split_ifs at * <;> omega
    · intro h1
      simp [hlt] at h1
    · have := A.deletions
      simpa [hlt] using this
    · have := A.frees
      simp [hlt, h] at this ⊢
      omega
  · have hc' : ¬ c = c1 := fun e => hc e.symm
    exact A.congr (by simp [hc]) rfl (by simp [hc']) rfl rfl (by simp)

theorem wf_fresh {s : State} (v : Variant) (p : Ptr) (hwf : WF s) :
    WF (((s.alloc ⟨0, 0, v⟩).pushSp ⟨some s.heap.length, p⟩).store s.heap.length
      ⟨size_inc 0, size_inc 0, v⟩) := by
  intro c1
  have A := hwf c1
  by_cases hc : c1 = s.heap.length
  · subst hc
    have hnone : s.load s.heap.length = none := by
      cases hx : s.load s.heap.length with
      | none => rfl
      | some cb => exact absurd (load_lt hx) (Nat.lt_irrefl _)
    obtain ⟨d1, d2⟩ := A.dead hnone
    constructor
    · intro cb1 h1
      simp at h1
      subst h1
      simp [size_inc_zero, d1, d2, SIZE_MOD]
    · intro h1
      simp at h1
    · have := A.deletions
      simp at this ⊢
      simp [this, d1]
    · have := A.frees
      simp at this ⊢
      exact this
  · have hc' : ¬ s.heap.length = c1 := fun e => hc e.symm
    refine A.congr (by simp [hc]) (by simp [hc']) rfl rfl rfl ?_
    simp
    omega

theorem wf_swap_sp {s : State} {i j : Nat} {a b : shared_ptr} (hwf : WF s)
    (hi : s.sp i = some a) (hj : s.sp j = some b) :
    WF ((s.setSp i (some b)).setSp j (some a)) ∧
      ∀ c, ((s.setSp i (some b)).setSp j (some a)).owners c = s.owners c := by
  have key : ∀ c, ((s.setSp i (some b)).setSp j (some a)).owners c = s.owners c := by
    intro c
    have hj1 : (s.setSp i (some b)).sp j = some b := by
      simp only [sp_setSp]
      split_ifs with hij
      · rfl
      · exact hj
    have e1 := owners_setSp_of hj1 (some a) c
    have e2 := owners_setSp_of hi (some b) c
    simp only [shared_ptr.refers, decide_eq_true_eq] at e1 e2
    split_ifs at e1 e2 <;> omega
  refine ⟨?_, key⟩
  intro c
  exact (hwf c).congr rfl (key c) rfl rfl rfl Iff.rfl

theorem wf_swap_wp {s : State} {i j : Nat} {a b : weak_ptr} (hwf : WF s)
    (hi : s.wp i = some a) (hj : s.wp j = some b) :
    WF ((s.setWp i (some b)).setWp j (some a)) ∧
      ∀ c, ((s.setWp i (some b)).setWp j (some a)).observers c = s.observers c := by
  have key : ∀ c, ((s.setWp i (some b)).setWp j (some a)).observers c = s.observers c := by
    intro c
    have hj1 : (s.setWp i (some b)).wp j = some b := by
      simp only [wp_setWp]
      split_ifs with hij
      · rfl
      · exact hj
    have e1 := observers_setWp_of hj1 (some a) c
    have e2 := observers_setWp_of hi (some b) c
    simp only [weak_ptr.refers, decide_eq_true_eq] at e1 e2
    split_ifs at e1 e2 <;> omega
  refine ⟨?_, key⟩
  intro c
  exact (hwf c).congr rfl rfl (key c) rfl rfl Iff.rfl

theorem wf_end_sp_none {s : State} {i : Nat} {a : shared_ptr} (hwf : WF s)
    (hi : s.sp i = some a) (ha : a.cblock = none) :
    WF (s.setSp i none) ∧ ∀ c, (s.setSp i none).owners c = s.owners c := by
  have key : ∀ c, (s.setSp i none).owners c = s.owners c := by
    intro c
    have e := owners_setSp_of hi none c
    simpa [ha, shared_ptr.refers] using e
  refine ⟨?_, key⟩
  intro c
  exact (hwf c).congr rfl (key c) rfl rfl rfl Iff.rfl

theorem wf_end_wp_none {s : State} {i : Nat} {a : weak_ptr} (hwf : WF s)
    (hi : s.wp i = some a) (ha : a.cblock = none) :
    WF (s.setWp i none) ∧ ∀ c, (s.setWp i none).observers c = s.observers c := by
  have key : ∀ c, (s.setWp i none).observers c = s.observers c := by
    intro c
    have e := observers_setWp_of hi none c
    simpa [ha, weak_ptr.refers] using e
  refine ⟨?_, key⟩
  intro c
  exact (hwf c).congr rfl rfl (key c) rfl rfl Iff.rfl

/-- A live owning handle refers to a live block whose `refs` is not zero. -/
theorem owner_block {s : State} {i c : Nat} {a : shared_ptr} (hwf : WF s)
    (hi : s.sp i = some a) (ha : a.cblock = some c) :
    ∃ cb, s.load c = some cb ∧ 0 < cb.refs ∧ cb.refs = s.owners c := by
  have e := owners_setSp_of hi none c
  simp only [ha, if_true, shared_ptr.refers] at e
  have hpos : 0 < s.owners c := by
    simp at e
    omega
  cases hl : s.load c with
  | none =>
    have := ((hwf c).dead hl).1
    omega
  | some cb =>
    have := ((hwf c).live cb hl).1
    exact ⟨cb, rfl, by omega, this⟩

/-- A live observing handle refers to a live block. -/
theorem observer_block {s : State} {i c : Nat} {a : weak_ptr} (hwf : WF s)
    (hi : s.wp i = some a) (ha : a.cblock = some c) :
    ∃ cb, s.load c = some cb ∧ 0 < s.observers c := by
  have e := observers_setWp_of hi none c
  simp only [ha, if_true, weak_ptr.refers] at e
  have hpos : 0 < s.observers c := by
    simp at e
    omega
  cases hl : s.load c with
  | none =>
    have := ((hwf c).dead hl).2
    omega
  | some cb => exact ⟨cb, rfl, hpos⟩

@[simp] theorem effect_ne_delete_object (c c1 : Nat) (v : Variant) :
    (Variant.effect c v = Event.delete_object c1) = False := by
  cases v <;> simp [Variant.effect]

@[simp] theorem effect_ne_delete_this (c c1 : Nat) (v : Variant) :
    (Variant.effect c v = Event.delete_this c1) = False := by
  cases v <;> simp [Variant.effect]

theorem setSp_store (s : State) (c i : Nat) (cb : control_block) (o : Option shared_ptr) :
    (s.store c cb).setSp i o = (s.setSp i o).store c cb := rfl
theorem setSp_emit (s : State) (i : Nat) (e : Event) (o : Option shared_ptr) :
    (s.emit e).setSp i o = (s.setSp i o).emit e := rfl
theorem setSp_free (s : State) (c i : Nat) (o : Option shared_ptr) :
    (s.free c).setSp i o = (s.setSp i o).free c := rfl
theorem setWp_store (s : State) (c i : Nat) (cb : control_block) (o : Option weak_ptr) :
    (s.store c cb).setWp i o = (s.setWp i o).store c cb := rfl
theorem setWp_emit (s : State) (i : Nat) (e : Event) (o : Option weak_ptr) :
    (s.emit e).setWp i o = (s.setWp i o).emit e := rfl
theorem setWp_free (s : State) (c i : Nat) (o : Option weak_ptr) :
    (s.free c).setWp i o = (s.setWp i o).free c := rfl

theorem wf_release_sp {s : State} {i c : Nat} {a : shared_ptr} (hwf : WF s)
    (hi : s.sp i = some a) (ha : a.cblock = some c) :
    ∃ s1, control_block.del_strong s c = some s1 ∧ WF (s1.setSp i none) ∧
      (∀ c1, (s1.setSp i none).owners c1 + (if c1 = c then 1 else 0) = s.owners c1) ∧
      s1.sps = s.sps ∧ s1.wps = s.wps := by
  obtain ⟨cb, hcb, hpos, hown⟩ := owner_block hwf hi ha
  obtain ⟨a1, a2, a3, a4, a5⟩ := (hwf c).live cb hcb
  have hlt := load_lt hcb
  have hdr : size_dec cb.refs = cb.refs - 1 := size_dec_eq a4 hpos
  have hdw : size_dec cb.weak_refs = cb.weak_refs - 1 := size_dec_eq a5 a3
  have e : ∀ c1, (s.setSp i none).owners c1 + (if c1 = c then 1 else 0) = s.owners c1 := by
    intro c1
    have e := owners_setSp_of hi none c1
    simp only [ha, shared_ptr.refers, Option.some.injEq] at e
    have hcc : (c = c1) = (c1 = c) := propext ⟨Eq.symm, Eq.symm⟩
    simpa [hcc] using e
  rw [del_strong_eq hcb, hdr, hdw]
  refine ⟨_, rfl, ?_, ?_, ?_, ?_⟩
  · intro c1
    have A := hwf c1
    have e1 := e c1
    by_cases hc : c1 = c
    · subst hc
      have Ad := A.deletions
      have Af := A.frees
      simp only [hlt, hcb, true_and, if_true] at Ad Af e1
      split_ifs with h1 h2
      · constructor
        · intro cb1 hl1
          simp [hlt, setSp_store] at hl1
          subst hl1
          simp [setSp_store]
          split_ifs at * <;> omega
        · intro hl1
          simp [hlt, setSp_store] at hl1
        · simp [hlt, setSp_store] at Ad ⊢
          split_ifs at * <;> omega
        · simp [hlt, setSp_store] at Af ⊢
          exact Af
      · constructor
        · intro cb1 hl1
          simp [hlt, setSp_store, setSp_emit] at hl1
          subst hl1
          simp [setSp_store, setSp_emit]
          split_ifs at * <;> omega
        · intro hl1
          simp [hlt, setSp_store, setSp_emit] at hl1
        · simp [hlt, setSp_store, setSp_emit] at Ad ⊢
          split_ifs at * <;> omega
        · simp [hlt, setSp_store, setSp_emit] at Af ⊢
          exact Af
      · constructor
        · intro cb1 hl1
          simp [hlt, setSp_free, setSp_emit] at hl1
        · intro _
          simp [setSp_free, setSp_emit]
          split_ifs at * <;> omega
        · simp [hlt, setSp_free, setSp_emit] at Ad ⊢
          split_ifs at * <;> omega
        · simp [hlt, setSp_free, setSp_emit] at Af ⊢
          exact Af
    · have hc' : ¬ c = c1 := fun e => hc e.symm
      simp only [hc, if_false, Nat.add_zero] at e1
      split_ifs with h1 h2
      · exact A.congr (by simp [hc]) (by simpa [setSp_store] using e1) rfl rfl rfl (by simp)
      · exact A.congr (by simp [hc]) (by simpa [setSp_store, setSp_emit] using e1) rfl
          (by simp [hc']) (by simp) (by simp)
      · exact A.congr (by simp [hc]) (by simpa [setSp_free, setSp_emit] using e1) rfl
          (by simp [hc']) (by simp [hc']) (by simp)
  · intro c1
    have e1 := e c1
    have h : ∀ t : State, t.sps = s.sps →
        (t.setSp i none).owners c1 = (s.setSp i none).owners c1 := by
      intro t ht
      simp only [State.owners, State.setSp, ht]
    rw [h _ (by split_ifs <;> rfl)]
    exact e1
  · split_ifs <;> rfl
  · split_ifs <;> rfl

theorem wf_release_wp {s : State} {i c : Nat} {a : weak_ptr} (hwf : WF s)
    (hi : s.wp i = some a) (ha : a.cblock = some c) :
    ∃ s1, control_block.del_weak s c = some s1 ∧ WF (s1.setWp i none) ∧
      (∀ c1, (s1.setWp i none).observers c1 + (if c1 = c then 1 else 0) = s.observers c1) ∧
      s1.sps = s.sps ∧ s1.wps = s.wps := by
  obtain ⟨cb, hcb, hpos⟩ := observer_block hwf hi ha
  obtain ⟨a1, a2, a3, a4, a5⟩ := (hwf c).live cb hcb
  have hlt := load_lt hcb
  have hdw : size_dec cb.weak_refs = cb.weak_refs - 1 := size_dec_eq a5 a3
  have e : ∀ c1, (s.setWp i none).observers c1 + (if c1 = c then 1 else 0)
      = s.observers c1 := by
    intro c1
    have e := observers_setWp_of hi none c1
    simp only [ha, weak_ptr.refers, Option.some.injEq] at e
    have hcc : (c = c1) = (c1 = c) := propext ⟨Eq.symm, Eq.symm⟩
    simpa [hcc] using e
  rw [del_weak_eq hcb, hdw]
  refine ⟨_, rfl, ?_, ?_, ?_, ?_⟩
  · intro c1
    have A := hwf c1
    have e1 := e c1
    by_cases hc : c1 = c
    · subst hc
      have Ad := A.deletions
      have Af := A.frees
      simp only [hlt, hcb, true_and, if_true] at Ad Af e1
      split_ifs with h1
      · constructor
        · intro cb1 hl1
          simp [hlt, setWp_free, setWp_emit] at hl1
        · intro _
          simp [setWp_free, setWp_emit]
          split_ifs at * <;> omega
        · simp [hlt, setWp_free, setWp_emit] at Ad ⊢
          split_ifs at * <;> omega
        · simp [hlt, setWp_free, setWp_emit] at Af ⊢
          exact Af
      · constructor
        · intro cb1 hl1
          simp [hlt, setWp_store] at hl1
          subst hl1
          simp [setWp_store]
          split_ifs at * <;> omega
        · intro hl1
          simp [hlt, setWp_store] at hl1
        · simp [hlt, setWp_store] at Ad ⊢
          split_ifs at * <;> omega
        · simp [hlt, setWp_store] at Af ⊢
          exact Af
    · have hc' : ¬ c = c1 := fun e => hc e.symm
      simp only [hc, if_false, Nat.add_zero] at e1
      split_ifs with h1
      · exact A.congr (by simp [hc]) rfl (by simpa [setWp_free, setWp_emit] using e1)
          (by simp) (by simp [hc']) (by simp)
      · exact A.congr (by simp [hc]) rfl (by simpa [setWp_store] using e1) rfl rfl (by simp)
  · intro c1
    have e1 := e c1
    have h : ∀ t : State, t.wps = s.wps →
        (t.setWp i none).observers c1 = (s.setWp i none).observers c1 := by
      intro t ht
      simp only [State.observers, State.setWp, ht]
    rw [h _ (by split_ifs <;> rfl)]
    exact e1
  · split_ifs <;> rfl
  · split_ifs <;> rfl

/-! ## The handle operations on accounted states -/

theorem owners_eq_of_sps {s s1 : State} (h : s1.sps = s.sps) (c : Nat) :
    s1.owners c = s.owners c := by
  simp only [State.owners, h]

theorem observers_eq_of_wps {s s1 : State} (h : s1.wps = s.wps) (c : Nat) :
    s1.observers c = s.observers c := by
  simp only [State.observers, h]

theorem sp_ctor_cblock_eq {s : State} {c : Nat} {cb : control_block} (p : Ptr)
    (h : s.load c = some cb) :
    shared_ptr.ctor_cblock s (some c) p
      = some ((s.pushSp ⟨some c, p⟩).store c ⟨size_inc cb.refs,
          if cb.refs = 0 then size_inc cb.weak_refs else cb.weak_refs, cb.variant⟩,
          s.sps.length) := by
  have h1 : (s.pushSp ⟨some c, p⟩).load c = some cb := h
  simp [shared_ptr.ctor_cblock, add_strong_eq h1]

theorem wp_ctor_cblock_eq {s : State} {c : Nat} {cb : control_block} (p : Ptr)
    (h : s.load c = some cb) :
    weak_ptr.ctor_cblock s (some c) p
      = some ((s.pushWp ⟨some c, p⟩).store c { cb with weak_refs := size_inc cb.weak_refs },
          s.wps.length) := by
  have h1 : (s.pushWp ⟨some c, p⟩).load c = some cb := h
  simp [weak_ptr.ctor_cblock, add_weak_eq h1]

theorem sp_swap_eq {s : State} {i j : Nat} {a b : shared_ptr}
    (hi : s.sp i = some a) (hj : s.sp j = some b) :
    shared_ptr.swap s i j = some ((s.setSp i (some b)).setSp j (some a)) := by
  simp [shared_ptr.swap, hi, hj]

theorem wp_swap_eq {s : State} {i j : Nat} {a b : weak_ptr}
    (hi : s.wp i = some a) (hj : s.wp j = some b) :
    weak_ptr.swap s i j = some ((s.setWp i (some b)).setWp j (some a)) := by
  simp [weak_ptr.swap, hi, hj]

theorem sp_ctor_cblock_spec {s : State} (hwf : WF s) (hb : s.live + 1 < SIZE_MOD)
    (cbo : Option Nat) (p : Ptr)
    (hlive : ∀ c, cbo = some c → ∃ cb, s.load c = some cb ∧ cb.refs ≠ 0) :
    ∃ s1, shared_ptr.ctor_cblock s cbo p = some (s1, s.sps.length) ∧ WF s1 ∧
      s1.sps = s.sps ++ [some ⟨cbo, p⟩] ∧ s1.wps = s.wps ∧
      (∀ c, s1.owners c = s.owners c + (if cbo = some c then 1 else 0)) := by
  cases cbo with
  | none =>
    exact ⟨s.pushSp ⟨none, p⟩, rfl, wf_pushSp_none p hwf, rfl, rfl, by simp⟩
  | some c =>
    obtain ⟨cb, hcb, h0⟩ := hlive c rfl
    refine ⟨_, sp_ctor_cblock_eq p hcb, ?_, rfl, rfl, by simp⟩
    simpa [h0] using wf_acquire p hwf hcb h0 hb

theorem wp_ctor_cblock_spec {s : State} (hwf : WF s) (hb : s.live + 1 < SIZE_MOD)
    (cbo : Option Nat) (p : Ptr)
    (hlive : ∀ c, cbo = some c → ∃ cb, s.load c = some cb) :
    ∃ s1, weak_ptr.ctor_cblock s cbo p = some (s1, s.wps.length) ∧ WF s1 ∧
      s1.sps = s.sps ∧ s1.wps = s.wps ++ [some ⟨cbo, p⟩] ∧
      (∀ c, s1.observers c = s.observers c + (if cbo = some c then 1 else 0)) := by
  cases cbo with
  | none =>
    exact ⟨s.pushWp ⟨none, p⟩, rfl, wf_pushWp_none p hwf, rfl, rfl, by simp⟩
  | some c =>
    obtain ⟨cb, hcb⟩ := hlive c rfl
    exact ⟨_, wp_ctor_cblock_eq p hcb, wf_observe p hwf hcb hb, rfl, rfl, by simp⟩

theorem sp_swap_spec {s : State} {i j : Nat} {a b : shared_ptr} (hwf : WF s)
    (hi : s.sp i = some a) (hj : s.sp j = some b) :
    ∃ s1, shared_ptr.swap s i j = some s1 ∧ WF s1 ∧
      s1.sps = (s.sps.set i (some b)).set j (some a) ∧ s1.wps = s.wps ∧
      (∀ c, s1.owners c = s.owners c) :=
  ⟨_, sp_swap_eq hi hj, (wf_swap_sp hwf hi hj).1, rfl, rfl, (wf_swap_sp hwf hi hj).2⟩

theorem wp_swap_spec {s : State} {i j : Nat} {a b : weak_ptr} (hwf : WF s)
    (hi : s.wp i = some a) (hj : s.wp j = some b) :
    ∃ s1, weak_ptr.swap s i j = some s1 ∧ WF s1 ∧
      s1.sps = s.sps ∧ s1.wps = (s.wps.set i (some b)).set j (some a) ∧
      (∀ c, s1.observers c = s.observers c) :=
  ⟨_, wp_swap_eq hi hj, (wf_swap_wp hwf hi hj).1, rfl, rfl, (wf_swap_wp hwf hi hj).2⟩

theorem sp_dtor_spec {s : State} {i : Nat} {a : shared_ptr} (hwf : WF s)
    (hi : s.sp i = some a) :
    ∃ s1, shared_ptr.dtor s i = some s1 ∧ WF s1 ∧
      s1.sps = s.sps.set i none ∧ s1.wps = s.wps ∧
      (∀ c, s1.owners c + (if a.cblock = some c then 1 else 0) = s.owners c) := by
  cases ha : a.cblock with
  | none =>
    obtain ⟨w1, w2⟩ := wf_end_sp_none hwf hi ha
    refine ⟨s.setSp i none, by simp [shared_ptr.dtor, hi, ha], w1, rfl, rfl, ?_⟩
    intro c
    simpa using w2 c
  | some c =>
    obtain ⟨s1, e1, w1, w2, w3, w4⟩ := wf_release_sp hwf hi ha
    refine ⟨s1.setSp i none, by simp [shared_ptr.dtor, hi, ha, e1], w1, ?_, w4, ?_⟩
    · simp [State.setSp, w3]
    · intro c1
      have hcc : (c = c1) = (c1 = c) := propext ⟨Eq.symm, Eq.symm⟩
      simpa [hcc] using w2 c1

theorem wp_dtor_spec {s : State} {i : Nat} {a : weak_ptr} (hwf : WF s)
    (hi : s.wp i = some a) :
    ∃ s1, weak_ptr.dtor s i = some s1 ∧ WF s1 ∧
      s1.sps = s.sps ∧ s1.wps = s.wps.set i none ∧
      (∀ c, s1.observers c + (if a.cblock = some c then 1 else 0) = s.observers c) := by
  cases ha : a.cblock with
  | none =>
    obtain ⟨w1, w2⟩ := wf_end_wp_none hwf hi ha
    refine ⟨s.setWp i none, by simp [weak_ptr.dtor, hi, ha], w1, rfl, rfl, ?_⟩
    intro c
    simpa using w2 c
  | some c =>
    obtain ⟨s1, e1, w1, w2, w3, w4⟩ := wf_release_wp hwf hi ha
    refine ⟨s1.setWp i none, by simp [weak_ptr.dtor, hi, ha, e1], w1, w3, ?_, ?_⟩
    · simp [State.setWp, w4]
    · intro c1
      have hcc : (c = c1) = (c1 = c) := propext ⟨Eq.symm, Eq.symm⟩
      simpa [hcc] using w2 c1

theorem sp_adopt_eq (s : State) (p : Ptr) (d : Nat) :
    shared_ptr.ctor_ptr_deleter s p d none
      = some (((s.alloc ⟨0, 0, Variant.regular p d⟩).pushSp ⟨some s.heap.length, p⟩).store
          s.heap.length ⟨size_inc 0, size_inc 0, Variant.regular p d⟩,
          Except.ok s.sps.length) := by
  have h1 : ((s.alloc ⟨0, 0, Variant.regular p d⟩).pushSp ⟨some s.heap.length, p⟩).load
      s.heap.length = some ⟨0, 0, Variant.regular p d⟩ := by simp
  simp [shared_ptr.ctor_ptr_deleter, add_strong_eq h1]

theorem make_shared_eq (s : State) (args : List Nat) :
    make_shared s args none
      = some (((s.alloc ⟨0, 0, Variant.inplace args⟩).pushSp
          ⟨some s.heap.length, Ptr.stg s.heap.length⟩).store
          s.heap.length ⟨size_inc 0, size_inc 0, Variant.inplace args⟩,
          Except.ok s.sps.length) := by
  have h1 : (s.alloc ⟨0, 0, Variant.inplace args⟩).load s.heap.length
      = some ⟨0, 0, Variant.inplace args⟩ := by simp
  simp [make_shared, sp_ctor_cblock_eq _ h1]

theorem sp_of_sps {s : State} {l : List (Option shared_ptr)} (h : s.sps = l) (i : Nat) :
    s.sp i = l.getD i none := by
  simp only [State.sp, h]

theorem wp_of_wps {s : State} {l : List (Option weak_ptr)} (h : s.wps = l) (i : Nat) :
    s.wp i = l.getD i none := by
  simp only [State.wp, h]

theorem sp_ctor_copy_spec {s : State} {j : Nat} {b : shared_ptr} (hwf : WF s)
    (hb : s.live + 1 < SIZE_MOD) (hj : s.sp j = some b) (p : Ptr) :
    ∃ s1, shared_ptr.ctor_cblock s b.cblock p = some (s1, s.sps.length) ∧ WF s1 ∧
      s1.sps = s.sps ++ [some ⟨b.cblock, p⟩] ∧ s1.wps = s.wps ∧
      (∀ c, s1.owners c = s.owners c + (if b.cblock = some c then 1 else 0)) := by
  apply sp_ctor_cblock_spec hwf hb
  intro c hc
  obtain ⟨cb, h1, h2, _⟩ := owner_block hwf hj hc
  exact ⟨cb, h1, by omega⟩

theorem sp_ctor_move_spec {s : State} {j : Nat} {b : shared_ptr} (hwf : WF s)
    (hj : s.sp j = some b) :
    ∃ s1, shared_ptr.ctor_move s j = some (s1, s.sps.length) ∧ WF s1 ∧
      s1.sps = (s.sps.set j (some ⟨none, Ptr.null⟩)) ++ [some b] ∧ s1.wps = s.wps ∧
      s1.heap = s.heap ∧ s1.log = s.log ∧
      (∀ c, s1.owners c = s.owners c) := by
  have hlt := sp_lt hj
  have h1 : (s.pushSp ⟨none, Ptr.null⟩).sp s.sps.length = some ⟨none, Ptr.null⟩ := by simp
  have h2 : (s.pushSp ⟨none, Ptr.null⟩).sp j = some b := by
    simp [hj, Nat.ne_of_lt hlt]
  obtain ⟨w1, w2⟩ := wf_swap_sp (wf_pushSp_none Ptr.null hwf) h1 h2
  refine ⟨_, ?_, w1, ?_, rfl, rfl, rfl, ?_⟩
  · simp [shared_ptr.ctor_move, shared_ptr.ctor, sp_swap_eq h1 h2, hj]
  · simp only [State.setSp, State.pushSp]
    rw [List.set_append_right _ _ (Nat.le_refl _), List.set_append_left _ _ hlt]
    simp
  · intro c
    rw [w2 c]
    simp

theorem sp_reset_spec {s : State} {i : Nat} {a : shared_ptr} (hwf : WF s)
    (hi : s.sp i = some a) :
    ∃ s1, shared_ptr.reset s i = some s1 ∧ WF s1 ∧
      s1.sps = (s.sps.set i (some ⟨none, Ptr.null⟩)) ++ [none] ∧ s1.wps = s.wps ∧
      (∀ c, s1.owners c + (if a.cblock = some c then 1 else 0) = s.owners c) := by
  have hlt := sp_lt hi
  have h1 : (s.pushSp ⟨none, Ptr.null⟩).sp i = some a := by
    simp [hi, Nat.ne_of_lt hlt]
  have h2 : (s.pushSp ⟨none, Ptr.null⟩).sp s.sps.length = some ⟨none, Ptr.null⟩ := by simp
  obtain ⟨w1, w2⟩ := wf_swap_sp (wf_pushSp_none Ptr.null hwf) h1 h2
  have h3 : (((s.pushSp ⟨none, Ptr.null⟩).setSp i (some ⟨none, Ptr.null⟩)).setSp
      s.sps.length (some a)).sp s.sps.length = some a := by simp
  obtain ⟨s3, e3, w3, p3, q3, r3⟩ := sp_dtor_spec w1 h3
  refine ⟨s3, ?_, w3, ?_, q3, ?_⟩
  · simp [shared_ptr.reset, shared_ptr.ctor, sp_swap_eq h1 h2, e3, hi]
  · rw [p3]
    simp only [State.setSp, State.pushSp]
    rw [List.set_append_left _ _ hlt, List.set_append_right _ _ (by simp),
      List.set_append_right _ _ (by simp)]
    simp
  · intro c
    have := r3 c
    rw [w2 c] at this
    simpa using this

theorem sp_assign_copy_spec {s : State} {i j : Nat} {a b : shared_ptr} (hwf : WF s)
    (hb : s.live + 1 < SIZE_MOD) (hi : s.sp i = some a) (hj : s.sp j = some b) :
    ∃ s1, shared_ptr.assign_copy s i j = some s1 ∧ WF s1 ∧
      s1.sps = (if i = j then s.sps else (s.sps.set i (some b)) ++ [none]) ∧
      s1.wps = s.wps ∧
      (∀ c, s1.owners c + (if i ≠ j ∧ a.cblock = some c then 1 else 0)
          = s.owners c + (if i ≠ j ∧ b.cblock = some c then 1 else 0)) := by
  by_cases hij : i = j
  · exact ⟨s, by simp [shared_ptr.assign_copy, hi, hj, hij], hwf, by simp [hij], rfl,
      by simp [hij]⟩
  · have hlt := sp_lt hi
    obtain ⟨s1, e1, w1, p1, q1, r1⟩ := sp_ctor_copy_spec hwf hb hj b.ptr
    have h1 : s1.sp i = some a := by
      rw [sp_of_sps p1, getD_append_one, if_neg (Nat.ne_of_lt hlt)]
      exact hi
    have h2 : s1.sp s.sps.length = some b := by
      rw [sp_of_sps p1, getD_append_one]
      simp
    obtain ⟨w2, r2⟩ := wf_swap_sp w1 h1 h2
    have hlen : s1.sps.length = s.sps.length + 1 := by simp [p1]
    have h3 : ((s1.setSp i (some b)).setSp s.sps.length (some a)).sp s.sps.length
        = some a := by simp [hlen]
    obtain ⟨s3, e3, w3, p3, q3, r3⟩ := sp_dtor_spec w2 h3
    refine ⟨s3, ?_, w3, ?_, ?_, ?_⟩
    · simp only [shared_ptr.assign_copy, hi, hj, ne_eq, hij, not_false_eq_true, if_true,
        shared_ptr.ctor_copy]
      simp only [e1, sp_swap_eq h1 h2, e3]
    · rw [p3]
      simp only [State.setSp, p1, hij, if_false]
      rw [List.set_append_left _ _ hlt, List.set_append_right _ _ (by simp),
        List.set_append_right _ _ (by simp)]
      simp
    · rw [q3]
      exact q1
    · intro c
      have := r3 c
      rw [r2 c, r1 c] at this
      simp only [ne_eq, hij, not_false_eq_true, true_and]
      omega

theorem sp_assign_move_spec {s : State} {i j : Nat} {a b : shared_ptr} (hwf : WF s)
    (hi : s.sp i = some a) (hj : s.sp j = some b) :
    ∃ s1, shared_ptr.assign_move s i j = some s1 ∧ WF s1 ∧
      s1.sps = (if i = j then s.sps
        else ((s.sps.set i (some b)).set j (some ⟨none, Ptr.null⟩)) ++ [none]) ∧
      s1.wps = s.wps ∧
      (∀ c, s1.owners c + (if i ≠ j ∧ a.cblock = some c then 1 else 0) = s.owners c) := by
  by_cases hij : i = j
  · exact ⟨s, by simp [shared_ptr.assign_move, hi, hj, hij], hwf, by simp [hij], rfl,
      by simp [hij]⟩
  · have hlti := sp_lt hi
    have hltj := sp_lt hj
    have hji : ¬ j = i := fun e => hij e.symm
    obtain ⟨s1, e1, w1, p1, q1, r1⟩ := sp_reset_spec hwf hi
    have h1 : s1.sp i = some ⟨none, Ptr.null⟩ := by
      rw [sp_of_sps p1, getD_append_one, getD_set_none]
      simp [Nat.ne_of_lt hlti, hlti]
    have h2 : s1.sp j = some b := by
      rw [sp_of_sps p1, getD_append_one, getD_set_none, List.length_set,
        if_neg (Nat.ne_of_lt hltj), if_neg (fun h => hji h.1)]
      exact hj
    obtain ⟨w2, r2⟩ := wf_swap_sp w1 h1 h2
    refine ⟨_, ?_, w2, ?_, q1, ?_⟩
    · simp only [shared_ptr.assign_move, hi, hj, ne_eq, hij, not_false_eq_true, if_true]
      simp only [e1, sp_swap_eq h1 h2]
    · simp only [State.setSp, p1, hij, if_false]
      rw [List.set_append_left _ _ (by simpa using hlti),
        List.set_append_left _ _ (by simpa using hltj), List.set_set]
    · intro c
      rw [r2 c]
      simpa [hij] using r1 c

theorem sp_adopt_spec {s : State} (hwf : WF s) (p : Ptr) (d : Nat) :
    ∃ s1, shared_ptr.ctor_ptr_deleter s p d none = some (s1, Except.ok s.sps.length) ∧
      WF s1 ∧ s1.sps = s.sps ++ [some ⟨some s.heap.length, p⟩] ∧ s1.wps = s.wps ∧
      (∀ c, s1.owners c = s.owners c + (if s.heap.length = c then 1 else 0)) :=
  ⟨_, sp_adopt_eq s p d, wf_fresh _ p hwf, rfl, rfl, by simp⟩

theorem make_shared_spec {s : State} (hwf : WF s) (args : List Nat) :
    ∃ s1, make_shared s args none = some (s1, Except.ok s.sps.length) ∧
      WF s1 ∧ s1.sps = s.sps ++ [some ⟨some s.heap.length, Ptr.stg s.heap.length⟩] ∧
      s1.wps = s.wps ∧
      (∀ c, s1.owners c = s.owners c + (if s.heap.length = c then 1 else 0)) :=
  ⟨_, make_shared_eq s args, wf_fresh _ _ hwf, rfl, rfl, by simp⟩

theorem sp_reset_ptr_spec {s : State} {i : Nat} {a : shared_ptr} (hwf : WF s)
    (hi : s.sp i = some a) (p : Ptr) (d : Nat) :
    ∃ s1, shared_ptr.reset_ptr_deleter s i p d none = some (s1, Except.ok ()) ∧ WF s1 ∧
      s1.sps = (s.sps.set i (some ⟨some s.heap.length, p⟩)) ++ [none] ∧ s1.wps = s.wps ∧
      (∀ c, s1.owners c + (if a.cblock = some c then 1 else 0)
          = s.owners c + (if s.heap.length = c then 1 else 0)) := by
  have hlt := sp_lt hi
  obtain ⟨s1, e1, w1, p1, q1, r1⟩ := sp_adopt_spec hwf p d
  have h1 : s1.sp i = some a := by
    rw [sp_of_sps p1, getD_append_one, if_neg (Nat.ne_of_lt hlt)]
    exact hi
  have h2 : s1.sp s.sps.length = some ⟨some s.heap.length, p⟩ := by
    rw [sp_of_sps p1, getD_append_one]
    simp
  obtain ⟨w2, r2⟩ := wf_swap_sp w1 h1 h2
  have hlen : s1.sps.length = s.sps.length + 1 := by simp [p1]
  have h3 : ((s1.setSp i (some ⟨some s.heap.length, p⟩)).setSp s.sps.length (some a)).sp
      s.sps.length = some a := by simp [hlen]
  obtain ⟨s3, e3, w3, p3, q3, r3⟩ := sp_dtor_spec w2 h3
  refine ⟨s3, ?_, w3, ?_, ?_, ?_⟩
  · simp only [shared_ptr.reset_ptr_deleter, hi, e1, sp_swap_eq h1 h2, e3]
  · rw [p3]
    simp only [State.setSp, p1]
    rw [List.set_append_left _ _ hlt, List.set_append_right _ _ (by simp),
      List.set_append_right _ _ (by simp)]
    simp
  · rw [q3]
    exact q1
  · intro c
    have := r3 c
    rw [r2 c, r1 c] at this
    omega

theorem wp_ctor_copy_spec {s : State} {j : Nat} {b : weak_ptr} (hwf : WF s)
    (hb : s.live + 1 < SIZE_MOD) (hj : s.wp j = some b) :
    ∃ s1, weak_ptr.ctor_copy s j = some (s1, s.wps.length) ∧ WF s1 ∧
      s1.sps = s.sps ∧ s1.wps = s.wps ++ [some b] ∧
      (∀ c, s1.observers c = s.observers c + (if b.cblock = some c then 1 else 0)) := by
  have := wp_ctor_cblock_spec hwf hb b.cblock b.ptr (by
    intro c hc
    obtain ⟨cb, h1, _⟩ := observer_block hwf hj hc
    exact ⟨cb, h1⟩)
  simpa [weak_ptr.ctor_copy, hj] using this

theorem wp_ctor_shared_spec {s : State} {j : Nat} {b : shared_ptr} (hwf : WF s)
    (hb : s.live + 1 < SIZE_MOD) (hj : s.sp j = some b) :
    ∃ s1, weak_ptr.ctor_shared s j = some (s1, s.wps.length) ∧ WF s1 ∧
      s1.sps = s.sps ∧ s1.wps = s.wps ++ [some ⟨b.cblock, b.ptr⟩] ∧
      (∀ c, s1.observers c = s.observers c + (if b.cblock = some c then 1 else 0)) := by
  have := wp_ctor_cblock_spec hwf hb b.cblock b.ptr (by
    intro c hc
    obtain ⟨cb, h1, _⟩ := owner_block hwf hj hc
    exact ⟨cb, h1⟩)
  simpa [weak_ptr.ctor_shared, hj] using this

theorem wp_ctor_move_spec {s : State} {j : Nat} {b : weak_ptr} (hwf : WF s)
    (hj : s.wp j = some b) :
    ∃ s1, weak_ptr.ctor_move s j = some (s1, s.wps.length) ∧ WF s1 ∧
      s1.sps = s.sps ∧ s1.wps = (s.wps.set j (some ⟨none, Ptr.null⟩)) ++ [some b] ∧
      s1.heap = s.heap ∧ s1.log = s.log ∧
      (∀ c, s1.observers c = s.observers c) := by
  have hlt := wp_lt hj
  have h1 : (s.pushWp ⟨none, Ptr.null⟩).wp s.wps.length = some ⟨none, Ptr.null⟩ := by simp
  have h2 : (s.pushWp ⟨none, Ptr.null⟩).wp j = some b := by
    simp [hj, Nat.ne_of_lt hlt]
  obtain ⟨w1, w2⟩ := wf_swap_wp (wf_pushWp_none Ptr.null hwf) h1 h2
  refine ⟨_, ?_, w1, rfl, ?_, rfl, rfl, ?_⟩
  · simp [weak_ptr.ctor_move, weak_ptr.ctor, wp_swap_eq h1 h2, hj]
  · simp only [State.setWp, State.pushWp]
    rw [List.set_append_right _ _ (Nat.le_refl _), List.set_append_left _ _ hlt]
    simp
  · intro c
    rw [w2 c]
    simp

theorem wp_assign_copy_spec {s : State} {i j : Nat} {a b : weak_ptr} (hwf : WF s)
    (hb : s.live + 1 < SIZE_MOD) (hi : s.wp i = some a) (hj : s.wp j = some b) :
    ∃ s1, weak_ptr.assign_copy s i j = some s1 ∧ WF s1 ∧
      s1.sps = s.sps ∧ s1.wps = (s.wps.set i (some b)) ++ [none] ∧
      (∀ c, s1.observers c + (if a.cblock = some c then 1 else 0)
          = s.observers c + (if b.cblock = some c then 1 else 0)) := by
  have hlt := wp_lt hi
  obtain ⟨s1, e1, w1, p1, q1, r1⟩ := wp_ctor_copy_spec hwf hb hj
  have h1 : s1.wp i = some a := by
    rw [wp_of_wps q1, getD_append_one, if_neg (Nat.ne_of_lt hlt)]
    exact hi
  have h2 : s1.wp s.wps.length = some b := by
    rw [wp_of_wps q1, getD_append_one]
    simp
  obtain ⟨w2, r2⟩ := wf_swap_wp w1 h1 h2
  have hlen : s1.wps.length = s.wps.length + 1 := by simp [q1]
  have h3 : ((s1.setWp i (some b)).setWp s.wps.length (some a)).wp s.wps.length
      = some a := by simp [hlen]
  obtain ⟨s3, e3, w3, p3, q3, r3⟩ := wp_dtor_spec w2 h3
  refine ⟨s3, ?_, w3, ?_, ?_, ?_⟩
  · simp only [weak_ptr.assign_copy, hi, hj]
    simp only [e1, wp_swap_eq h1 h2, e3]
  · rw [p3]
    exact p1
  · rw [q3]
    simp only [State.setWp, q1]
    rw [List.set_append_left _ _ hlt, List.set_append_right _ _ (by simp),
      List.set_append_right _ _ (by simp)]
    simp
  · intro c
    have := r3 c
    rw [r2 c, r1 c] at this
    omega

theorem wp_assign_move_spec {s : State} {i j : Nat} {a b : weak_ptr} (hwf : WF s)
    (hi : s.wp i = some a) (hj : s.wp j = some b) :
    ∃ s1, weak_ptr.assign_move s i j = some s1 ∧ WF s1 ∧
      s1.sps = s.sps ∧
      s1.wps = (if i = j then s.wps
        else ((s.wps.set i (some b)).set j (some ⟨none, Ptr.null⟩)) ++ [none, none]) ∧
      (∀ c, s1.observers c + (if i ≠ j ∧ a.cblock = some c then 1 else 0)
          = s.observers c) := by
  by_cases hij : i = j
  · exact ⟨s, by simp [weak_ptr.assign_move, hi, hj, hij], hwf, rfl, by simp [hij],
      by simp [hij]⟩
  · have hlti := wp_lt hi
    have hltj := wp_lt hj
    have hji : ¬ j = i := fun e => hij e.symm
    have w1 := wf_pushWp_none Ptr.null hwf
    have hj1 : (s.pushWp ⟨none, Ptr.null⟩).wp j = some b := by
      simp [hj, Nat.ne_of_lt hltj]
    obtain ⟨s2, e2, w2, p2, q2, _, _, r2⟩ := wp_ctor_move_spec w1 hj1
    have hlen1 : (s.pushWp ⟨none, Ptr.null⟩).wps.length = s.wps.length + 1 := by simp
    rw [hlen1] at e2
    have q2' : s2.wps = (s.wps.set j (some ⟨none, Ptr.null⟩))
        ++ [some ⟨none, Ptr.null⟩, some b] := by
      rw [q2]
      simp only [State.pushWp]
      rw [List.set_append_left _ _ hltj]
      simp
    have hlen2 : s2.wps.length = s.wps.length + 2 := by simp [q2']
    have ht : s2.wp (s.wps.length + 1) = some b := by
      rw [wp_of_wps q2', List.getD_eq_getElem?_getD,
        List.getElem?_append_right (by simp)]
      simp
    have hi2 : s2.wp i = some a := by
      rw [wp_of_wps q2', List.getD_eq_getElem?_getD,
        List.getElem?_append_left (by simpa using hlti), ← List.getD_eq_getElem?_getD,
        getD_set_none, if_neg (fun h => hij h.1)]
      exact hi
    obtain ⟨w3, r3⟩ := wf_swap_wp w2 ht hi2
    have ht3 : ((s2.setWp (s.wps.length + 1) (some a)).setWp i (some b)).wp
        (s.wps.length + 1) = some a := by
      simp [hlen2, Nat.ne_of_gt (Nat.lt_succ_of_lt hlti)]
    obtain ⟨s4, e4, w4, p4, q4, r4⟩ := wp_dtor_spec w3 ht3
    have q4' : s4.wps = ((s.wps.set i (some b)).set j (some ⟨none, Ptr.null⟩))
        ++ [some ⟨none, Ptr.null⟩, none] := by
      rw [q4]
      simp only [State.setWp, q2']
      rw [List.set_append_right _ _ (by simp), List.set_append_left _ _ (by simpa using hlti),
        List.set_append_right _ _ (by simp)]
      simp
      exact List.set_comm _ _ _ hji
    have he4 : s4.wp s.wps.length = some ⟨none, Ptr.null⟩ := by
      rw [wp_of_wps q4', List.getD_eq_getElem?_getD,
        List.getElem?_append_right (by simp)]
      simp
    obtain ⟨s5, e5, w5, p5, q5, r5⟩ := wp_dtor_spec w4 he4
    refine ⟨s5, ?_, w5, ?_, ?_, ?_⟩
    · simp only [weak_ptr.assign_move, hi, hj, ne_eq, hij, not_false_eq_true, if_true,
        weak_ptr.ctor]
      simp only [e2, wp_swap_eq ht hi2, e4, e5]
    · rw [p5, p4]
      exact p2
    · rw [q5, q4']
      simp only [hij, if_false]
      rw [List.set_append_right _ _ (by simp)]
      simp
    · intro c
      have a5 := r5 c
      have a4 := r4 c
      rw [r3 c, r2 c] at a4
      simp only [observers_pushWp] at a4
      simp only [ne_eq, hij, not_false_eq_true, true_and]
      simp at a5 a4
      omega

theorem wp_lock_spec {s : State} {i : Nat} {a : weak_ptr} (hwf : WF s)
    (hb : s.live + 1 < SIZE_MOD) (hi : s.wp i = some a) :
    ∃ s1 h, weak_ptr.lock s i = some (s1, s.sps.length) ∧ WF s1 ∧
      s1.sps = s.sps ++ [some h] ∧ s1.wps = s.wps ∧
      (∀ c, s1.owners c = s.owners c + (if h.cblock = some c then 1 else 0)) := by
  cases ha : a.cblock with
  | none =>
    exact ⟨s.pushSp ⟨none, Ptr.null⟩, ⟨none, Ptr.null⟩,
      by simp [weak_ptr.lock, hi, ha, shared_ptr.ctor], wf_pushSp_none _ hwf, rfl, rfl,
      by simp⟩
  | some c =>
    obtain ⟨cb, hcb, _⟩ := observer_block hwf hi ha
    by_cases h0 : cb.refs = 0
    · exact ⟨s.pushSp ⟨none, Ptr.null⟩, ⟨none, Ptr.null⟩,
        by simp [weak_ptr.lock, hi, ha, shared_ptr.ctor, control_block.strong_count, hcb, h0],
        wf_pushSp_none _ hwf, rfl, rfl, by simp⟩
    · obtain ⟨s1, e1, w1, p1, q1, r1⟩ := sp_ctor_cblock_spec hwf hb (some c) a.ptr (by
        intro c1 hc1
        cases hc1
        exact ⟨cb, hcb, h0⟩)
      exact ⟨s1, ⟨some c, a.ptr⟩,
        by simp [weak_ptr.lock, hi, ha, control_block.strong_count, hcb, h0, e1],
        w1, p1, q1, r1⟩

theorem ReleasesOne.of_owners {s s1 : State} (hw : s1.wps = s.wps)
    (h : ∀ c, s.owners c ≤ s1.owners c + 1) : ReleasesOne s s1 := by
  intro c
  have := observers_eq_of_wps hw c
  have := h c
  omega

theorem ReleasesOne.of_observers {s s1 : State} (hs : s1.sps = s.sps)
    (h : ∀ c, s.observers c ≤ s1.observers c + 1) : ReleasesOne s s1 := by
  intro c
  have := owners_eq_of_sps hs c
  have := h c
  omega

/-- Every call keeps the accounting and releases at most one handle of each block. -/
theorem step_spec {s s1 : State} {op : Op} (hwf : WF s) (hb : s.live + 1 < SIZE_MOD)
    (h : step s op = some s1) : WF s1 ∧ ReleasesOne s s1 := by
  cases op with
  | sp_ctor =>
    simp only [step, shared_ptr.ctor, Option.some.injEq] at h
    subst h
    exact ⟨wf_pushSp_none _ hwf, ReleasesOne.of_owners rfl (by intro c; simp)⟩
  | sp_ctor_nullptr =>
    simp only [step, shared_ptr.ctor_nullptr, shared_ptr.ctor, Option.some.injEq] at h
    subst h
    exact ⟨wf_pushSp_none _ hwf, ReleasesOne.of_owners rfl (by intro c; simp)⟩
  | sp_ctor_ptr p alloc =>
    cases alloc with
    | none =>
      obtain ⟨s2, e, w, _, q, r⟩ := sp_adopt_spec hwf p default_delete
      simp only [step, shared_ptr.ctor_ptr, e, Option.map_some', Option.some.injEq] at h
      subst h
      exact ⟨w, ReleasesOne.of_owners q (by intro c; have := r c; omega)⟩
    | some e =>
      simp only [step, shared_ptr.ctor_ptr, shared_ptr.ctor_ptr_deleter, Option.map_some',
        Option.some.injEq] at h
      subst h
      exact ⟨wf_emit_deleter _ _ hwf, ReleasesOne.of_owners rfl (by intro c; simp)⟩
  | sp_ctor_ptr_deleter p d alloc =>
    cases alloc with
    | none =>
      obtain ⟨s2, e, w, _, q, r⟩ := sp_adopt_spec hwf p d
      simp only [step, e, Option.map_some', Option.some.injEq] at h
      subst h
      exact ⟨w, ReleasesOne.of_owners q (by intro c; have := r c; omega)⟩
    | some e =>
      simp only [step, shared_ptr.ctor_ptr_deleter, Option.map_some',
        Option.some.injEq] at h
      subst h
      exact ⟨wf_emit_deleter _ _ hwf, ReleasesOne.of_owners rfl (by intro c; simp)⟩
  | sp_ctor_alias j p =>
    cases hj : s.sp j with
    | none => simp [step, shared_ptr.ctor_alias, hj] at h
    | some b =>
      obtain ⟨s2, e, w, _, q, r⟩ := sp_ctor_copy_spec hwf hb hj p
      simp only [step, shared_ptr.ctor_alias, hj, e, Option.map_some',
        Option.some.injEq] at h
      subst h
      exact ⟨w, ReleasesOne.of_owners q (by intro c; have := r c; omega)⟩
  | sp_ctor_convert j =>
    cases hj : s.sp j with
    | none => simp [step, shared_ptr.ctor_convert, hj] at h
    | some b =>
      obtain ⟨s2, e, w, _, q, r⟩ := sp_ctor_copy_spec hwf hb hj b.ptr
      simp only [step, shared_ptr.ctor_convert, shared_ptr.ctor_alias, hj, e,
        Option.map_some', Option.some.injEq] at h
      subst h
      exact ⟨w, ReleasesOne.of_owners q (by intro c; have := r c; omega)⟩
  | sp_ctor_copy j =>
    cases hj : s.sp j with
    | none => simp [step, shared_ptr.ctor_copy, hj] at h
    | some b =>
      obtain ⟨s2, e, w, _, q, r⟩ := sp_ctor_copy_spec hwf hb hj b.ptr
      simp only [step, shared_ptr.ctor_copy, hj, e, Option.map_some',
        Option.some.injEq] at h
      subst h
      exact ⟨w, ReleasesOne.of_owners q (by intro c; have := r c; omega)⟩
  | sp_ctor_move j =>
    cases hj : s.sp j with
    | none => simp [step, shared_ptr.ctor_move, hj] at h
    | some b =>
      obtain ⟨s2, e, w, _, q, _, _, r⟩ := sp_ctor_move_spec hwf hj
      simp only [step, e, Option.map_some', Option.some.injEq] at h
      subst h
      exact ⟨w, ReleasesOne.of_owners q (by intro c; have := r c; omega)⟩
  | sp_assign_copy i j =>
    cases hi : s.sp i with
    | none => simp [step, shared_ptr.assign_copy, hi] at h
    | some a =>
      cases hj : s.sp j with
      | none => simp [step, shared_ptr.assign_copy, hi, hj] at h
      | some b =>
        obtain ⟨s2, e, w, _, q, r⟩ := sp_assign_copy_spec hwf hb hi hj
        simp only [step, e, Option.some.injEq] at h
        subst h
        exact ⟨w, ReleasesOne.of_owners q
          (by intro c; have := r c; split_ifs at this <;> omega)⟩
  | sp_assign_move i j =>
    cases hi : s.sp i with
    | none => simp [step, shared_ptr.assign_move, hi] at h
    | some a =>
      cases hj : s.sp j with
      | none => simp [step, shared_ptr.assign_move, hi, hj] at h
      | some b =>
        obtain ⟨s2, e, w, _, q, r⟩ := sp_assign_move_spec hwf hi hj
        simp only [step, e, Option.some.injEq] at h
        subst h
        exact ⟨w, ReleasesOne.of_owners q
          (by intro c; have := r c; split_ifs at this <;> omega)⟩
  | sp_dtor i =>
    cases hi : s.sp i with
    | none => simp [step, shared_ptr.dtor, hi] at h
    | some a =>
      obtain ⟨s2, e, w, _, q, r⟩ := sp_dtor_spec hwf hi
      simp only [step, e, Option.some.injEq] at h
      subst h
      exact ⟨w, ReleasesOne.of_owners q
        (by intro c; have := r c; split_ifs at this <;> omega)⟩
  | sp_reset i =>
    cases hi : s.sp i with
    | none => simp [step, shared_ptr.reset, hi] at h
    | some a =>
      obtain ⟨s2, e, w, _, q, r⟩ := sp_reset_spec hwf hi
      simp only [step, e, Option.some.injEq] at h
      subst h
      exact ⟨w, ReleasesOne.of_owners q
        (by intro c; have := r c; split_ifs at this <;> omega)⟩
  | sp_reset_ptr i p alloc =>
    cases hi : s.sp i with
    | none => simp [step, shared_ptr.reset_ptr, shared_ptr.reset_ptr_deleter, hi] at h
    | some a =>
      cases alloc with
      | none =>
        obtain ⟨s2, e, w, _, q, r⟩ := sp_reset_ptr_spec hwf hi p default_delete
        simp only [step, shared_ptr.reset_ptr, e, Option.map_some', Option.some.injEq] at h
        subst h
        exact ⟨w, ReleasesOne.of_owners q
          (by intro c; have := r c; split_ifs at this <;> omega)⟩
      | some e =>
        simp only [step, shared_ptr.reset_ptr, shared_ptr.reset_ptr_deleter, hi,
          shared_ptr.ctor_ptr_deleter, Option.map_some', Option.some.injEq] at h
        subst h
        exact ⟨wf_emit_deleter _ _ hwf, ReleasesOne.of_owners rfl (by intro c; simp)⟩
  | sp_reset_ptr_deleter i p d alloc =>
    cases hi : s.sp i with
    | none => simp [step, shared_ptr.reset_ptr_deleter, hi] at h
    | some a =>
      cases alloc with
      | none =>
        obtain ⟨s2, e, w, _, q, r⟩ := sp_reset_ptr_spec hwf hi p d
        simp only [step, e, Option.map_some', Option.some.injEq] at h
        subst h
        exact ⟨w, ReleasesOne.of_owners q
          (by intro c; have := r c; split_ifs at this <;> omega)⟩
      | some e =>
        simp only [step, shared_ptr.reset_ptr_deleter, hi,
          shared_ptr.ctor_ptr_deleter, Option.map_some', Option.some.injEq] at h
        subst h
        exact ⟨wf_emit_deleter _ _ hwf, ReleasesOne.of_owners rfl (by intro c; simp)⟩
  | sp_swap i j =>
    cases hi : s.sp i with
    | none => simp [step, shared_ptr.swap, hi] at h
    | some a =>
      cases hj : s.sp j with
      | none => simp [step, shared_ptr.swap, hi, hj] at h
      | some b =>
        obtain ⟨s2, e, w, _, q, r⟩ := sp_swap_spec hwf hi hj
        simp only [step, e, Option.some.injEq] at h
        subst h
        exact ⟨w, ReleasesOne.of_owners q (by intro c; have := r c; omega)⟩
  | make_shared args alloc =>
    cases alloc with
    | none =>
      obtain ⟨s2, e, w, _, q, r⟩ := make_shared_spec hwf args
      simp only [step, e, Option.map_some', Option.some.injEq] at h
      subst h
      exact ⟨w, ReleasesOne.of_owners q (by intro c; have := r c; omega)⟩
    | some e =>
      simp only [step, make_shared, Option.map_some', Option.some.injEq] at h
      subst h
      exact ⟨hwf, ReleasesOne.of_owners rfl (by intro c; simp)⟩
  | wp_ctor =>
    simp only [step, weak_ptr.ctor, Option.some.injEq] at h
    subst h
    exact ⟨wf_pushWp_none _ hwf, ReleasesOne.of_observers rfl (by intro c; simp)⟩
  | wp_ctor_copy j =>
    cases hj : s.wp j with
    | none => simp [step, weak_ptr.ctor_copy, hj] at h
    | some b =>
      obtain ⟨s2, e, w, p, _, r⟩ := wp_ctor_copy_spec hwf hb hj
      simp only [step, e, Option.map_some', Option.some.injEq] at h
      subst h
      exact ⟨w, ReleasesOne.of_observers p (by intro c; have := r c; omega)⟩
  | wp_ctor_shared j =>
    cases hj : s.sp j with
    | none => simp [step, weak_ptr.ctor_shared, hj] at h
    | some b =>
      obtain ⟨s2, e, w, p, _, r⟩ := wp_ctor_shared_spec hwf hb hj
      simp only [step, e, Option.map_some', Option.some.injEq] at h
      subst h
      exact ⟨w, ReleasesOne.of_observers p (by intro c; have := r c; omega)⟩
  | wp_ctor_move j =>
    cases hj : s.wp j with
    | none => simp [step, weak_ptr.ctor_move, hj] at h
    | some b =>
      obtain ⟨s2, e, w, p, _, _, _, r⟩ := wp_ctor_move_spec hwf hj
      simp only [step, e, Option.map_some', Option.some.injEq] at h
      subst h
      exact ⟨w, ReleasesOne.of_observers p (by intro c; have := r c; omega)⟩
  | wp_dtor i =>
    cases hi : s.wp i with
    | none => simp [step, weak_ptr.dtor, hi] at h
    | some a =>
      obtain ⟨s2, e, w, p, _, r⟩ := wp_dtor_spec hwf hi
      simp only [step, e, Option.some.injEq] at h
      subst h
      exact ⟨w, ReleasesOne.of_observers p
        (by intro c; have := r c; split_ifs at this <;> omega)⟩
  | wp_assign_copy i j =>
    cases hi : s.wp i with
    | none => simp [step, weak_ptr.assign_copy, hi] at h
    | some a =>
      cases hj : s.wp j with
      | none => simp [step, weak_ptr.assign_copy, hi, hj] at h
      | some b =>
        obtain ⟨s2, e, w, p, _, r⟩ := wp_assign_copy_spec hwf hb hi hj
        simp only [step, e, Option.some.injEq] at h
        subst h
        exact ⟨w, ReleasesOne.of_observers p
          (by intro c; have := r c; split_ifs at this <;> omega)⟩
  | wp_assign_move i j =>
    cases hi : s.wp i with
    | none => simp [step, weak_ptr.assign_move, hi] at h
    | some a =>
      cases hj : s.wp j with
      | none => simp [step, weak_ptr.assign_move, hi, hj] at h
      | some b =>
        obtain ⟨s2, e, w, p, _, r⟩ := wp_assign_move_spec hwf hi hj
        simp only [step, e, Option.some.injEq] at h
        subst h
        exact ⟨w, ReleasesOne.of_observers p
          (by intro c; have := r c; split_ifs at this <;> omega)⟩
  | wp_swap i j =>
    cases hi : s.wp i with
    | none => simp [step, weak_ptr.swap, hi] at h
    | some a =>
      cases hj : s.wp j with
      | none => simp [step, weak_ptr.swap, hi, hj] at h
      | some b =>
        obtain ⟨s2, e, w, p, _, r⟩ := wp_swap_spec hwf hi hj
        simp only [step, e, Option.some.injEq] at h
        subst h
        exact ⟨w, ReleasesOne.of_observers p (by intro c; have := r c; omega)⟩
  | wp_lock i =>
    cases hi : s.wp i with
    | none => simp [step, weak_ptr.lock, hi] at h
    | some a =>
      obtain ⟨s2, hh, e, w, _, q, r⟩ := wp_lock_spec hwf hb hi
      simp only [step, e, Option.map_some', Option.some.injEq] at h
      subst h
      exact ⟨w, ReleasesOne.of_owners q (by intro c; have := r c; omega)⟩

theorem wf_init : WF State.init := by
  intro c
  constructor
  · intro cb h
    simp [State.init, State.load] at h
  · intro _
    simp [State.init, State.owners, State.observers]
  · simp [State.init, State.deletions]
  · simp [State.init, State.frees]

theorem run_wf {ops : List Op} {s s1 : State} (hwf : WF s) (h : run s ops = some s1) :
    WF s1 := by
  induction ops generalizing s with
  | nil =>
    simp only [run, Option.some.injEq] at h
    subst h
    exact hwf
  | cons op ops ih =>
    simp only [run] at h
    split_ifs at h with hb
    cases hs : step s op with
    | none => simp [hs] at h
    | some s2 =>
      simp only [hs] at h
      exact ih (step_spec hwf hb hs).1 h

/-- The accounting holds in every reachable state. -/
theorem Reachable.wf {s : State} (h : Reachable s) : WF s := by
  obtain ⟨ops, h⟩ := h
  exact run_wf wf_init h

/-! ## The log only grows, and blocks are allocated one at a time -/

theorem Ext.refl (s : State) : Ext 0 s s := ⟨⟨[], by simp⟩, rfl⟩

theorem Ext.trans {k m : Nat} {s s1 s2 : State} (h1 : Ext k s s1) (h2 : Ext m s1 s2) :
    Ext (k + m) s s2 := by
  obtain ⟨l1, e1⟩ := h1.log
  obtain ⟨l2, e2⟩ := h2.log
  refine ⟨⟨l1 ++ l2, ?_⟩, ?_⟩
  · rw [e2, e1, List.append_assoc]
  · rw [h2.heap, h1.heap, Nat.add_assoc]

theorem Ext.of_eq {k : Nat} {s s1 : State} (hl : s1.log = s.log)
    (hh : s1.heap.length = s.heap.length + k) : Ext k s s1 :=
  ⟨⟨[], by simp [hl]⟩, hh⟩

theorem Ext.deletions_le {k : Nat} {s s1 : State} (h : Ext k s s1) (c : Nat) :
    s.deletions c ≤ s1.deletions c := by
  obtain ⟨l, e⟩ := h.log
  simp [State.deletions, e, List.count_append]

theorem Ext.frees_le {k : Nat} {s s1 : State} (h : Ext k s s1) (c : Nat) :
    s.frees c ≤ s1.frees c := by
  obtain ⟨l, e⟩ := h.log
  simp [State.frees, e, List.count_append]

theorem add_weak_ext {s s1 : State} {c : Nat} (h : control_block.add_weak s c = some s1) :
    Ext 0 s s1 := by
  cases hl : s.load c with
  | none => simp [control_block.add_weak, hl] at h
  | some cb =>
    rw [add_weak_eq hl] at h
    cases h
    exact Ext.of_eq rfl (by simp)

theorem add_strong_ext {s s1 : State} {c : Nat} (h : control_block.add_strong s c = some s1) :
    Ext 0 s s1 := by
  cases hl : s.load c with
  | none => simp [control_block.add_strong, hl] at h
  | some cb =>
    rw [add_strong_eq hl] at h
    cases h
    exact Ext.of_eq rfl (by simp)

theorem del_weak_ext {s s1 : State} {c : Nat} (h : control_block.del_weak s c = some s1) :
    Ext 0 s s1 := by
  cases hl : s.load c with
  | none => simp [control_block.del_weak, hl] at h
  | some cb =>
    rw [del_weak_eq hl] at h
    have h := Option.some.inj h
    subst h
    split_ifs
    · exact ⟨⟨[Event.delete_this c], by simp⟩, by simp⟩
    · exact Ext.of_eq rfl (by simp)

theorem del_strong_ext {s s1 : State} {c : Nat} (h : control_block.del_strong s c = some s1) :
    Ext 0 s s1 := by
  cases hl : s.load c with
  | none => simp [control_block.del_strong, control_block.dec_refs, hl] at h
  | some cb =>
    rw [del_strong_eq hl] at h
    have h := Option.some.inj h
    subst h
    split_ifs
    · exact Ext.of_eq rfl (by simp)
    · exact ⟨⟨[Event.delete_object c, cb.variant.effect c], by simp⟩, by simp⟩
    · exact ⟨⟨[Event.delete_object c, cb.variant.effect c, Event.delete_this c], by simp⟩,
        by simp⟩

theorem sp_ctor_cblock_ext {s s1 : State} {cbo : Option Nat} {p : Ptr} {n : Nat}
    (h : shared_ptr.ctor_cblock s cbo p = some (s1, n)) : Ext 0 s s1 := by
  cases cbo with
  | none =>
    simp only [shared_ptr.ctor_cblock, Option.some.injEq, Prod.mk.injEq] at h
    rw [← h.1]
    exact Ext.of_eq rfl rfl
  | some c =>
    simp only [shared_ptr.ctor_cblock] at h
    cases h1 : control_block.add_strong (s.pushSp ⟨some c, p⟩) c with
    | none => simp [h1] at h
    | some s2 =>
      simp only [h1, Option.some.injEq, Prod.mk.injEq] at h
      rw [← h.1]
      have := add_strong_ext h1
      exact ⟨this.log, this.heap⟩

theorem wp_ctor_cblock_ext {s s1 : State} {cbo : Option Nat} {p : Ptr} {n : Nat}
    (h : weak_ptr.ctor_cblock s cbo p = some (s1, n)) : Ext 0 s s1 := by
  cases cbo with
  | none =>
    simp only [weak_ptr.ctor_cblock, Option.some.injEq, Prod.mk.injEq] at h
    rw [← h.1]
    exact Ext.of_eq rfl rfl
  | some c =>
    simp only [weak_ptr.ctor_cblock] at h
    cases h1 : control_block.add_weak (s.pushWp ⟨some c, p⟩) c with
    | none => simp [h1] at h
    | some s2 =>
      simp only [h1, Option.some.injEq, Prod.mk.injEq] at h
      rw [← h.1]
      have := add_weak_ext h1
      exact ⟨this.log, this.heap⟩

theorem sp_swap_ext {s s1 : State} {i j : Nat} (h : shared_ptr.swap s i j = some s1) :
    Ext 0 s s1 := by
  simp only [shared_ptr.swap] at h
  split at h
  · cases h
    exact Ext.of_eq rfl rfl
  · cases h

theorem wp_swap_ext {s s1 : State} {i j : Nat} (h : weak_ptr.swap s i j = some s1) :
    Ext 0 s s1 := by
  simp only [weak_ptr.swap] at h
  split at h
  · cases h
    exact Ext.of_eq rfl rfl
  · cases h

theorem sp_dtor_ext {s s1 : State} {i : Nat} (h : shared_ptr.dtor s i = some s1) :
    Ext 0 s s1 := by
  simp only [shared_ptr.dtor] at h
  cases hi : s.sp i with
  | none => simp [hi] at h
  | some a =>
    simp only [hi] at h
    cases ha : a.cblock with
    | none =>
      simp only [ha, Option.some.injEq] at h
      rw [← h]
      exact Ext.of_eq rfl rfl
    | some c =>
      simp only [ha] at h
      cases h1 : control_block.del_strong s c with
      | none => simp [h1] at h
      | some s2 =>
        simp only [h1, Option.some.injEq] at h
        rw [← h]
        have := del_strong_ext h1
        exact ⟨this.log, this.heap⟩

theorem wp_dtor_ext {s s1 : State} {i : Nat} (h : weak_ptr.dtor s i = some s1) :
    Ext 0 s s1 := by
  simp only [weak_ptr.dtor] at h
  cases hi : s.wp i with
  | none => simp [hi] at h
  | some a =>
    simp only [hi] at h
    cases ha : a.cblock with
    | none =>
      simp only [ha, Option.some.injEq] at h
      rw [← h]
      exact Ext.of_eq rfl rfl
    | some c =>
      simp only [ha] at h
      cases h1 : control_block.del_weak s c with
      | none => simp [h1] at h
      | some s2 =>
        simp only [h1, Option.some.injEq] at h
        rw [← h]
        have := del_weak_ext h1
        exact ⟨this.log, this.heap⟩

theorem sp_ctor_ext (s : State) : Ext 0 s (shared_ptr.ctor s).1 := Ext.of_eq rfl rfl

theorem wp_ctor_ext (s : State) : Ext 0 s (weak_ptr.ctor s).1 := Ext.of_eq rfl rfl

theorem sp_ctor_ptr_deleter_ext {s s1 : State} {p : Ptr} {d : Nat} {alloc : Option Exn}
    {r : Except Exn Nat} (h : shared_ptr.ctor_ptr_deleter s p d alloc = some (s1, r)) :
    Ext (if alloc = none then 1 else 0) s s1 := by
  cases alloc with
  | some e =>
    simp only [shared_ptr.ctor_ptr_deleter, Option.some.injEq, Prod.mk.injEq] at h
    rw [← h.1]
    exact ⟨⟨[Event.deleter d p], rfl⟩, by simp⟩
  | none =>
    rw [sp_adopt_eq] at h
    simp only [Option.some.injEq, Prod.mk.injEq] at h
    rw [← h.1]
    exact Ext.of_eq rfl (by simp)

theorem make_shared_ext {s s1 : State} {args : List Nat} {alloc : Option Exn}
    {r : Except Exn Nat} (h : make_shared s args alloc = some (s1, r)) :
    Ext (if alloc = none then 1 else 0) s s1 := by
  cases alloc with
  | some e =>
    simp only [make_shared, Option.some.injEq, Prod.mk.injEq] at h
    rw [← h.1]
    exact Ext.refl s
  | none =>
    rw [make_shared_eq] at h
    simp only [Option.some.injEq, Prod.mk.injEq] at h
    rw [← h.1]
    exact Ext.of_eq rfl (by simp)

theorem sp_ctor_alias_ext {s s1 : State} {j n : Nat} {p : Ptr}
    (h : shared_ptr.ctor_alias s j p = some (s1, n)) : Ext 0 s s1 := by
  simp only [shared_ptr.ctor_alias] at h
  split at h
  · cases h
  · exact sp_ctor_cblock_ext h

theorem sp_ctor_convert_ext {s s1 : State} {j n : Nat}
    (h : shared_ptr.ctor_convert s j = some (s1, n)) : Ext 0 s s1 := by
  simp only [shared_ptr.ctor_convert] at h
  split at h
  · cases h
  · exact sp_ctor_alias_ext h

theorem sp_ctor_copy_ext {s s1 : State} {j n : Nat}
    (h : shared_ptr.ctor_copy s j = some (s1, n)) : Ext 0 s s1 := by
  simp only [shared_ptr.ctor_copy] at h
  split at h
  · cases h
  · exact sp_ctor_cblock_ext h

theorem sp_ctor_move_ext {s s1 : State} {j n : Nat}
    (h : shared_ptr.ctor_move s j = some (s1, n)) : Ext 0 s s1 := by
  simp only [shared_ptr.ctor_move] at h
  split at h
  · cases h
  · cases h1 : shared_ptr.swap (shared_ptr.ctor s).1 (shared_ptr.ctor s).2 j with
    | none => simp [h1] at h
    | some s2 =>
      simp only [h1, Option.some.injEq, Prod.mk.injEq] at h
      rw [← h.1]
      exact (sp_ctor_ext s).trans (sp_swap_ext h1)

theorem sp_reset_ext {s s1 : State} {i : Nat} (h : shared_ptr.reset s i = some s1) :
    Ext 0 s s1 := by
  simp only [shared_ptr.reset] at h
  split at h
  · cases h
  · cases h1 : shared_ptr.swap (shared_ptr.ctor s).1 i (shared_ptr.ctor s).2 with
    | none => simp [h1] at h
    | some s2 =>
      simp only [h1] at h
      exact ((sp_ctor_ext s).trans (sp_swap_ext h1)).trans (sp_dtor_ext h)

theorem sp_assign_copy_ext {s s1 : State} {i j : Nat}
    (h : shared_ptr.assign_copy s i j = some s1) : Ext 0 s s1 := by
  simp only [shared_ptr.assign_copy] at h
  split at h
  · split_ifs at h with hij
    · cases h1 : shared_ptr.ctor_copy s j with
      | none => simp [h1] at h
      | some r =>
        obtain ⟨s2, n⟩ := r
        simp only [h1] at h
        cases h2 : shared_ptr.swap s2 i n with
        | none => simp [h2] at h
        | some s3 =>
          simp only [h2] at h
          exact ((sp_ctor_copy_ext h1).trans (sp_swap_ext h2)).trans (sp_dtor_ext h)
    · cases h
      exact Ext.refl s
  · cases h

theorem sp_assign_move_ext {s s1 : State} {i j : Nat}
    (h : shared_ptr.assign_move s i j = some s1) : Ext 0 s s1 := by
  simp only [shared_ptr.assign_move] at h
  split at h
  · split_ifs at h with hij
    · cases h1 : shared_ptr.reset s i with
      | none => simp [h1] at h
      | some s2 =>
        simp only [h1] at h
        exact (sp_reset_ext h1).trans (sp_swap_ext h)
    · cases h
      exact Ext.refl s
  · cases h

theorem sp_reset_ptr_deleter_ext {s s1 : State} {i : Nat} {p : Ptr} {d : Nat}
    {alloc : Option Exn} {r : Except Exn Unit}
    (h : shared_ptr.reset_ptr_deleter s i p d alloc = some (s1, r)) :
    Ext (if alloc = none then 1 else 0) s s1 := by
  simp only [shared_ptr.reset_ptr_deleter] at h
  split at h
  · cases h
  · cases h1 : shared_ptr.ctor_ptr_deleter s p d alloc with
    | none => simp [h1] at h
    | some r1 =>
      obtain ⟨s2, x⟩ := r1
      have e1 := sp_ctor_ptr_deleter_ext h1
      cases x with
      | error e =>
        simp only [h1, Option.some.injEq, Prod.mk.injEq] at h
        rw [← h.1]
        exact e1
      | ok n =>
        simp only [h1] at h
        cases h2 : shared_ptr.swap s2 i n with
        | none => simp [h2] at h
        | some s3 =>
          simp only [h2] at h
          cases h3 : shared_ptr.dtor s3 n with
          | none => simp [h3] at h
          | some s4 =>
            simp only [h3, Option.some.injEq, Prod.mk.injEq] at h
            rw [← h.1]
            exact (e1.trans (sp_swap_ext h2)).trans (sp_dtor_ext h3)

theorem wp_ctor_copy_ext {s s1 : State} {j n : Nat}
    (h : weak_ptr.ctor_copy s j = some (s1, n)) : Ext 0 s s1 := by
  simp only [weak_ptr.ctor_copy] at h
  split at h
  · cases h
  · exact wp_ctor_cblock_ext h

theorem wp_ctor_shared_ext {s s1 : State} {j n : Nat}
    (h : weak_ptr.ctor_shared s j = some (s1, n)) : Ext 0 s s1 := by
  simp only [weak_ptr.ctor_shared] at h
  split at h
  · cases h
  · exact wp_ctor_cblock_ext h

theorem wp_ctor_move_ext {s s1 : State} {j n : Nat}
    (h : weak_ptr.ctor_move s j = some (s1, n)) : Ext 0 s s1 := by
  simp only [weak_ptr.ctor_move] at h
  split at h
  · cases h
  · cases h1 : weak_ptr.swap (weak_ptr.ctor s).1 (weak_ptr.ctor s).2 j with
    | none => simp [h1] at h
    | some s2 =>
      simp only [h1, Option.some.injEq, Prod.mk.injEq] at h
      rw [← h.1]
      exact (wp_ctor_ext s).trans (wp_swap_ext h1)

theorem wp_assign_copy_ext {s s1 : State} {i j : Nat}
    (h : weak_ptr.assign_copy s i j = some s1) : Ext 0 s s1 := by
  simp only [weak_ptr.assign_copy] at h
  split at h
  · cases h1 : weak_ptr.ctor_copy s j with
    | none => simp [h1] at h
    | some r =>
      obtain ⟨s2, n⟩ := r
      simp only [h1] at h
      cases h2 : weak_ptr.swap s2 i n with
      | none => simp [h2] at h
      | some s3 =>
        simp only [h2] at h
        exact ((wp_ctor_copy_ext h1).trans (wp_swap_ext h2)).trans (wp_dtor_ext h)
  · cases h

theorem wp_assign_move_ext {s s1 : State} {i j : Nat}
    (h : weak_ptr.assign_move s i j = some s1) : Ext 0 s s1 := by
  simp only [weak_ptr.assign_move] at h
  split at h
  · split_ifs at h with hij
    · cases h1 : weak_ptr.ctor_move (weak_ptr.ctor s).1 j with
      | none => simp [h1] at h
      | some r =>
        obtain ⟨s2, tmp⟩ := r
        simp only [h1] at h
        cases h2 : weak_ptr.swap s2 tmp i with
        | none => simp [h2] at h
        | some s3 =>
          simp only [h2] at h
          cases h3 : weak_ptr.dtor s3 tmp with
          | none => simp [h3] at h
          | some s4 =>
            simp only [h3] at h
            exact ((((wp_ctor_ext s).trans (wp_ctor_move_ext h1)).trans
              (wp_swap_ext h2)).trans (wp_dtor_ext h3)).trans (wp_dtor_ext h)
    · cases h
      exact Ext.refl s
  · cases h

theorem wp_lock_ext {s s1 : State} {i n : Nat}
    (h : weak_ptr.lock s i = some (s1, n)) : Ext 0 s s1 := by
  simp only [weak_ptr.lock] at h
  split at h
  · cases h
  · split at h
    · simp only [Option.some.injEq] at h
      have := sp_ctor_ext s
      rw [h] at this
      exact this
    · split at h
      · cases h
      · split_ifs at h
        · simp only [Option.some.injEq] at h
          have := sp_ctor_ext s
          rw [h] at this
          exact this
        · exact sp_ctor_cblock_ext h

/-- A call extends the log and allocates at most one control block. -/
theorem step_ext {s s1 : State} {op : Op} (h : step s op = some s1) :
    Ext (if op.allocates then 1 else 0) s s1 := by
  cases op <;> simp only [step, Option.map_eq_some', Prod.exists, exists_and_right,
    exists_eq_right, Option.some.injEq, shared_ptr.ctor_nullptr, shared_ptr.ctor_ptr,
    shared_ptr.reset_ptr] at h
  case sp_ctor => subst h; exact sp_ctor_ext s
  case sp_ctor_nullptr => subst h; exact sp_ctor_ext s
  case sp_ctor_ptr p alloc =>
    obtain ⟨r, h⟩ := h
    have := sp_ctor_ptr_deleter_ext h
    cases alloc <;> simpa [Op.allocates] using this
  case sp_ctor_ptr_deleter p d alloc =>
    obtain ⟨r, h⟩ := h
    have := sp_ctor_ptr_deleter_ext h
    cases alloc <;> simpa [Op.allocates] using this
  case sp_ctor_alias j p => obtain ⟨r, h⟩ := h; exact sp_ctor_alias_ext h
  case sp_ctor_convert j => obtain ⟨r, h⟩ := h; exact sp_ctor_convert_ext h
  case sp_ctor_copy j => obtain ⟨r, h⟩ := h; exact sp_ctor_copy_ext h
  case sp_ctor_move j => obtain ⟨r, h⟩ := h; exact sp_ctor_move_ext h
  case sp_assign_copy i j => exact sp_assign_copy_ext h
  case sp_assign_move i j => exact sp_assign_move_ext h
  case sp_dtor i => exact sp_dtor_ext h
  case sp_reset i => exact sp_reset_ext h
  case sp_reset_ptr i p alloc =>
    obtain ⟨r, h⟩ := h
    have := sp_reset_ptr_deleter_ext h
    cases alloc <;> simpa [Op.allocates] using this
  case sp_reset_ptr_deleter i p d alloc =>
    obtain ⟨r, h⟩ := h
    have := sp_reset_ptr_deleter_ext h
    cases alloc <;> simpa [Op.allocates] using this
  case sp_swap i j => exact sp_swap_ext h
  case make_shared args alloc =>
    obtain ⟨r, h⟩ := h
    have := make_shared_ext h
    cases alloc <;> simpa [Op.allocates] using this
  case wp_ctor => subst h; exact wp_ctor_ext s
  case wp_ctor_copy j => obtain ⟨r, h⟩ := h; exact wp_ctor_copy_ext h
  case wp_ctor_shared j => obtain ⟨r, h⟩ := h; exact wp_ctor_shared_ext h
  case wp_ctor_move j => obtain ⟨r, h⟩ := h; exact wp_ctor_move_ext h
  case wp_dtor i => exact wp_dtor_ext h
  case wp_assign_copy i j => exact wp_assign_copy_ext h
  case wp_assign_move i j => exact wp_assign_move_ext h
  case wp_swap i j => exact wp_swap_ext h
  case wp_lock i => obtain ⟨r, h⟩ := h; exact wp_lock_ext h

/-- A block allocated by a call has an owner when the call returns. -/
theorem step_fresh {s s1 : State} {op : Op} (hwf : WF s) (h : step s op = some s1)
    (c : Nat) (h1 : s.heap.length ≤ c) (h2 : c < s1.heap.length) : 0 < s1.owners c := by
  have e := (step_ext h).heap
  have hnone : s.load c = none := by
    cases hl : s.load c with
    | none => rfl
    | some cb => exact absurd (load_lt hl) (by omega)
  have h0 := ((hwf c).dead hnone).1
  cases op <;> simp only [Op.allocates, Bool.false_eq_true, if_false, Nat.add_zero] at e <;>
    try omega
  case sp_ctor_ptr p alloc =>
    cases alloc with
    | some x => simp at e; omega
    | none =>
      obtain ⟨s2, e2, _, _, _, r⟩ := sp_adopt_spec hwf p default_delete
      simp only [step, shared_ptr.ctor_ptr, e2, Option.map_some', Option.some.injEq] at h
      subst h
      have := r c
      simp at e
      split_ifs at this <;> omega
  case sp_ctor_ptr_deleter p d alloc =>
    cases alloc with
    | some x => simp at e; omega
    | none =>
      obtain ⟨s2, e2, _, _, _, r⟩ := sp_adopt_spec hwf p d
      simp only [step, e2, Option.map_some', Option.some.injEq] at h
      subst h
      have := r c
      simp at e
      split_ifs at this <;> omega
  case make_shared args alloc =>
    cases alloc with
    | some x => simp at e; omega
    | none =>
      obtain ⟨s2, e2, _, _, _, r⟩ := make_shared_spec hwf args
      simp only [step, e2, Option.map_some', Option.some.injEq] at h
      subst h
      have := r c
      simp at e
      split_ifs at this <;> omega
  case sp_reset_ptr i p alloc =>
    cases alloc with
    | some x => simp at e; omega
    | none =>
      cases hi : s.sp i with
      | none => simp [step, shared_ptr.reset_ptr, shared_ptr.reset_ptr_deleter, hi] at h
      | some a =>
        obtain ⟨s2, e2, _, _, _, r⟩ := sp_reset_ptr_spec hwf hi p default_delete
        simp only [step, shared_ptr.reset_ptr, e2, Option.map_some',
          Option.some.injEq] at h
        subst h
        have := r c
        simp at e
        have hne : ¬ a.cblock = some c := by
          intro hac
          obtain ⟨cb, hcb, _⟩ := owner_block hwf hi hac
          simp [hnone] at hcb
        simp only [hne, if_false] at this
        split_ifs at this <;> omega
  case sp_reset_ptr_deleter i p d alloc =>
    cases alloc with
    | some x => simp at e; omega
    | none =>
      cases hi : s.sp i with
      | none => simp [step, shared_ptr.reset_ptr_deleter, hi] at h
      | some a =>
        obtain ⟨s2, e2, _, _, _, r⟩ := sp_reset_ptr_spec hwf hi p d
        simp only [step, e2, Option.map_some', Option.some.injEq] at h
        subst h
        have := r c
        simp at e
        have hne : ¬ a.cblock = some c := by
          intro hac
          obtain ⟨cb, hcb, _⟩ := owner_block hwf hi hac
          simp [hnone] at hcb
        simp only [hne, if_false] at this
        split_ifs at this <;> omega

/-! ## Reachable states -/

theorem run_append (s : State) (l1 l2 : List Op) :
    run s (l1 ++ l2) = (run s l1).bind (fun t => run t l2) := by
  induction l1 generalizing s with
  | nil => simp [run]
  | cons op l1 ih =>
    simp only [List.cons_append, run]
    split_ifs
    · cases step s op with
      | none => simp
      | some s1 => simp [ih]
    · simp

theorem Reachable.init : Reachable State.init := ⟨[], rfl⟩

theorem Reachable.step {s s1 : State} {op : Op} (hr : Reachable s)
    (hb : s.live + 1 < SIZE_MOD) (hs : step s op = some s1) : Reachable s1 := by
  obtain ⟨ops, h⟩ := hr
  refine ⟨ops ++ [op], ?_⟩
  rw [run_append, h]
  simp [run, hb, hs]

/-- A block that has lost its last owner never has an owner again. -/
theorem owners_stay_zero {s s1 : State} {op : Op} (hwf : WF s) (hb : s.live + 1 < SIZE_MOD)
    (hs : step s op = some s1) {c : Nat} (hc : c < s.heap.length) (h0 : s.owners c = 0) :
    s1.owners c = 0 := by
  have w1 := (step_spec hwf hb hs).1
  have e := step_ext hs
  have d0 := (hwf c).deletions
  have d1 := (w1 c).deletions
  have := e.deletions_le c
  simp only [hc, h0, and_self, if_true] at d0
  by_contra hne
  simp only [hne, and_false, if_false] at d1
  omega

/-- A block that has lost its last handle never has a handle again. -/
theorem handles_stay_zero {s s1 : State} {op : Op} (hwf : WF s) (hb : s.live + 1 < SIZE_MOD)
    (hs : step s op = some s1) {c : Nat} (hc : c < s.heap.length)
    (h0 : s.owners c + s.observers c = 0) : s1.owners c + s1.observers c = 0 := by
  have w1 := (step_spec hwf hb hs).1
  have e := step_ext hs
  have hnone : s.load c = none := by
    cases hl : s.load c with
    | none => rfl
    | some cb =>
      obtain ⟨a1, a2, a3, _⟩ := (hwf c).live cb hl
      split_ifs at a2 <;> omega
  have f0 := (hwf c).frees
  have f1 := (w1 c).frees
  have := e.frees_le c
  simp only [hc, hnone, and_self, if_true] at f0
  cases hl : s1.load c with
  | none =>
    have := (w1 c).dead hl
    omega
  | some cb =>
    simp only [hl, reduceCtorEq, and_false, if_false] at f1
    omega

/-- Among the blocks that exist, the deleted ones are those without handles. -/
theorem load_none_iff {s : State} (hwf : WF s) {c : Nat} :
    s.load c = none ↔ s.owners c + s.observers c = 0 := by
  constructor
  · intro h
    have := (hwf c).dead h
    omega
  · intro h
    cases hl : s.load c with
    | none => rfl
    | some cb =>
      obtain ⟨a1, a2, a3, _⟩ := (hwf c).live cb hl
      split_ifs at a2 <;> omega

/-! ## The claims -/

theorem sample_reachable : Reachable sample_state := ⟨sample_ops, by decide⟩

/-- C1: in every reachable state, for every control block, `strong_count()` of the block
and `use_count()` of every owning or observing handle that refers to the block are equal
to the number of live owning handles whose `cblock` is that block. -/
theorem use_count_eq_live_owners (s : State) (hr : Reachable s) :
    (∀ c cb, s.load c = some cb → control_block.strong_count s c = some (s.owners c)) ∧
    (∀ i a c, s.sp i = some a → a.cblock = some c →
      shared_ptr.use_count s i = some (s.owners c) ∧
      control_block.strong_count s c = some (s.owners c)) ∧
    (∀ i a c, s.wp i = some a → a.cblock = some c →
      weak_ptr.use_count s i = some (s.owners c) ∧
      control_block.strong_count s c = some (s.owners c)) := by
  have hwf := hr.wf
  have key : ∀ c cb, s.load c = some cb →
      control_block.strong_count s c = some (s.owners c) := by
    intro c cb h
    have := ((hwf c).live cb h).1
    simp [control_block.strong_count, h, this]
  refine ⟨key, ?_, ?_⟩
  · intro i a c hi ha
    obtain ⟨cb, hcb, _⟩ := owner_block hwf hi ha
    have := key c cb hcb
    exact ⟨by simp [shared_ptr.use_count, hi, ha, this], this⟩
  · intro i a c hi ha
    obtain ⟨cb, hcb, _⟩ := observer_block hwf hi ha
    have := key c cb hcb
    exact ⟨by simp [weak_ptr.use_count, hi, ha, this], this⟩

theorem use_count_eq_live_owners_witness :
    Reachable sample_state ∧
    shared_ptr.use_count sample_state 3 = some (sample_state.owners 0) ∧
    sample_state.owners 0 = 2 :=
  ⟨sample_reachable,
   ((use_count_eq_live_owners sample_state sample_reachable).2.1 3 ⟨some 0, Ptr.obj 8⟩ 0
      (by decide) (by decide)).1,
   by decide⟩

/-- C2: for every control block `c` and every call made in a reachable state: before the
call `delete_object` has run on `c` at most once, not at all while an owning handle
refers to `c`, and exactly once if `c` exists and has no owner; the call runs
`delete_object` on `c` once if it releases the last owner and not at all otherwise; when
it does, `strong_count` was 1 before the call and the block is gone or has
`strong_count` 0 after it; and a block without owners never gets an owner again, whatever
is done with its observing handles, so that `delete_object` does not run a second
time. -/
theorem delete_object_exactly_once (s s1 : State) (op : Op) (c : Nat) (hr : Reachable s)
    (hb : s.live + 1 < SIZE_MOD) (hs : step s op = some s1) :
    s.deletions c = (if c < s.heap.length ∧ s.owners c = 0 then 1 else 0) ∧
    s1.deletions c
      = s.deletions c + (if 0 < s.owners c ∧ s1.owners c = 0 then 1 else 0) ∧
    (0 < s.owners c → s1.owners c = 0 →
      control_block.strong_count s c = some 1 ∧
      (s1.load c = none ∨ control_block.strong_count s1 c = some 0)) ∧
    (c < s.heap.length → s.owners c = 0 → s1.owners c = 0 ∧ s1.deletions c = 1) := by
  have hwf := hr.wf
  obtain ⟨w1, rel⟩ := step_spec hwf hb hs
  have e := step_ext hs
  have d0 := (hwf c).deletions
  have d1 := (w1 c).deletions
  have hlen : s.heap.length ≤ s1.heap.length := by
    have := e.heap
    omega
  refine ⟨d0, ?_, ?_, ?_⟩
  · rw [d1, d0]
    by_cases hc : c < s.heap.length
    · have hc1 : c < s1.heap.length := by omega
      by_cases h0 : s.owners c = 0
      · have := owners_stay_zero hwf hb hs hc h0
        simp [hc, hc1, h0, this]
      · by_cases h1 : s1.owners c = 0
        · simp [hc, hc1, h0, h1, Nat.pos_of_ne_zero h0]
        · simp [hc, hc1, h0, h1]
    · have hnone : s.load c = none := by
        cases hl : s.load c with
        | none => rfl
        | some cb => exact absurd (load_lt hl) hc
      have h0 := ((hwf c).dead hnone).1
      by_cases hc1 : c < s1.heap.length
      · have := step_fresh hwf hs c (by omega) hc1
        have h1 : ¬ s1.owners c = 0 := by omega
        simp [hc, h0, h1]
      · simp [hc, hc1, h0]
  · intro hpos h1
    have hrel := (rel c).2.1
    obtain ⟨cb, hcb⟩ : ∃ cb, s.load c = some cb := by
      cases hl : s.load c with
      | none =>
        have := ((hwf c).dead hl).1
        omega
      | some cb => exact ⟨cb, rfl⟩
    have hrefs := ((hwf c).live cb hcb).1
    refine ⟨by simp [control_block.strong_count, hcb]; omega, ?_⟩
    cases hl1 : s1.load c with
    | none => exact Or.inl rfl
    | some cb1 =>
      have := ((w1 c).live cb1 hl1).1
      right
      simp [control_block.strong_count, hl1]
      omega
  · intro hc h0
    have h1 := owners_stay_zero hwf hb hs hc h0
    refine ⟨h1, ?_⟩
    rw [d1]
    have hc1 : c < s1.heap.length := by omega
    simp [hc1, h1]

theorem delete_object_exactly_once_witness :
    Reachable sample_state ∧ sample_state.live + 1 < SIZE_MOD ∧
    step sample_state (Op.sp_dtor 2) = some sample_next ∧
    sample_next.deletions 1 = sample_state.deletions 1
        + (if 0 < sample_state.owners 1 ∧ sample_next.owners 1 = 0 then 1 else 0) ∧
    sample_next.deletions 1 = 1 :=
  ⟨sample_reachable, by decide, by decide,
   (delete_object_exactly_once sample_state sample_next (Op.sp_dtor 2) 1 sample_reachable
      (by decide) (by decide)).2.1, by decide⟩

/-- C3: for every control block `c` and every call made in a reachable state: before the
call the block has executed `delete this` at most once, and exactly once if it exists
and no handle of either kind refers to it, which are the blocks that are gone; the call
deletes the block once if it releases the last handle of either kind and not at all
otherwise, whatever the order in which owners and observers are released; when it does,
`weak_count` was 1 before the call; the object of a deleted block has been destroyed;
and a block without handles never gets a handle again. -/
theorem control_block_deleted_exactly_once (s s1 : State) (op : Op) (c : Nat)
    (hr : Reachable s) (hb : s.live + 1 < SIZE_MOD) (hs : step s op = some s1) :
    s.frees c = (if c < s.heap.length ∧ s.owners c + s.observers c = 0 then 1 else 0) ∧
    (s.load c = none ↔ s.owners c + s.observers c = 0) ∧
    s1.frees c = s.frees c +
      (if 0 < s.owners c + s.observers c ∧ s1.owners c + s1.observers c = 0 then 1
       else 0) ∧
    (0 < s.owners c + s.observers c → s1.owners c + s1.observers c = 0 →
      control_block.weak_count s c = some 1 ∧ s1.load c = none) ∧
    s.frees c ≤ s.deletions c ∧ s1.frees c ≤ s1.deletions c ∧
    (c < s.heap.length → s.owners c + s.observers c = 0 →
      s1.owners c + s1.observers c = 0 ∧ s1.frees c = 1) := by
  have hwf := hr.wf
  obtain ⟨w1, rel⟩ := step_spec hwf hb hs
  have e := step_ext hs
  have hlen : s.heap.length ≤ s1.heap.length := by
    have := e.heap
    omega
  have frees_eq : ∀ t : State, WF t →
      t.frees c = (if c < t.heap.length ∧ t.owners c + t.observers c = 0 then 1 else 0) := by
    intro t ht
    rw [(ht c).frees]
    simp only [load_none_iff ht]
  have frees_le : ∀ t : State, WF t → t.frees c ≤ t.deletions c := by
    intro t ht
    rw [frees_eq t ht, (ht c).deletions]
    split_ifs <;> omega
  have f0 := frees_eq s hwf
  have f1 := frees_eq s1 w1
  refine ⟨f0, load_none_iff hwf, ?_, ?_, frees_le s hwf, frees_le s1 w1, ?_⟩
  · rw [f1, f0]
    by_cases hc : c < s.heap.length
    · have hc1 : c < s1.heap.length := by omega
      by_cases h0 : s.owners c + s.observers c = 0
      · have := handles_stay_zero hwf hb hs hc h0
        simp [hc, hc1, h0, this]
      · by_cases h1 : s1.owners c + s1.observers c = 0
        · simp only [hc, hc1, h0, h1, and_self, and_false, true_and, if_true, if_false,
            Nat.pos_of_ne_zero h0]
        · simp only [hc, hc1, h0, h1, and_self, and_false, true_and, if_true, if_false]
    · have hnone : s.load c = none := by
        cases hl : s.load c with
        | none => rfl
        | some cb => exact absurd (load_lt hl) hc
      have h0 := (hwf c).dead hnone
      by_cases hc1 : c < s1.heap.length
      · have := step_fresh hwf hs c (by omega) hc1
        have h1 : ¬ s1.owners c + s1.observers c = 0 := by omega
        simp only [hc, h1, h0.1, h0.2, and_false, false_and, if_false, Nat.lt_irrefl]
      · simp only [hc, hc1, false_and, if_false, h0.1, h0.2, Nat.lt_irrefl]
  · intro hpos h1
    have hrel := (rel c).1
    obtain ⟨cb, hcb⟩ : ∃ cb, s.load c = some cb := by
      cases hl : s.load c with
      | none =>
        have := (load_none_iff hwf).1 hl
        omega
      | some cb => exact ⟨cb, rfl⟩
    obtain ⟨a1, a2, a3, _⟩ := (hwf c).live cb hcb
    refine ⟨?_, (load_none_iff w1).2 h1⟩
    simp only [control_block.weak_count, hcb, Option.map_some', Option.some.injEq]
    split_ifs at a2 <;> omega
  · intro hc h0
    have h1 := handles_stay_zero hwf hb hs hc h0
    refine ⟨h1, ?_⟩
    rw [f1]
    have hc1 : c < s1.heap.length := by omega
    simp [hc1, h1]

theorem control_block_deleted_exactly_once_witness :
    Reachable sample_state ∧ sample_state.live + 1 < SIZE_MOD ∧
    step sample_state (Op.sp_dtor 2) = some sample_next ∧
    sample_next.frees 1 = sample_state.frees 1 +
      (if 0 < sample_state.owners 1 + sample_state.observers 1 ∧
          sample_next.owners 1 + sample_next.observers 1 = 0 then 1 else 0) ∧
    sample_next.frees 1 = 1 :=
  ⟨sample_reachable, by decide, by decide,
   (control_block_deleted_exactly_once sample_state sample_next (Op.sp_dtor 2) 1
      sample_reachable (by decide) (by decide)).2.2.1, by decide⟩

/-- C4: for every observing handle `w` in a reachable state, `lock()` returns. If `w` has
no control block, or its block has `strong_count` 0, the result is a new empty owning
handle and no control block, no other handle and no log entry changes. Otherwise the
result is a new owning handle with the control block and the access pointer of `w`, the
block's `refs` has grown by exactly 1, its `weak_refs` and every other block are
unchanged. In particular, when the only owning handle of the block of `w` is destroyed,
`w` has `use_count() == 0` afterwards and `w.lock()` is empty. -/
theorem lock_spec (s : State) (i : Nat) (w : weak_ptr) (hr : Reachable s)
    (hb : s.live + 1 < SIZE_MOD) (hi : s.wp i = some w) :
    ((w.cblock = none ∨ weak_ptr.use_count s i = some 0) →
      ∃ s1, weak_ptr.lock s i = some (s1, s.sps.length) ∧
        s1.sp s.sps.length = some ⟨none, Ptr.null⟩ ∧
        s1.heap = s.heap ∧ s1.wps = s.wps ∧ s1.log = s.log ∧
        ∀ j, j ≠ s.sps.length → s1.sp j = s.sp j) ∧
    (∀ c, w.cblock = some c → weak_ptr.use_count s i ≠ some 0 →
      ∃ s1 cb, weak_ptr.lock s i = some (s1, s.sps.length) ∧
        s1.sp s.sps.length = some ⟨some c, w.ptr⟩ ∧
        s.load c = some cb ∧
        s1.load c = some ⟨cb.refs + 1, cb.weak_refs, cb.variant⟩ ∧
        (∀ c1, c1 ≠ c → s1.load c1 = s.load c1) ∧
        s1.wps = s.wps ∧ s1.log = s.log ∧
        ∀ j, j ≠ s.sps.length → s1.sp j = s.sp j) ∧
    (∀ j a c, s.sp j = some a → a.cblock = some c → w.cblock = some c → s.owners c = 1 →
      ∃ s1 s2, shared_ptr.dtor s j = some s1 ∧ s1.wp i = some w ∧
        weak_ptr.use_count s1 i = some 0 ∧
        weak_ptr.lock s1 i = some (s2, s1.sps.length) ∧
        s2.sp s1.sps.length = some ⟨none, Ptr.null⟩ ∧ s2.heap = s1.heap) := by
  have hwf := hr.wf
  refine ⟨?_, ?_, ?_⟩
  · intro h
    refine ⟨s.pushSp ⟨none, Ptr.null⟩, ?_, by simp, rfl, rfl, rfl, ?_⟩
    · cases hc : w.cblock with
      | none => simp [weak_ptr.lock, hi, hc, shared_ptr.ctor]
      | some c =>
        rcases h with h | h
        · simp [hc] at h
        · simp only [weak_ptr.use_count, hi, hc] at h
          simp [weak_ptr.lock, hi, hc, h, shared_ptr.ctor]
    · intro j hj
      simp [hj]
  · intro c hc hne
    obtain ⟨cb, hcb, _⟩ := observer_block hwf hi hc
    obtain ⟨a1, a2, a3, a4, a5⟩ := (hwf c).live cb hcb
    have hlt := load_lt hcb
    have h0 : cb.refs ≠ 0 := by
      intro h0
      apply hne
      simp [weak_ptr.use_count, hi, hc, control_block.strong_count, hcb, h0]
    have hl := owners_le_live s c
    have hinc : size_inc cb.refs = cb.refs + 1 := size_inc_eq (by omega)
    refine ⟨(s.pushSp ⟨some c, w.ptr⟩).store c ⟨cb.refs + 1, cb.weak_refs, cb.variant⟩, cb,
      ?_, by simp, hcb, by simp [hlt], ?_, rfl, rfl, ?_⟩
    · simp [weak_ptr.lock, hi, hc, control_block.strong_count, hcb, h0,
        sp_ctor_cblock_eq w.ptr hcb, hinc]
    · intro c1 hc1
      simp [hc1]
    · intro j hj
      simp [hj]
  · intro j a c hj ha hc h1
    obtain ⟨s1, e1, w1, p1, q1, r1⟩ := sp_dtor_spec hwf hj
    have hw1 : s1.wp i = some w := by
      rw [wp_of_wps q1]
      exact hi
    obtain ⟨cb1, hcb1, _⟩ := observer_block w1 hw1 hc
    have hz : cb1.refs = 0 := by
      have := ((w1 c).live cb1 hcb1).1
      have := r1 c
      simp only [ha, if_true] at this
      omega
    have hu : weak_ptr.use_count s1 i = some 0 := by
      simp [weak_ptr.use_count, hw1, hc, control_block.strong_count, hcb1, hz]
    refine ⟨s1, s1.pushSp ⟨none, Ptr.null⟩, e1, hw1, hu, ?_, by simp, rfl⟩
    simp only [weak_ptr.use_count, hw1, hc] at hu
    simp [weak_ptr.lock, hw1, hc, hu, shared_ptr.ctor]

theorem lock_spec_witness :
    Reachable sample_state ∧ sample_state.live + 1 < SIZE_MOD ∧
    sample_state.wp 0 = some ⟨some 0, Ptr.obj 7⟩ ∧
    ∃ s1 cb, weak_ptr.lock sample_state 0 = some (s1, sample_state.sps.length) ∧
        s1.sp sample_state.sps.length = some ⟨some 0, Ptr.obj 7⟩ ∧
        sample_state.load 0 = some cb ∧
        s1.load 0 = some ⟨cb.refs + 1, cb.weak_refs, cb.variant⟩ ∧
        (∀ c1, c1 ≠ 0 → s1.load c1 = sample_state.load c1) ∧
        s1.wps = sample_state.wps ∧ s1.log = sample_state.log ∧
        ∀ j, j ≠ sample_state.sps.length → s1.sp j = sample_state.sp j :=
  ⟨sample_reachable, by decide, by decide,
   (lock_spec sample_state 0 ⟨some 0, Ptr.obj 7⟩ sample_reachable (by decide)
      (by decide)).2.1 0 rfl (by decide)⟩

theorem invariantA_store {s : State} {c : Nat} {cb : control_block} (h : s.invariantA)
    (hcb : InvariantA cb) : (s.store c cb).invariantA := by
  intro c1 cb1 h1
  simp only [load_store] at h1
  split_ifs at h1
  · cases h1
    exact hcb
  · exact h c1 cb1 h1

theorem invariantA_free {s : State} {c : Nat} (h : s.invariantA) : (s.free c).invariantA := by
  intro c1 cb1 h1
  simp only [load_free] at h1
  split_ifs at h1
  exact h c1 cb1 h1

theorem invariantA_emit {s : State} {e : Event} (h : s.invariantA) :
    (s.emit e).invariantA := h

theorem invariantA_alloc {s : State} {cb : control_block} (h : s.invariantA)
    (hcb : InvariantA cb) : (s.alloc cb).invariantA := by
  intro c1 cb1 h1
  simp only [load_alloc] at h1
  split_ifs at h1
  · cases h1
    exact hcb
  · exact h c1 cb1 h1

theorem WF.invariantA {s : State} (hwf : WF s) : s.invariantA := by
  intro c cb h
  obtain ⟨a1, a2, a3, _⟩ := (hwf c).live cb h
  unfold InvariantA
  split_ifs <;> omega

/-- C5: Invariant A, `weak_count ≥ (strong_count > 0 ? 1 : 0)`, holds for every live
control block in every reachable state. It also holds after each control-block operation
that a handle performs there: `add_strong`, `add_weak` and `del_strong` on the block of a
live owning handle, with the two intermediate states of `del_strong` (after `refs--`,
while `delete_object` runs, and after `delete_object` has returned), `add_weak` and
`del_weak` on the block of a live observing handle, `add_strong` on such a block when its
`strong_count` is not 0 (as `lock` does), and `add_strong` on a newly allocated block; each
of these calls returns. -/
theorem invariant_A (s : State) (hr : Reachable s) (hb : s.live + 1 < SIZE_MOD) :
    s.invariantA ∧
    (∀ i a c, s.sp i = some a → a.cblock = some c →
      (∃ t, control_block.add_strong s c = some t ∧ t.invariantA) ∧
      (∃ t, control_block.add_weak s c = some t ∧ t.invariantA) ∧
      (∃ t, control_block.del_strong s c = some t ∧ t.invariantA) ∧
      (∃ t1, control_block.dec_refs s c = some t1 ∧ t1.invariantA ∧
        (control_block.strong_count t1 c = some 0 →
          control_block.weak_count t1 c = some (s.observers c + 1) ∧
          ∃ t2, control_block.delete_object t1 c = some t2 ∧ t2.invariantA ∧
            control_block.weak_count t2 c = some (s.observers c + 1) ∧
            ∃ t3, control_block.del_weak t2 c = some t3 ∧ t3.invariantA ∧
              control_block.del_strong s c = some t3))) ∧
    (∀ i a c, s.wp i = some a → a.cblock = some c →
      (∃ t, control_block.add_weak s c = some t ∧ t.invariantA) ∧
      (∃ t, control_block.del_weak s c = some t ∧ t.invariantA) ∧
      (control_block.strong_count s c ≠ some 0 →
        ∃ t, control_block.add_strong s c = some t ∧ t.invariantA)) ∧
    (∀ v, (s.alloc ⟨0, 0, v⟩).invariantA ∧
      ∃ t, control_block.add_strong (s.alloc ⟨0, 0, v⟩) s.heap.length = some t ∧
        t.invariantA) := by
  have hwf := hr.wf
  have hA := hwf.invariantA
  refine ⟨hA, ?_, ?_, ?_⟩
  · intro i a c hi ha
    obtain ⟨cb, hcb, hpos, _⟩ := owner_block hwf hi ha
    obtain ⟨a1, a2, a3, a4, a5⟩ := (hwf c).live cb hcb
    have hlt := load_lt hcb
    have hl := owners_le_live s c
    have h0 : cb.refs ≠ 0 := by omega
    simp only [h0, if_false] at a2
    have hir : size_inc cb.refs = cb.refs + 1 := size_inc_eq (by omega)
    have hiw : size_inc cb.weak_refs = cb.weak_refs + 1 := size_inc_eq (by omega)
    have hdr : size_dec cb.refs = cb.refs - 1 := size_dec_eq a4 hpos
    have hdw : size_dec cb.weak_refs = cb.weak_refs - 1 := size_dec_eq a5 a3
    have hds : ∃ t, control_block.del_strong s c = some t ∧ t.invariantA := by
      refine ⟨_, del_strong_eq hcb, ?_⟩
      rw [hdr, hdw]
      split_ifs with h1 h2
      · apply invariantA_store hA
        simp only [InvariantA]
        split_ifs <;> omega
      · apply invariantA_store (invariantA_emit (invariantA_emit hA))
        simp [InvariantA]
      · exact invariantA_free (invariantA_emit (invariantA_emit (invariantA_emit hA)))
    refine ⟨⟨_, add_strong_eq hcb, ?_⟩, ⟨_, add_weak_eq hcb, ?_⟩, hds, ?_⟩
    · apply invariantA_store hA
      simp only [InvariantA, h0, if_false, hir]
      split_ifs <;> omega
    · apply invariantA_store hA
      simp only [InvariantA, hiw]
      split_ifs <;> omega
    · have hA1 : (s.store c { cb with refs := size_dec cb.refs }).invariantA := by
        apply invariantA_store hA
        simp only [InvariantA, hdr]
        split_ifs <;> omega
      refine ⟨_, by simp [control_block.dec_refs, hcb], hA1, ?_⟩
      intro hz
      simp only [control_block.strong_count, load_store, hlt, and_self, if_true,
        Option.map_some', Option.some.injEq] at hz
      have hl1 : (s.store c { cb with refs := size_dec cb.refs }).load c
          = some ⟨0, cb.weak_refs, cb.variant⟩ := by simp [hlt, hz]
      refine ⟨by rw [control_block.weak_count, hl1]; simp [a2], _,
        delete_object_eq hl1, ?_, ?_, ?_⟩
      · apply invariantA_store (invariantA_emit (invariantA_emit hA1))
        simp [InvariantA]
      · simp [control_block.weak_count, hlt, a2]
      · obtain ⟨t, ht, hAt⟩ := hds
        refine ⟨t, ?_, hAt, ht⟩
        rw [← ht]
        simp only [control_block.del_strong, control_block.dec_refs, hcb, hl1, if_true,
          delete_object_eq hl1]
  · intro i a c hi ha
    obtain ⟨cb, hcb, hpos⟩ := observer_block hwf hi ha
    obtain ⟨a1, a2, a3, a4, a5⟩ := (hwf c).live cb hcb
    have hl := owners_le_live s c
    have hiw : size_inc cb.weak_refs = cb.weak_refs + 1 :=
      size_inc_eq (by split_ifs at a2 <;> omega)
    have hdw : size_dec cb.weak_refs = cb.weak_refs - 1 := size_dec_eq a5 a3
    refine ⟨⟨_, add_weak_eq hcb, ?_⟩, ⟨_, del_weak_eq hcb, ?_⟩, ?_⟩
    · apply invariantA_store hA
      simp only [InvariantA, hiw]
      split_ifs <;> omega
    · rw [hdw]
      split_ifs with h1
      · exact invariantA_free (invariantA_emit hA)
      · apply invariantA_store hA
        simp only [InvariantA]
        split_ifs at * <;> omega
    · intro hne
      have h0 : cb.refs ≠ 0 := by
        intro h0
        apply hne
        simp [control_block.strong_count, hcb, h0]
      have hir : size_inc cb.refs = cb.refs + 1 := size_inc_eq (by omega)
      refine ⟨_, add_strong_eq hcb, ?_⟩
      apply invariantA_store hA
      simp only [InvariantA, h0, if_false, hir]
      split_ifs at * <;> omega
  · intro v
    have hA0 : (s.alloc ⟨0, 0, v⟩).invariantA :=
      invariantA_alloc hA (by simp [InvariantA])
    refine ⟨hA0, _, @add_strong_eq _ _ ⟨0, 0, v⟩ (by simp), ?_⟩
    apply invariantA_store hA0
    simp [InvariantA, size_inc_zero]

theorem invariant_A_witness :
    Reachable sample_state ∧ sample_state.live + 1 < SIZE_MOD ∧ sample_state.invariantA :=
  ⟨sample_reachable, by decide,
   (invariant_A sample_state sample_reachable (by decide)).1⟩

/-! ## Where the members of a handle come from -/

theorem mem_of_getD {α : Type} {l : List (Option α)} {i : Nat} {a : α}
    (h : l.getD i none = some a) : some a ∈ l := by
  have hlt := lt_of_getD_some _ _ _ h
  rw [List.getD_eq_getElem?_getD, List.getElem?_eq_getElem hlt] at h
  simp only [Option.getD_some] at h
  rw [← h]
  exact List.getElem_mem hlt

theorem holds_sp {s : State} {i : Nat} {a : shared_ptr} (h : s.sp i = some a) :
    s.holds a.cblock a.ptr := Or.inl (mem_of_getD h)

theorem holds_wp {s : State} {i : Nat} {a : weak_ptr} (h : s.wp i = some a) :
    s.holds a.cblock a.ptr := Or.inr (mem_of_getD h)

theorem Prov.prov_refl (E : Option Nat → Ptr → Prop) (s : State) : Prov E s s :=
  fun _ _ h => Or.inl h

theorem Prov.prov_trans {E : Option Nat → Ptr → Prop} {s s1 s2 : State} (h1 : Prov E s s1)
    (h2 : Prov E s1 s2) : Prov E s s2 := by
  intro cb p h
  rcases h2 cb p h with h | h
  · exact h1 cb p h
  · exact Or.inr h

theorem Prov.prov_of_eq {E : Option Nat → Ptr → Prop} {s s1 : State} (hs : s1.sps = s.sps)
    (hw : s1.wps = s.wps) : Prov E s s1 := by
  intro cb p h
  left
  simpa [State.holds, hs, hw] using h

theorem prov_pushSp {E : Option Nat → Ptr → Prop} {s : State} (cb : Option Nat) (p : Ptr)
    (h : s.holds cb p ∨ (cb = none ∧ p = Ptr.null) ∨ E cb p) :
    Prov E s (s.pushSp ⟨cb, p⟩) := by
  intro cb1 p1 h1
  simp only [State.holds, State.pushSp, List.mem_append, List.mem_singleton,
    Option.some.injEq, shared_ptr.mk.injEq] at h1
  rcases h1 with (h1 | ⟨h1, h2⟩) | h1
  · exact Or.inl (Or.inl h1)
  · rw [h1, h2]
    exact h
  · exact Or.inl (Or.inr h1)

theorem prov_pushWp {E : Option Nat → Ptr → Prop} {s : State} (cb : Option Nat) (p : Ptr)
    (h : s.holds cb p ∨ (cb = none ∧ p = Ptr.null) ∨ E cb p) :
    Prov E s (s.pushWp ⟨cb, p⟩) := by
  intro cb1 p1 h1
  simp only [State.holds, State.pushWp, List.mem_append, List.mem_singleton,
    Option.some.injEq, weak_ptr.mk.injEq] at h1
  rcases h1 with h1 | h1 | ⟨h1, h2⟩
  · exact Or.inl (Or.inl h1)
  · exact Or.inl (Or.inr h1)
  · rw [h1, h2]
    exact h

theorem prov_setSp {E : Option Nat → Ptr → Prop} {s : State} (i : Nat)
    (o : Option shared_ptr)
    (h : ∀ a, o = some a → s.holds a.cblock a.ptr ∨ (a.cblock = none ∧ a.ptr = Ptr.null)
      ∨ E a.cblock a.ptr) :
    Prov E s (s.setSp i o) := by
  intro cb1 p1 h1
  rcases h1 with h1 | h1
  · rcases List.mem_or_eq_of_mem_set h1 with h2 | h2
    · exact Or.inl (Or.inl h2)
    · exact h _ h2.symm
  · exact Or.inl (Or.inr h1)

theorem prov_setWp {E : Option Nat → Ptr → Prop} {s : State} (i : Nat)
    (o : Option weak_ptr)
    (h : ∀ a, o = some a → s.holds a.cblock a.ptr ∨ (a.cblock = none ∧ a.ptr = Ptr.null)
      ∨ E a.cblock a.ptr) :
    Prov E s (s.setWp i o) := by
  intro cb1 p1 h1
  rcases h1 with h1 | h1
  · exact Or.inl (Or.inl h1)
  · rcases List.mem_or_eq_of_mem_set h1 with h2 | h2
    · exact Or.inl (Or.inr h2)
    · exact h _ h2.symm

theorem add_weak_frame {s s1 : State} {c : Nat} (h : control_block.add_weak s c = some s1) :
    s1.sps = s.sps ∧ s1.wps = s.wps := by
  cases hl : s.load c with
  | none => simp [control_block.add_weak, hl] at h
  | some cb =>
    rw [add_weak_eq hl] at h
    have h := Option.some.inj h
    subst h
    exact ⟨rfl, rfl⟩

theorem add_strong_frame {s s1 : State} {c : Nat}
    (h : control_block.add_strong s c = some s1) : s1.sps = s.sps ∧ s1.wps = s.wps := by
  cases hl : s.load c with
  | none => simp [control_block.add_strong, hl] at h
  | some cb =>
    rw [add_strong_eq hl] at h
    have h := Option.some.inj h
    subst h
    exact ⟨rfl, rfl⟩

theorem del_weak_frame {s s1 : State} {c : Nat} (h : control_block.del_weak s c = some s1) :
    s1.sps = s.sps ∧ s1.wps = s.wps := by
  cases hl : s.load c with
  | none => simp [control_block.del_weak, hl] at h
  | some cb =>
    rw [del_weak_eq hl] at h
    have h := Option.some.inj h
    subst h
    split_ifs <;> exact ⟨rfl, rfl⟩

theorem del_strong_frame {s s1 : State} {c : Nat}
    (h : control_block.del_strong s c = some s1) : s1.sps = s.sps ∧ s1.wps = s.wps := by
  cases hl : s.load c with
  | none => simp [control_block.del_strong, control_block.dec_refs, hl] at h
  | some cb =>
    rw [del_strong_eq hl] at h
    have h := Option.some.inj h
    subst h
    split_ifs <;> exact ⟨rfl, rfl⟩

theorem sp_ctor_cblock_prov {E : Option Nat → Ptr → Prop} {s s1 : State}
    {cbo : Option Nat} {p : Ptr} {n : Nat}
    (h : shared_ptr.ctor_cblock s cbo p = some (s1, n))
    (hE : s.holds cbo p ∨ (cbo = none ∧ p = Ptr.null) ∨ E cbo p) : Prov E s s1 := by
  have h0 : Prov E s (s.pushSp ⟨cbo, p⟩) := prov_pushSp cbo p hE
  cases cbo with
  | none =>
    simp only [shared_ptr.ctor_cblock, Option.some.injEq, Prod.mk.injEq] at h
    rw [← h.1]
    exact h0
  | some c =>
    simp only [shared_ptr.ctor_cblock] at h
    cases h1 : control_block.add_strong (s.pushSp ⟨some c, p⟩) c with
    | none => simp [h1] at h
    | some s2 =>
      simp only [h1, Option.some.injEq, Prod.mk.injEq] at h
      rw [← h.1]
      obtain ⟨f1, f2⟩ := add_strong_frame h1
      exact h0.prov_trans (Prov.prov_of_eq f1 f2)

theorem wp_ctor_cblock_prov {E : Option Nat → Ptr → Prop} {s s1 : State}
    {cbo : Option Nat} {p : Ptr} {n : Nat}
    (h : weak_ptr.ctor_cblock s cbo p = some (s1, n))
    (hE : s.holds cbo p ∨ (cbo = none ∧ p = Ptr.null) ∨ E cbo p) : Prov E s s1 := by
  have h0 : Prov E s (s.pushWp ⟨cbo, p⟩) := prov_pushWp cbo p hE
  cases cbo with
  | none =>
    simp only [weak_ptr.ctor_cblock, Option.some.injEq, Prod.mk.injEq] at h
    rw [← h.1]
    exact h0
  | some c =>
    simp only [weak_ptr.ctor_cblock] at h
    cases h1 : control_block.add_weak (s.pushWp ⟨some c, p⟩) c with
    | none => simp [h1] at h
    | some s2 =>
      simp only [h1, Option.some.injEq, Prod.mk.injEq] at h
      rw [← h.1]
      obtain ⟨f1, f2⟩ := add_weak_frame h1
      exact h0.prov_trans (Prov.prov_of_eq f1 f2)

theorem sp_ctor_prov (E : Option Nat → Ptr → Prop) (s : State) :
    Prov E s (shared_ptr.ctor s).1 := prov_pushSp none Ptr.null (Or.inr (Or.inl ⟨rfl, rfl⟩))

theorem wp_ctor_prov (E : Option Nat → Ptr → Prop) (s : State) :
    Prov E s (weak_ptr.ctor s).1 := prov_pushWp none Ptr.null (Or.inr (Or.inl ⟨rfl, rfl⟩))

theorem sp_swap_prov {E : Option Nat → Ptr → Prop} {s s1 : State} {i j : Nat}
    (h : shared_ptr.swap s i j = some s1) : Prov E s s1 := by
  cases hi : s.sp i with
  | none => simp [shared_ptr.swap, hi] at h
  | some a =>
    cases hj : s.sp j with
    | none => simp [shared_ptr.swap, hi, hj] at h
    | some b =>
      rw [sp_swap_eq hi hj] at h
      have h := Option.some.inj h
      subst h
      intro cb p h1
      rcases h1 with h1 | h1
      · rcases List.mem_or_eq_of_mem_set h1 with h2 | h2
        · rcases List.mem_or_eq_of_mem_set h2 with h3 | h3
          · exact Or.inl (Or.inl h3)
          · cases h3
            exact Or.inl (holds_sp hj)
        · cases h2
          exact Or.inl (holds_sp hi)
      · exact Or.inl (Or.inr h1)

theorem wp_swap_prov {E : Option Nat → Ptr → Prop} {s s1 : State} {i j : Nat}
    (h : weak_ptr.swap s i j = some s1) : Prov E s s1 := by
  cases hi : s.wp i with
  | none => simp [weak_ptr.swap, hi] at h
  | some a =>
    cases hj : s.wp j with
    | none => simp [weak_ptr.swap, hi, hj] at h
    | some b =>
      rw [wp_swap_eq hi hj] at h
      have h := Option.some.inj h
      subst h
      intro cb p h1
      rcases h1 with h1 | h1
      · exact Or.inl (Or.inl h1)
      · rcases List.mem_or_eq_of_mem_set h1 with h2 | h2
        · rcases List.mem_or_eq_of_mem_set h2 with h3 | h3
          · exact Or.inl (Or.inr h3)
          · cases h3
            exact Or.inl (holds_wp hj)
        · cases h2
          exact Or.inl (holds_wp hi)

theorem sp_dtor_prov {E : Option Nat → Ptr → Prop} {s s1 : State} {i : Nat}
    (h : shared_ptr.dtor s i = some s1) : Prov E s s1 := by
  simp only [shared_ptr.dtor] at h
  cases hi : s.sp i with
  | none => simp [hi] at h
  | some a =>
    simp only [hi] at h
    cases ha : a.cblock with
    | none =>
      simp only [ha, Option.some.injEq] at h
      rw [← h]
      exact prov_setSp i none (by intro x hx; cases hx)
    | some c =>
      simp only [ha] at h
      cases h1 : control_block.del_strong s c with
      | none => simp [h1] at h
      | some s2 =>
        simp only [h1, Option.some.injEq] at h
        rw [← h]
        obtain ⟨f1, f2⟩ := del_strong_frame h1
        exact (Prov.prov_of_eq f1 f2).prov_trans (prov_setSp i none (by intro x hx; cases hx))

theorem wp_dtor_prov {E : Option Nat → Ptr → Prop} {s s1 : State} {i : Nat}
    (h : weak_ptr.dtor s i = some s1) : Prov E s s1 := by
  simp only [weak_ptr.dtor] at h
  cases hi : s.wp i with
  | none => simp [hi] at h
  | some a =>
    simp only [hi] at h
    cases ha : a.cblock with
    | none =>
      simp only [ha, Option.some.injEq] at h
      rw [← h]
      exact prov_setWp i none (by intro x hx; cases hx)
    | some c =>
      simp only [ha] at h
      cases h1 : control_block.del_weak s c with
      | none => simp [h1] at h
      | some s2 =>
        simp only [h1, Option.some.injEq] at h
        rw [← h]
        obtain ⟨f1, f2⟩ := del_weak_frame h1
        exact (Prov.prov_of_eq f1 f2).prov_trans (prov_setWp i none (by intro x hx; cases hx))

theorem sp_ctor_ptr_deleter_prov {E : Option Nat → Ptr → Prop} {s s1 : State} {p : Ptr}
    {d : Nat} {alloc : Option Exn} {r : Except Exn Nat}
    (h : shared_ptr.ctor_ptr_deleter s p d alloc = some (s1, r))
    (hE : alloc = none → E (some s.heap.length) p) : Prov E s s1 := by
  cases alloc with
  | some e =>
    simp only [shared_ptr.ctor_ptr_deleter, Option.some.injEq, Prod.mk.injEq] at h
    rw [← h.1]
    exact Prov.prov_of_eq rfl rfl
  | none =>
    rw [sp_adopt_eq] at h
    simp only [Option.some.injEq, Prod.mk.injEq] at h
    rw [← h.1]
    have h0 : Prov E (s.alloc ⟨0, 0, Variant.regular p d⟩)
        ((s.alloc ⟨0, 0, Variant.regular p d⟩).pushSp ⟨some s.heap.length, p⟩) :=
      prov_pushSp _ _ (Or.inr (Or.inr (hE rfl)))
    exact ((Prov.prov_of_eq rfl rfl).prov_trans h0).prov_trans (Prov.prov_of_eq rfl rfl)

theorem make_shared_prov {E : Option Nat → Ptr → Prop} {s s1 : State} {args : List Nat}
    {alloc : Option Exn} {r : Except Exn Nat}
    (h : make_shared s args alloc = some (s1, r))
    (hE : alloc = none → E (some s.heap.length) (Ptr.stg s.heap.length)) : Prov E s s1 := by
  cases alloc with
  | some e =>
    simp only [make_shared, Option.some.injEq, Prod.mk.injEq] at h
    rw [← h.1]
    exact Prov.prov_refl E s
  | none =>
    rw [make_shared_eq] at h
    simp only [Option.some.injEq, Prod.mk.injEq] at h
    rw [← h.1]
    have h0 : Prov E (s.alloc ⟨0, 0, Variant.inplace args⟩)
        ((s.alloc ⟨0, 0, Variant.inplace args⟩).pushSp
          ⟨some s.heap.length, Ptr.stg s.heap.length⟩) :=
      prov_pushSp _ _ (Or.inr (Or.inr (hE rfl)))
    exact ((Prov.prov_of_eq rfl rfl).prov_trans h0).prov_trans (Prov.prov_of_eq rfl rfl)

theorem sp_ctor_alias_prov {E : Option Nat → Ptr → Prop} {s s1 : State} {j n : Nat}
    {p : Ptr} (h : shared_ptr.ctor_alias s j p = some (s1, n))
    (hE : ∀ o, s.sp j = some o → E o.cblock p) : Prov E s s1 := by
  simp only [shared_ptr.ctor_alias] at h
  cases hj : s.sp j with
  | none => simp [hj] at h
  | some o =>
    simp only [hj] at h
    exact sp_ctor_cblock_prov h (Or.inr (Or.inr (hE o hj)))

theorem sp_ctor_copy_prov {E : Option Nat → Ptr → Prop} {s s1 : State} {j n : Nat}
    (h : shared_ptr.ctor_copy s j = some (s1, n)) : Prov E s s1 := by
  simp only [shared_ptr.ctor_copy] at h
  cases hj : s.sp j with
  | none => simp [hj] at h
  | some o =>
    simp only [hj] at h
    exact sp_ctor_cblock_prov h (Or.inl (holds_sp hj))

theorem sp_ctor_convert_prov {E : Option Nat → Ptr → Prop} {s s1 : State} {j n : Nat}
    (h : shared_ptr.ctor_convert s j = some (s1, n)) : Prov E s s1 := by
  simp only [shared_ptr.ctor_convert, shared_ptr.ctor_alias] at h
  cases hj : s.sp j with
  | none => simp [hj] at h
  | some o =>
    simp only [hj] at h
    exact sp_ctor_cblock_prov h (Or.inl (holds_sp hj))

theorem sp_ctor_move_prov {E : Option Nat → Ptr → Prop} {s s1 : State} {j n : Nat}
    (h : shared_ptr.ctor_move s j = some (s1, n)) : Prov E s s1 := by
  simp only [shared_ptr.ctor_move] at h
  split at h
  · cases h
  · cases h1 : shared_ptr.swap (shared_ptr.ctor s).1 (shared_ptr.ctor s).2 j with
    | none => simp [h1] at h
    | some s2 =>
      simp only [h1, Option.some.injEq, Prod.mk.injEq] at h
      rw [← h.1]
      exact (sp_ctor_prov E s).prov_trans (sp_swap_prov h1)

theorem sp_reset_prov {E : Option Nat → Ptr → Prop} {s s1 : State} {i : Nat}
    (h : shared_ptr.reset s i = some s1) : Prov E s s1 := by
  simp only [shared_ptr.reset] at h
  split at h
  · cases h
  · cases h1 : shared_ptr.swap (shared_ptr.ctor s).1 i (shared_ptr.ctor s).2 with
    | none => simp [h1] at h
    | some s2 =>
      simp only [h1] at h
      exact ((sp_ctor_prov E s).prov_trans (sp_swap_prov h1)).prov_trans (sp_dtor_prov h)

theorem sp_assign_copy_prov {E : Option Nat → Ptr → Prop} {s s1 : State} {i j : Nat}
    (h : shared_ptr.assign_copy s i j = some s1) : Prov E s s1 := by
  simp only [shared_ptr.assign_copy] at h
  split at h
  · split_ifs at h with hij
    · cases h1 : shared_ptr.ctor_copy s j with
      | none => simp [h1] at h
      | some r =>
        obtain ⟨s2, n⟩ := r
        simp only [h1] at h
        cases h2 : shared_ptr.swap s2 i n with
        | none => simp [h2] at h
        | some s3 =>
          simp only [h2] at h
          exact ((sp_ctor_copy_prov h1).prov_trans (sp_swap_prov h2)).prov_trans (sp_dtor_prov h)
    · cases h
      exact Prov.prov_refl E s
  · cases h

theorem sp_assign_move_prov {E : Option Nat → Ptr → Prop} {s s1 : State} {i j : Nat}
    (h : shared_ptr.assign_move s i j = some s1) : Prov E s s1 := by
  simp only [shared_ptr.assign_move] at h
  split at h
  · split_ifs at h with hij
    · cases h1 : shared_ptr.reset s i with
      | none => simp [h1] at h
      | some s2 =>
        simp only [h1] at h
        exact (sp_reset_prov h1).prov_trans (sp_swap_prov h)
    · cases h
      exact Prov.prov_refl E s
  · cases h

theorem sp_reset_ptr_deleter_prov {E : Option Nat → Ptr → Prop} {s s1 : State} {i : Nat}
    {p : Ptr} {d : Nat} {alloc : Option Exn} {r : Except Exn Unit}
    (h : shared_ptr.reset_ptr_deleter s i p d alloc = some (s1, r))
    (hE : alloc = none → E (some s.heap.length) p) : Prov E s s1 := by
  simp only [shared_ptr.reset_ptr_deleter] at h
  split at h
  · cases h
  · cases h1 : shared_ptr.ctor_ptr_deleter s p d alloc with
    | none => simp [h1] at h
    | some r1 =>
      obtain ⟨s2, x⟩ := r1
      have e1 : Prov E s s2 := sp_ctor_ptr_deleter_prov h1 hE
      cases x with
      | error e =>
        simp only [h1, Option.some.injEq, Prod.mk.injEq] at h
        rw [← h.1]
        exact e1
      | ok n =>
        simp only [h1] at h
        cases h2 : shared_ptr.swap s2 i n with
        | none => simp [h2] at h
        | some s3 =>
          simp only [h2] at h
          cases h3 : shared_ptr.dtor s3 n with
          | none => simp [h3] at h
          | some s4 =>
            simp only [h3, Option.some.injEq, Prod.mk.injEq] at h
            rw [← h.1]
            exact (e1.prov_trans (sp_swap_prov h2)).prov_trans (sp_dtor_prov h3)

theorem wp_ctor_copy_prov {E : Option Nat → Ptr → Prop} {s s1 : State} {j n : Nat}
    (h : weak_ptr.ctor_copy s j = some (s1, n)) : Prov E s s1 := by
  simp only [weak_ptr.ctor_copy] at h
  cases hj : s.wp j with
  | none => simp [hj] at h
  | some o =>
    simp only [hj] at h
    exact wp_ctor_cblock_prov h (Or.inl (holds_wp hj))

theorem wp_ctor_shared_prov {E : Option Nat → Ptr → Prop} {s s1 : State} {j n : Nat}
    (h : weak_ptr.ctor_shared s j = some (s1, n)) : Prov E s s1 := by
  simp only [weak_ptr.ctor_shared] at h
  cases hj : s.sp j with
  | none => simp [hj] at h
  | some o =>
    simp only [hj] at h
    exact wp_ctor_cblock_prov h (Or.inl (holds_sp hj))

theorem wp_ctor_move_prov {E : Option Nat → Ptr → Prop} {s s1 : State} {j n : Nat}
    (h : weak_ptr.ctor_move s j = some (s1, n)) : Prov E s s1 := by
  simp only [weak_ptr.ctor_move] at h
  split at h
  · cases h
  · cases h1 : weak_ptr.swap (weak_ptr.ctor s).1 (weak_ptr.ctor s).2 j with
    | none => simp [h1] at h
    | some s2 =>
      simp only [h1, Option.some.injEq, Prod.mk.injEq] at h
      rw [← h.1]
      exact (wp_ctor_prov E s).prov_trans (wp_swap_prov h1)

theorem wp_assign_copy_prov {E : Option Nat → Ptr → Prop} {s s1 : State} {i j : Nat}
    (h : weak_ptr.assign_copy s i j = some s1) : Prov E s s1 := by
  simp only [weak_ptr.assign_copy] at h
  split at h
  · cases h1 : weak_ptr.ctor_copy s j with
    | none => simp [h1] at h
    | some r =>
      obtain ⟨s2, n⟩ := r
      simp only [h1] at h
      cases h2 : weak_ptr.swap s2 i n with
      | none => simp [h2] at h
      | some s3 =>
        simp only [h2] at h
        exact ((wp_ctor_copy_prov h1).prov_trans (wp_swap_prov h2)).prov_trans (wp_dtor_prov h)
  · cases h

theorem wp_assign_move_prov {E : Option Nat → Ptr → Prop} {s s1 : State} {i j : Nat}
    (h : weak_ptr.assign_move s i j = some s1) : Prov E s s1 := by
  simp only [weak_ptr.assign_move] at h
  split at h
  · split_ifs at h with hij
    · cases h1 : weak_ptr.ctor_move (weak_ptr.ctor s).1 j with
      | none => simp [h1] at h
      | some r =>
        obtain ⟨s2, tmp⟩ := r
        simp only [h1] at h
        cases h2 : weak_ptr.swap s2 tmp i with
        | none => simp [h2] at h
        | some s3 =>
          simp only [h2] at h
          cases h3 : weak_ptr.dtor s3 tmp with
          | none => simp [h3] at h
          | some s4 =>
            simp only [h3] at h
            exact ((((wp_ctor_prov E s).prov_trans (wp_ctor_move_prov h1)).prov_trans
              (wp_swap_prov h2)).prov_trans (wp_dtor_prov h3)).prov_trans (wp_dtor_prov h)
    · cases h
      exact Prov.prov_refl E s
  · cases h

theorem wp_lock_prov {E : Option Nat → Ptr → Prop} {s s1 : State} {i n : Nat}
    (h : weak_ptr.lock s i = some (s1, n)) : Prov E s s1 := by
  simp only [weak_ptr.lock] at h
  cases hi : s.wp i with
  | none => simp [hi] at h
  | some a =>
    simp only [hi] at h
    split at h
    · simp only [Option.some.injEq] at h
      have := sp_ctor_prov E s
      rw [h] at this
      exact this
    · split at h
      · cases h
      · split_ifs at h
        · simp only [Option.some.injEq] at h
          have := sp_ctor_prov E s
          rw [h] at this
          exact this
        · exact sp_ctor_cblock_prov h (Or.inl (holds_wp hi))

/-- A call builds its handles from the members of existing handles, from the empty pair,
and from the pairs listed in `Op.makes`. -/
theorem step_prov {s s1 : State} {op : Op} (h : step s op = some s1) :
    Prov (op.makes s) s s1 := by
  cases op <;> simp only [step, Option.map_eq_some', Prod.exists, exists_and_right,
    exists_eq_right, Option.some.injEq, shared_ptr.ctor_nullptr, shared_ptr.ctor_ptr,
    shared_ptr.reset_ptr] at h
  case sp_ctor => subst h; exact sp_ctor_prov _ s
  case sp_ctor_nullptr => subst h; exact sp_ctor_prov _ s
  case sp_ctor_ptr p alloc =>
    obtain ⟨r, h⟩ := h
    exact sp_ctor_ptr_deleter_prov h (by intro ha; subst ha; exact ⟨rfl, rfl⟩)
  case sp_ctor_ptr_deleter p d alloc =>
    obtain ⟨r, h⟩ := h
    exact sp_ctor_ptr_deleter_prov h (by intro ha; subst ha; exact ⟨rfl, rfl⟩)
  case sp_ctor_alias j p =>
    obtain ⟨r, h⟩ := h
    exact sp_ctor_alias_prov h (fun o ho => ⟨o, ho, rfl, rfl⟩)
  case sp_ctor_convert j => obtain ⟨r, h⟩ := h; exact sp_ctor_convert_prov h
  case sp_ctor_copy j => obtain ⟨r, h⟩ := h; exact sp_ctor_copy_prov h
  case sp_ctor_move j => obtain ⟨r, h⟩ := h; exact sp_ctor_move_prov h
  case sp_assign_copy i j => exact sp_assign_copy_prov h
  case sp_assign_move i j => exact sp_assign_move_prov h
  case sp_dtor i => exact sp_dtor_prov h
  case sp_reset i => exact sp_reset_prov h
  case sp_reset_ptr i p alloc =>
    obtain ⟨r, h⟩ := h
    exact sp_reset_ptr_deleter_prov h (by intro ha; subst ha; exact ⟨rfl, rfl⟩)
  case sp_reset_ptr_deleter i p d alloc =>
    obtain ⟨r, h⟩ := h
    exact sp_reset_ptr_deleter_prov h (by intro ha; subst ha; exact ⟨rfl, rfl⟩)
  case sp_swap i j => exact sp_swap_prov h
  case make_shared args alloc =>
    obtain ⟨r, h⟩ := h
    exact make_shared_prov h (by intro ha; subst ha; exact ⟨rfl, rfl⟩)
  case wp_ctor => subst h; exact wp_ctor_prov _ s
  case wp_ctor_copy j => obtain ⟨r, h⟩ := h; exact wp_ctor_copy_prov h
  case wp_ctor_shared j => obtain ⟨r, h⟩ := h; exact wp_ctor_shared_prov h
  case wp_ctor_move j => obtain ⟨r, h⟩ := h; exact wp_ctor_move_prov h
  case wp_dtor i => exact wp_dtor_prov h
  case wp_assign_copy i j => exact wp_assign_copy_prov h
  case wp_assign_move i j => exact wp_assign_move_prov h
  case wp_swap i j => exact wp_swap_prov h
  case wp_lock i => obtain ⟨r, h⟩ := h; exact wp_lock_prov h

theorem sample_paired : sample_state.paired := by
  intro cb p h
  simp only [State.holds, sample_state, List.mem_cons, Option.some.injEq,
    shared_ptr.mk.injEq, weak_ptr.mk.injEq, reduceCtorEq, List.mem_singleton,
    List.not_mem_nil, or_false, false_or] at h
  rcases h with (⟨h1, h2⟩ | ⟨h1, h2⟩ | ⟨h1, h2⟩) | ⟨h1, h2⟩ <;> subst h1 <;> subst h2 <;> simp

/-- C6, as stated, fails: the aliasing constructor applied to a non-empty owner and a
null pointer yields a handle with a control block and a null access pointer; applied to
an empty owner and a non-null pointer it yields a handle without control block and with
a non-null access pointer; and adopting a null pointer yields a handle with a control
block and a null access pointer. -/
theorem handle_pairing_counterexample :
    (run State.init [Op.sp_ctor_ptr_deleter (Ptr.obj 7) 3 none,
        Op.sp_ctor_alias 0 Ptr.null]).map (fun s => s.sp 1)
      = some (some ⟨some 0, Ptr.null⟩) ∧
    (run State.init [Op.sp_ctor, Op.sp_ctor_alias 0 (Ptr.obj 8)]).map (fun s => s.sp 1)
      = some (some ⟨none, Ptr.obj 8⟩) ∧
    (run State.init [Op.sp_ctor_ptr Ptr.null none]).map (fun s => s.sp 0)
      = some (some ⟨some 0, Ptr.null⟩) ∧
    ¬ (∀ s, Reachable s → ∀ i h, s.sp i = some h →
        (h.cblock = none ↔ h.ptr = Ptr.null)) := by
  refine ⟨by decide, by decide, by decide, ?_⟩
  intro h
  have h1 := h { heap := [some ⟨1, 1, Variant.regular Ptr.null default_delete⟩],
                 sps := [some ⟨some 0, Ptr.null⟩], wps := [], log := [] }
    ⟨[Op.sp_ctor_ptr Ptr.null none], by decide⟩ 0 ⟨some 0, Ptr.null⟩ (by decide)
  simp at h1

/-- C6, amended: the initial state has no handle, and a call made in a state in which
every live handle has "no control block" exactly if it has a null access pointer leads
to such a state again, provided that a raw pointer that the call adopts (by a
constructor or by `reset(p)`) is not null and that an aliasing constructor gets a null
pointer exactly with an owner that has no control block. -/
theorem handle_pairing :
    State.init.paired ∧
    ∀ (s s1 : State) (op : Op), step s op = some s1 → s.paired → op.keeps_pairing s →
      s1.paired := by
  refine ⟨?_, ?_⟩
  · intro cb p h
    simp [State.holds, State.init] at h
  · intro s s1 op hs hp hk cb p h
    rcases step_prov hs cb p h with h1 | ⟨h1, h2⟩ | h1
    · exact hp cb p h1
    · simp [h1, h2]
    · cases op
      all_goals try (simp only [Op.makes] at h1; done)
      case sp_ctor_ptr q alloc =>
        cases alloc with
        | some e => simp [Op.makes] at h1
        | none =>
          simp only [Op.makes] at h1
          simp only [Op.keeps_pairing] at hk
          simp [h1.1, h1.2, hk]
      case sp_ctor_ptr_deleter q d alloc =>
        cases alloc with
        | some e => simp [Op.makes] at h1
        | none =>
          simp only [Op.makes] at h1
          simp only [Op.keeps_pairing] at hk
          simp [h1.1, h1.2, hk]
      case sp_reset_ptr i q alloc =>
        cases alloc with
        | some e => simp [Op.makes] at h1
        | none =>
          simp only [Op.makes] at h1
          simp only [Op.keeps_pairing] at hk
          simp [h1.1, h1.2, hk]
      case sp_reset_ptr_deleter i q d alloc =>
        cases alloc with
        | some e => simp [Op.makes] at h1
        | none =>
          simp only [Op.makes] at h1
          simp only [Op.keeps_pairing] at hk
          simp [h1.1, h1.2, hk]
      case make_shared args alloc =>
        cases alloc with
        | some e => simp [Op.makes] at h1
        | none =>
          simp only [Op.makes] at h1
          simp [h1.1, h1.2]
      case sp_ctor_alias j q =>
        simp only [Op.makes] at h1
        obtain ⟨o, ho, e1, e2⟩ := h1
        simp only [Op.keeps_pairing] at hk
        rw [e1, e2]
        exact hk o ho

theorem handle_pairing_witness :
    step sample_state (Op.sp_ctor_alias 1 (Ptr.obj 9)) = some
      { heap := [some ⟨3, 2, Variant.regular (Ptr.obj 7) 3⟩,
                 some ⟨1, 1, Variant.inplace [42]⟩],
        sps := [none, some ⟨some 0, Ptr.obj 7⟩, some ⟨some 1, Ptr.stg 1⟩,
                some ⟨some 0, Ptr.obj 8⟩, some ⟨some 0, Ptr.obj 9⟩],
        wps := [some ⟨some 0, Ptr.obj 7⟩],
        log := [] } ∧
    sample_state.paired ∧ (Op.sp_ctor_alias 1 (Ptr.obj 9)).keeps_pairing sample_state ∧
    State.paired
      { heap := [some ⟨3, 2, Variant.regular (Ptr.obj 7) 3⟩,
                 some ⟨1, 1, Variant.inplace [42]⟩],
        sps := [none, some ⟨some 0, Ptr.obj 7⟩, some ⟨some 1, Ptr.stg 1⟩,
                some ⟨some 0, Ptr.obj 8⟩, some ⟨some 0, Ptr.obj 9⟩],
        wps := [some ⟨some 0, Ptr.obj 7⟩],
        log := [] } :=
  have hk : (Op.sp_ctor_alias 1 (Ptr.obj 9)).keeps_pairing sample_state := by
    intro o ho
    have : o = ⟨some 0, Ptr.obj 7⟩ := by
      have h2 : sample_state.sp 1 = some ⟨some 0, Ptr.obj 7⟩ := by decide
      rw [h2] at ho
      exact (Option.some.inj ho).symm
    subst this
    simp
  ⟨by decide, sample_paired, hk,
   handle_pairing.2 sample_state _ (Op.sp_ctor_alias 1 (Ptr.obj 9)) (by decide)
     sample_paired hk⟩

/-- C7: adoption `shared_ptr(p, D)` in any state. If the allocation of the control block
throws `e`, the call throws the same `e`, `D(p)` is the one event that it adds to the
log, and no handle and no control block comes into existence or changes. If the
allocation succeeds, nothing is added to the log (so `D` is not invoked), the new handle
has access pointer `p` and a control block at a fresh address that holds `p` and `D` and
has `refs == 1` and `weak_refs == 1`, `use_count()` of the handle is 1, and no other
handle or block changes. The constructor `shared_ptr(p)` is the instance with
`std::default_delete`. -/
theorem adoption_spec (s : State) (p : Ptr) (d : Nat) :
    (∀ e, ∃ s1, shared_ptr.ctor_ptr_deleter s p d (some e) = some (s1, Except.error e) ∧
      s1.log = s.log ++ [Event.deleter d p] ∧
      s1.heap = s.heap ∧ s1.sps = s.sps ∧ s1.wps = s.wps) ∧
    (∃ s1, shared_ptr.ctor_ptr_deleter s p d none = some (s1, Except.ok s.sps.length) ∧
      s1.log = s.log ∧
      s.sp s.sps.length = none ∧
      s1.sp s.sps.length = some ⟨some s.heap.length, p⟩ ∧
      s.load s.heap.length = none ∧
      s1.load s.heap.length = some ⟨1, 1, Variant.regular p d⟩ ∧
      control_block.strong_count s1 s.heap.length = some 1 ∧
      control_block.weak_count s1 s.heap.length = some 1 ∧
      shared_ptr.use_count s1 s.sps.length = some 1 ∧
      s1.heap.length = s.heap.length + 1 ∧
      (∀ c, c ≠ s.heap.length → s1.load c = s.load c) ∧
      (∀ j, j ≠ s.sps.length → s1.sp j = s.sp j) ∧
      s1.wps = s.wps) ∧
    (∀ alloc, shared_ptr.ctor_ptr s p alloc
      = shared_ptr.ctor_ptr_deleter s p default_delete alloc) := by
  have hnl : s.load s.heap.length = none := by
    cases hx : s.load s.heap.length with
    | none => rfl
    | some cb => exact absurd (load_lt hx) (Nat.lt_irrefl _)
  have hns : s.sp s.sps.length = none := by
    cases hx : s.sp s.sps.length with
    | none => rfl
    | some a => exact absurd (sp_lt hx) (Nat.lt_irrefl _)
  refine ⟨?_, ?_, fun _ => rfl⟩
  · intro e
    exact ⟨s.emit (Event.deleter d p), rfl, rfl, rfl, rfl, rfl⟩
  · have hl : (((s.alloc ⟨0, 0, Variant.regular p d⟩).pushSp ⟨some s.heap.length, p⟩).store
        s.heap.length ⟨size_inc 0, size_inc 0, Variant.regular p d⟩).load s.heap.length
        = some ⟨1, 1, Variant.regular p d⟩ := by
      simp [size_inc_zero]
    have hsp : (((s.alloc ⟨0, 0, Variant.regular p d⟩).pushSp ⟨some s.heap.length, p⟩).store
        s.heap.length ⟨size_inc 0, size_inc 0, Variant.regular p d⟩).sp s.sps.length
        = some ⟨some s.heap.length, p⟩ := by
      simp
    refine ⟨_, sp_adopt_eq s p d, rfl, hns, hsp, hnl, hl, ?_, ?_, ?_, by simp, ?_, ?_, rfl⟩
    · rw [control_block.strong_count, hl]
      rfl
    · rw [control_block.weak_count, hl]
      rfl
    · rw [shared_ptr.use_count, hsp]
      simp only [control_block.strong_count, hl]
      rfl
    · intro c hc
      simp [hc]
    · intro j hj
      simp [hj]

theorem adoption_spec_witness :
    ∃ s1, shared_ptr.ctor_ptr_deleter sample_state (Ptr.obj 5) 4 (some 9)
        = some (s1, Except.error 9) ∧
      s1.log = sample_state.log ++ [Event.deleter 4 (Ptr.obj 5)] ∧
      s1.heap = sample_state.heap ∧ s1.sps = sample_state.sps ∧
      s1.wps = sample_state.wps :=
  (adoption_spec sample_state (Ptr.obj 5) 4).1 9

/-- C8: `reset(new_ptr, deleter)` on a live owning handle `i` in a reachable state. If the
allocation of the new control block throws `e`, the call throws `e`, the handle keeps
its control block and access pointer, no block and no other handle changes, and the one
event added to the log is `deleter(new_ptr)`, so the previous object is not destroyed.
If the allocation succeeds, the handle holds `new_ptr` and a new block with counters 1
and 1, `use_count()` is 1, and the call is the construction of the new handle followed
by `swap` and by the destructor of the temporary, which releases exactly one strong
reference to the previous block: that block loses one owner, and either keeps
`refs - 1` owners, or has its object destroyed and keeps its observers, or is deleted;
all other blocks are unchanged. -/
theorem reset_ptr_spec (s : State) (i : Nat) (a : shared_ptr) (p : Ptr) (d : Nat)
    (hr : Reachable s) (hi : s.sp i = some a) :
    (∀ e, ∃ s1, shared_ptr.reset_ptr_deleter s i p d (some e) = some (s1, Except.error e) ∧
      s1.sp i = some a ∧ s1.heap = s.heap ∧ s1.sps = s.sps ∧ s1.wps = s.wps ∧
      s1.log = s.log ++ [Event.deleter d p]) ∧
    (∃ s0 s2 s1,
      shared_ptr.ctor_ptr_deleter s p d none = some (s0, Except.ok s.sps.length) ∧
      shared_ptr.swap s0 i s.sps.length = some s2 ∧
      shared_ptr.dtor s2 s.sps.length = some s1 ∧
      shared_ptr.reset_ptr_deleter s i p d none = some (s1, Except.ok ()) ∧
      s1.sp i = some ⟨some s.heap.length, p⟩ ∧
      s1.load s.heap.length = some ⟨1, 1, Variant.regular p d⟩ ∧
      shared_ptr.use_count s1 i = some 1 ∧
      s1.sp s.sps.length = none ∧ s1.wps = s.wps ∧
      (∀ j, j ≠ i → j ≠ s.sps.length → s1.sp j = s.sp j) ∧
      (∀ c, c ≠ s.heap.length → a.cblock ≠ some c → s1.load c = s.load c) ∧
      (a.cblock = none → s1.log = s.log) ∧
      (∀ c, a.cblock = some c → ∃ cb, s.load c = some cb ∧ s0.load c = some cb ∧
        s1.owners c + 1 = s.owners c ∧
        (1 < cb.refs → s1.load c = some ⟨cb.refs - 1, cb.weak_refs, cb.variant⟩ ∧
          s1.log = s.log) ∧
        (cb.refs = 1 → 1 < cb.weak_refs →
          s1.load c = some ⟨0, cb.weak_refs - 1, cb.variant.after⟩ ∧
          s1.log = s.log ++ [Event.delete_object c, cb.variant.effect c]) ∧
        (cb.refs = 1 → cb.weak_refs = 1 → s1.load c = none ∧
          s1.log = s.log ++ [Event.delete_object c, cb.variant.effect c,
            Event.delete_this c]))) := by
  have hwf := hr.wf
  have hlt := sp_lt hi
  refine ⟨?_, ?_⟩
  · intro e
    refine ⟨s.emit (Event.deleter d p), ?_, hi, rfl, rfl, rfl, rfl⟩
    simp [shared_ptr.reset_ptr_deleter, hi, shared_ptr.ctor_ptr_deleter]
  · obtain ⟨s0, e0, w0, p0, q0, r0⟩ := sp_adopt_spec hwf p d
    have hs0 : s0 = ((s.alloc ⟨0, 0, Variant.regular p d⟩).pushSp
        ⟨some s.heap.length, p⟩).store s.heap.length
        ⟨size_inc 0, size_inc 0, Variant.regular p d⟩ := by
      have := sp_adopt_eq s p d
      rw [e0] at this
      exact (Prod.mk.inj (Option.some.inj this)).1
    have h1 : s0.sp i = some a := by
      rw [sp_of_sps p0, getD_append_one, if_neg (Nat.ne_of_lt hlt)]
      exact hi
    have h2 : s0.sp s.sps.length = some ⟨some s.heap.length, p⟩ := by
      rw [sp_of_sps p0, getD_append_one]
      simp
    obtain ⟨w2, r2⟩ := wf_swap_sp w0 h1 h2
    have hlen : s0.sps.length = s.sps.length + 1 := by simp [p0]
    have h3 : ((s0.setSp i (some ⟨some s.heap.length, p⟩)).setSp s.sps.length (some a)).sp
        s.sps.length = some a := by simp [hlen]
    obtain ⟨s1, e1, w1, p1, q1, r1⟩ := sp_dtor_spec w2 h3
    have hsps : s1.sps = (s.sps.set i (some ⟨some s.heap.length, p⟩)) ++ [none] := by
      rw [p1]
      simp only [State.setSp, p0]
      rw [List.set_append_left _ _ hlt, List.set_append_right _ _ (by simp),
        List.set_append_right _ _ (by simp)]
      simp
    have hnew0 : s0.load s.heap.length = some ⟨1, 1, Variant.regular p d⟩ := by
      rw [hs0]
      simp [size_inc_zero]
    have hold0 : ∀ c, c ≠ s.heap.length → s0.load c = s.load c := by
      intro c hc
      rw [hs0]
      simp [hc]
    have hlog0 : s0.log = s.log := by rw [hs0]; rfl
    have hi1 : s1.sp i = some ⟨some s.heap.length, p⟩ := by
      rw [sp_of_sps hsps, getD_append_one, if_neg (Nat.ne_of_lt (by simpa using hlt)),
        getD_set_none]
      simp [hlt]
    -- the heap and the log after the destructor of the temporary
    have hdt : ∀ t, shared_ptr.dtor
        ((s0.setSp i (some ⟨some s.heap.length, p⟩)).setSp s.sps.length (some a))
        s.sps.length = some t →
        (a.cblock = none → t.heap = s0.heap ∧ t.log = s0.log) ∧
        (∀ c, a.cblock = some c → ∃ cb, s.load c = some cb ∧ s0.load c = some cb ∧
          c ≠ s.heap.length ∧
          (∀ c1, c1 ≠ c → t.load c1 = s0.load c1) ∧
          (1 < cb.refs → t.load c = some ⟨cb.refs - 1, cb.weak_refs, cb.variant⟩ ∧
            t.log = s0.log) ∧
          (cb.refs = 1 → 1 < cb.weak_refs →
            t.load c = some ⟨0, cb.weak_refs - 1, cb.variant.after⟩ ∧
            t.log = s0.log ++ [Event.delete_object c, cb.variant.effect c]) ∧
          (cb.refs = 1 → cb.weak_refs = 1 → t.load c = none ∧
            t.log = s0.log ++ [Event.delete_object c, cb.variant.effect c,
              Event.delete_this c])) := by
      intro t ht
      simp only [shared_ptr.dtor, h3] at ht
      refine ⟨?_, ?_⟩
      · intro hn
        simp only [hn, Option.some.injEq] at ht
        subst ht
        exact ⟨rfl, rfl⟩
      · intro c hc
        obtain ⟨cb, hcb, hpos, _⟩ := owner_block hwf hi hc
        have hcl := load_lt hcb
        have hne : c ≠ s.heap.length := Nat.ne_of_lt hcl
        have hcb0 : s0.load c = some cb := by rw [hold0 c hne]; exact hcb
        obtain ⟨a1, a2, a3, a4, a5⟩ := (hwf c).live cb hcb
        have hdr : size_dec cb.refs = cb.refs - 1 := size_dec_eq a4 hpos
        have hdw : size_dec cb.weak_refs = cb.weak_refs - 1 := size_dec_eq a5 a3
        have hcb2 : ((s0.setSp i (some ⟨some s.heap.length, p⟩)).setSp s.sps.length
            (some a)).load c = some cb := hcb0
        have hcl0 : c < s0.heap.length := load_lt hcb0
        simp only [hc, del_strong_eq hcb2, hdr, hdw, Option.some.injEq] at ht
        subst ht
        refine ⟨cb, hcb, hcb0, hne, ?_, ?_, ?_, ?_⟩
        · intro c1 hc1
          split_ifs <;> simp [hc1]
        · intro h
          have : ¬ cb.refs - 1 = 0 := by omega
          simp [this, hcl0]
        · intro h hw
          have h1 : cb.refs - 1 = 0 := by omega
          have h2 : ¬ cb.weak_refs - 1 = 0 := by omega
          simp [h1, h2, hcl0]
        · intro h hw
          have h1 : cb.refs - 1 = 0 := by omega
          have h2 : cb.weak_refs - 1 = 0 := by omega
          simp [h1, h2, hcl0]
    obtain ⟨d1, d2⟩ := hdt s1 e1
    have hnew1 : s1.load s.heap.length = some ⟨1, 1, Variant.regular p d⟩ := by
      cases hc : a.cblock with
      | none =>
        have := (d1 hc).1
        rw [State.load, this]
        exact hnew0
      | some c =>
        obtain ⟨cb, _, _, hne, hoth, _⟩ := d2 c hc
        rw [hoth _ (Ne.symm hne)]
        exact hnew0
    refine ⟨s0, _, s1, e0, sp_swap_eq h1 h2, e1, ?_, hi1, hnew1, ?_, ?_, ?_, ?_, ?_, ?_, ?_⟩
    · simp only [shared_ptr.reset_ptr_deleter, hi, e0, sp_swap_eq h1 h2, e1]
    · rw [shared_ptr.use_count, hi1]
      simp only [control_block.strong_count, hnew1]
      rfl
    · rw [sp_of_sps hsps, getD_append_one]
      simp
    · rw [q1]
      exact q0
    · intro j hj1 hj2
      rw [sp_of_sps hsps, getD_append_one, getD_set_none]
      simp only [List.length_set, hj2, if_false, hj1, false_and]
      rfl
    · intro c hc hac
      cases hcb : a.cblock with
      | none =>
        have := (d1 hcb).1
        rw [State.load, this]
        exact hold0 c hc
      | some c0 =>
        obtain ⟨cb, _, _, _, hoth, _⟩ := d2 c0 hcb
        have hcc : c ≠ c0 := by
          intro e
          apply hac
          rw [hcb, e]
        rw [hoth c hcc]
        exact hold0 c hc
    · intro hn
      rw [(d1 hn).2, hlog0]
    · intro c hc
      obtain ⟨cb, hcb, hcb0, hne, hoth, c1, c2, c3⟩ := d2 c hc
      have ho : s1.owners c + 1 = s.owners c := by
        have := r1 c
        rw [r2 c, r0 c] at this
        simp only [hc, if_true, Ne.symm hne, if_false] at this
        omega
      rw [hlog0] at c1 c2 c3
      exact ⟨cb, hcb, hcb0, ho, c1, c2, c3⟩

theorem reset_ptr_spec_witness :
    Reachable sample_state ∧ sample_state.sp 2 = some ⟨some 1, Ptr.stg 1⟩ ∧
    ∀ e, ∃ s1, shared_ptr.reset_ptr_deleter sample_state 2 (Ptr.obj 5) 4 (some e)
        = some (s1, Except.error e) ∧
      s1.sp 2 = some ⟨some 1, Ptr.stg 1⟩ ∧ s1.heap = sample_state.heap ∧
      s1.sps = sample_state.sps ∧ s1.wps = sample_state.wps ∧
      s1.log = sample_state.log ++ [Event.deleter 4 (Ptr.obj 5)] :=
  ⟨sample_reachable, by decide,
   (reset_ptr_spec sample_state 2 ⟨some 1, Ptr.stg 1⟩ (Ptr.obj 5) 4 sample_reachable
      (by decide)).1⟩

/-- C9: aliasing construction `B = shared_ptr(A, y)` from a live owning handle `A` with
control block `c`, in a reachable state. The call returns; `B` has the control block `c`
and the access pointer `y`; `refs` of `c` has grown by exactly 1 and nothing else in the
block, the log or the other handles has changed. Destroying `A` afterwards returns, adds
nothing to the log (so `delete_object` is not invoked), restores the previous counters
of `c` and leaves `B` alive with `use_count()` at least 1. And in every reachable state a
call invokes `delete_object` on a block exactly if it releases the last owning handle of
that block, whichever of the handles sharing the block that is. -/
theorem alias_spec (s : State) (i c : Nat) (a : shared_ptr) (y : Ptr) (hr : Reachable s)
    (hb : s.live + 1 < SIZE_MOD) (hi : s.sp i = some a) (ha : a.cblock = some c) :
    (∃ s1 cb s2, shared_ptr.ctor_alias s i y = some (s1, s.sps.length) ∧
      s.load c = some cb ∧
      s1.sp s.sps.length = some ⟨some c, y⟩ ∧
      s1.load c = some ⟨cb.refs + 1, cb.weak_refs, cb.variant⟩ ∧
      (∀ c1, c1 ≠ c → s1.load c1 = s.load c1) ∧
      (∀ j, j ≠ s.sps.length → s1.sp j = s.sp j) ∧
      s1.wps = s.wps ∧ s1.log = s.log ∧
      shared_ptr.dtor s1 i = some s2 ∧
      s2.log = s.log ∧ s2.deletions c = 0 ∧ s2.load c = some cb ∧
      (∀ c1, c1 ≠ c → s2.load c1 = s.load c1) ∧
      s2.sp i = none ∧ s2.sp s.sps.length = some ⟨some c, y⟩ ∧
      shared_ptr.use_count s2 s.sps.length = some cb.refs ∧ 0 < cb.refs) ∧
    (∀ t t1 op, Reachable t → t.live + 1 < SIZE_MOD → step t op = some t1 →
      t1.deletions c = t.deletions c + (if 0 < t.owners c ∧ t1.owners c = 0 then 1 else 0))
    := by
  have hwf := hr.wf
  have hlt := sp_lt hi
  refine ⟨?_, ?_⟩
  · obtain ⟨cb, hcb, hpos, hown⟩ := owner_block hwf hi ha
    obtain ⟨a1, a2, a3, a4, a5⟩ := (hwf c).live cb hcb
    have hcl := load_lt hcb
    have hl := owners_le_live s c
    have h0 : cb.refs ≠ 0 := by omega
    have hinc : size_inc cb.refs = cb.refs + 1 := size_inc_eq (by omega)
    have e1 : shared_ptr.ctor_alias s i y
        = some ((s.pushSp ⟨some c, y⟩).store c ⟨cb.refs + 1, cb.weak_refs, cb.variant⟩,
            s.sps.length) := by
      simp [shared_ptr.ctor_alias, hi, ha, sp_ctor_cblock_eq y hcb, h0, hinc]
    have hi1 : ((s.pushSp ⟨some c, y⟩).store c ⟨cb.refs + 1, cb.weak_refs, cb.variant⟩).sp i
        = some a := by
      simp [Nat.ne_of_lt hlt, hi]
    have hl1 : ((s.pushSp ⟨some c, y⟩).store c ⟨cb.refs + 1, cb.weak_refs, cb.variant⟩).load c
        = some ⟨cb.refs + 1, cb.weak_refs, cb.variant⟩ := by
      simp [hcl]
    have hdec : size_dec (cb.refs + 1) = cb.refs := by
      rw [size_dec_eq (by omega) (by omega)]
      omega
    have hdec0 : size_dec (cb.refs + 1) ≠ 0 := by omega
    have e2 : shared_ptr.dtor
        ((s.pushSp ⟨some c, y⟩).store c ⟨cb.refs + 1, cb.weak_refs, cb.variant⟩) i
        = some ((s.pushSp ⟨some c, y⟩).setSp i none) := by
      simp only [shared_ptr.dtor, hi1, ha, del_strong_eq hl1, hdec, ne_eq, h0,
        not_false_eq_true, if_true, store_store]
      have : (s.pushSp ⟨some c, y⟩).store c ⟨cb.refs, cb.weak_refs, cb.variant⟩
          = s.pushSp ⟨some c, y⟩ := store_load (s := s.pushSp ⟨some c, y⟩) hcb
      rw [this]
    have hdel : s.deletions c = 0 := by
      have := (hwf c).deletions
      rw [this]
      have : ¬ s.owners c = 0 := by omega
      simp [this]
    refine ⟨_, cb, _, e1, hcb, by simp, hl1, ?_, ?_, rfl, rfl, e2, rfl, hdel, hcb, ?_, ?_,
      ?_, ?_, hpos⟩
    · intro c1 hc1
      simp [hc1]
    · intro j hj
      simp [hj]
    · intro c1 _
      rfl
    · simp [hlt, Nat.lt_succ_of_lt hlt]
    · simp [Nat.ne_of_gt hlt]
    · have : ((s.pushSp ⟨some c, y⟩).setSp i none).sp s.sps.length = some ⟨some c, y⟩ := by
        simp [Nat.ne_of_gt hlt]
      rw [shared_ptr.use_count, this]
      simp only [control_block.strong_count, load_setSp, load_pushSp, hcb]
      rfl
  · intro t t1 op ht hbt hst
    have hwt := ht.wf
    obtain ⟨w1, _⟩ := step_spec hwt hbt hst
    have e := step_ext hst
    have d0 := (hwt c).deletions
    have d1 := (w1 c).deletions
    have hlen : t.heap.length ≤ t1.heap.length := by
      have := e.heap
      omega
    rw [d1, d0]
    by_cases hc : c < t.heap.length
    · have hc1 : c < t1.heap.length := by omega
      by_cases h0 : t.owners c = 0
      · have := owners_stay_zero hwt hbt hst hc h0
        simp [hc, hc1, h0, this]
      · by_cases h1 : t1.owners c = 0
        · simp [hc, hc1, h0, h1, Nat.pos_of_ne_zero h0]
        · simp [hc, hc1, h0, h1]
    · have hnone : t.load c = none := by
        cases hl : t.load c with
        | none => rfl
        | some cb => exact absurd (load_lt hl) hc
      have h0 := ((hwt c).dead hnone).1
      by_cases hc1 : c < t1.heap.length
      · have := step_fresh hwt hst c (by omega) hc1
        have h1 : ¬ t1.owners c = 0 := by omega
        simp [hc, h0, h1]
      · simp [hc, hc1, h0]

theorem alias_spec_witness :
    Reachable sample_state ∧ sample_state.live + 1 < SIZE_MOD ∧
    sample_state.sp 1 = some ⟨some 0, Ptr.obj 7⟩ ∧
    ∀ t t1 op, Reachable t → t.live + 1 < SIZE_MOD → step t op = some t1 →
      t1.deletions 0
        = t.deletions 0 + (if 0 < t.owners 0 ∧ t1.owners 0 = 0 then 1 else 0) :=
  ⟨sample_reachable, by decide, by decide,
   (alias_spec sample_state 1 0 ⟨some 0, Ptr.obj 7⟩ (Ptr.obj 9) sample_reachable
      (by decide) (by decide) rfl).2⟩

/-- C10: move construction from a live owning handle `j` returns in every state; the new
handle has exactly the control block and the access pointer that `j` had, `j` is left
empty with `use_count() == 0`, and the heap (hence `refs` and `weak_refs` of every
control block), the log and all other handles are unchanged. Copy construction in a
reachable state returns; the new handle has the members of `j`, `j` and all other
handles are unchanged, and if `j` has a control block its `refs` has grown by exactly 1
while its `weak_refs` and all other blocks are unchanged. -/
theorem move_copy_ctor_spec (s : State) (j : Nat) (b : shared_ptr) (hj : s.sp j = some b) :
    (∃ s1, shared_ptr.ctor_move s j = some (s1, s.sps.length) ∧
      s1.sp s.sps.length = some b ∧
      s1.sp j = some ⟨none, Ptr.null⟩ ∧
      shared_ptr.use_count s1 j = some 0 ∧
      s1.heap = s.heap ∧ s1.log = s.log ∧ s1.wps = s.wps ∧
      (∀ c, control_block.strong_count s1 c = control_block.strong_count s c ∧
        control_block.weak_count s1 c = control_block.weak_count s c) ∧
      (∀ k, k ≠ j → k ≠ s.sps.length → s1.sp k = s.sp k)) ∧
    (Reachable s → s.live + 1 < SIZE_MOD →
      ∃ s1, shared_ptr.ctor_copy s j = some (s1, s.sps.length) ∧
        s1.sp s.sps.length = some b ∧ s1.sp j = some b ∧
        (∀ k, k ≠ s.sps.length → s1.sp k = s.sp k) ∧
        s1.wps = s.wps ∧ s1.log = s.log ∧
        (b.cblock = none → s1.heap = s.heap) ∧
        (∀ c, b.cblock = some c → ∃ cb, s.load c = some cb ∧
          s1.load c = some ⟨cb.refs + 1, cb.weak_refs, cb.variant⟩ ∧
          control_block.strong_count s1 c = some (cb.refs + 1) ∧
          control_block.weak_count s1 c = some cb.weak_refs ∧
          ∀ c1, c1 ≠ c → s1.load c1 = s.load c1)) := by
  have hlt := sp_lt hj
  refine ⟨?_, ?_⟩
  · have h1 : (s.pushSp ⟨none, Ptr.null⟩).sp s.sps.length = some ⟨none, Ptr.null⟩ := by simp
    have h2 : (s.pushSp ⟨none, Ptr.null⟩).sp j = some b := by
      simp [hj, Nat.ne_of_lt hlt]
    have hj1 : (((s.pushSp ⟨none, Ptr.null⟩).setSp s.sps.length (some b)).setSp j
        (some ⟨none, Ptr.null⟩)).sp j = some ⟨none, Ptr.null⟩ := by
      simp [hlt, Nat.lt_succ_of_lt hlt]
    refine ⟨_, ?_, ?_, hj1, ?_, rfl, rfl, rfl, fun c => ⟨rfl, rfl⟩, ?_⟩
    · simp [shared_ptr.ctor_move, shared_ptr.ctor, sp_swap_eq h1 h2, hj]
    · simp [Nat.ne_of_gt hlt]
    · rw [shared_ptr.use_count, hj1]
    · intro k hk1 hk2
      simp [hk1, hk2]
  · intro hr hb
    have hwf := hr.wf
    cases hc : b.cblock with
    | none =>
      refine ⟨s.pushSp ⟨none, b.ptr⟩, ?_, ?_, ?_, ?_, rfl, rfl, fun _ => rfl, ?_⟩
      · simp [shared_ptr.ctor_copy, hj, hc, shared_ptr.ctor_cblock]
      · have : b = ⟨none, b.ptr⟩ := by
          cases b
          simp_all
        rw [sp_pushSp, if_pos rfl, ← this]
      · simp [Nat.ne_of_lt hlt, hj]
      · intro k hk
        simp [hk]
      · intro c hc1
        cases hc1
    | some c =>
      obtain ⟨cb, hcb, hpos, hown⟩ := owner_block hwf hj hc
      obtain ⟨a1, a2, a3, a4, a5⟩ := (hwf c).live cb hcb
      have hcl := load_lt hcb
      have hl := owners_le_live s c
      have h0 : cb.refs ≠ 0 := by omega
      have hinc : size_inc cb.refs = cb.refs + 1 := size_inc_eq (by omega)
      have hl1 : ((s.pushSp ⟨some c, b.ptr⟩).store c
          ⟨cb.refs + 1, cb.weak_refs, cb.variant⟩).load c
          = some ⟨cb.refs + 1, cb.weak_refs, cb.variant⟩ := by
        simp [hcl]
      refine ⟨(s.pushSp ⟨some c, b.ptr⟩).store c ⟨cb.refs + 1, cb.weak_refs, cb.variant⟩,
        ?_, ?_, ?_, ?_, rfl, rfl, ?_, ?_⟩
      · simp [shared_ptr.ctor_copy, hj, hc, sp_ctor_cblock_eq b.ptr hcb, h0, hinc]
      · have : b = ⟨some c, b.ptr⟩ := by
          cases b
          simp_all
        rw [sp_store, sp_pushSp, if_pos rfl, ← this]
      · simp [Nat.ne_of_lt hlt, hj]
      · intro k hk
        simp [hk]
      · intro h
        cases h
      · intro c1 hc1
        cases hc1
        refine ⟨cb, hcb, hl1, ?_, ?_, ?_⟩
        · rw [control_block.strong_count, hl1]
          rfl
        · rw [control_block.weak_count, hl1]
          rfl
        · intro c2 hc2
          simp [hc2]

theorem move_copy_ctor_spec_witness :
    sample_state.sp 1 = some ⟨some 0, Ptr.obj 7⟩ ∧
    ∃ s1, shared_ptr.ctor_move sample_state 1 = some (s1, sample_state.sps.length) ∧
      s1.sp sample_state.sps.length = some ⟨some 0, Ptr.obj 7⟩ ∧
      s1.sp 1 = some ⟨none, Ptr.null⟩ ∧
      shared_ptr.use_count s1 1 = some 0 ∧
      s1.heap = sample_state.heap ∧ s1.log = sample_state.log ∧
      s1.wps = sample_state.wps ∧
      (∀ c, control_block.strong_count s1 c = control_block.strong_count sample_state c ∧
        control_block.weak_count s1 c = control_block.weak_count sample_state c) ∧
      (∀ k, k ≠ 1 → k ≠ sample_state.sps.length → s1.sp k = sample_state.sp k) :=
  ⟨by decide, (move_copy_ctor_spec sample_state 1 ⟨some 0, Ptr.obj 7⟩ (by decide)).1⟩

/-- C17: for every two live owning handles `a` and `b`, `a == b` is true exactly if
`a.get() == b.get()`, whatever their control blocks are; `a != b` is the negation of
`a == b`; `a == nullptr` is true exactly if `a.get()` is null and `a != nullptr` exactly
if it is not. So two handles that share a control block and have different access
pointers are unequal, and two handles with different control blocks and the same access
pointer are equal. -/
theorem equality_spec (s : State) (i j : Nat) (a b : shared_ptr) (hi : s.sp i = some a)
    (hj : s.sp j = some b) :
    shared_ptr.get s i = some a.ptr ∧ shared_ptr.get s j = some b.ptr ∧
    shared_ptr.eq s i j = some (decide (a.ptr = b.ptr)) ∧
    shared_ptr.ne s i j = some (!decide (a.ptr = b.ptr)) ∧
    shared_ptr.ne s i j = (shared_ptr.eq s i j).map (fun r => !r) ∧
    shared_ptr.eq_nullptr s i = some (decide (a.ptr = Ptr.null)) ∧
    shared_ptr.ne_nullptr s i = some (decide (a.ptr ≠ Ptr.null)) ∧
    (a.cblock = b.cblock → a.ptr ≠ b.ptr → shared_ptr.eq s i j = some false) ∧
    (a.cblock ≠ b.cblock → a.ptr = b.ptr → shared_ptr.eq s i j = some true) := by
  have gi : shared_ptr.get s i = some a.ptr := by simp [shared_ptr.get, hi]
  have gj : shared_ptr.get s j = some b.ptr := by simp [shared_ptr.get, hj]
  have he : shared_ptr.eq s i j = some (decide (a.ptr = b.ptr)) := by
    simp [shared_ptr.eq, gi, gj]
  refine ⟨gi, gj, he, ?_, rfl, ?_, ?_, ?_, ?_⟩
  · simp [shared_ptr.ne, he]
  · simp [shared_ptr.eq_nullptr, gi]
  · simp [shared_ptr.ne_nullptr, gi]
  · intro _ hne
    simp [he, hne]
  · intro _ heq
    simp [he, heq]

theorem equality_spec_witness :
    sample_state.sp 1 = some ⟨some 0, Ptr.obj 7⟩ ∧
    sample_state.sp 3 = some ⟨some 0, Ptr.obj 8⟩ ∧
    shared_ptr.eq sample_state 1 3 = some false ∧
    shared_ptr.ne sample_state 1 3 = some true :=
  ⟨by decide, by decide,
   (equality_spec sample_state 1 3 ⟨some 0, Ptr.obj 7⟩ ⟨some 0, Ptr.obj 8⟩ (by decide)
      (by decide)).2.2.2.2.2.2.2.1 rfl (by decide),
   by decide⟩

/-- C18: the counter transitions of a live control block `c` with counters `(s, w)`, both
below the largest value of `std::size_t`. `add_strong` yields `(1, w + 1)` when `s = 0`
and `(s + 1, w)` when `s > 0`; `add_weak` yields `(s, w + 1)`; `del_strong` with `s > 1`
yields `(s - 1, w)` and logs nothing; `del_strong` with `s = 1` sets `refs` to 0, calls
`delete_object` once and then performs `del_weak`, which yields `(0, w - 1)` when
`w > 1` and deletes the block when `w = 1`; `del_weak` with `w > 1` yields `(s, w - 1)`
and with `w = 1` deletes the block; `strong_count` and `weak_count` return `s` and
`w`. Nothing but the block `c` and the log changes. -/
theorem counter_transitions (s : State) (c : Nat) (cb : control_block)
    (h : s.load c = some cb) (hr : cb.refs + 1 < SIZE_MOD)
    (hw : cb.weak_refs + 1 < SIZE_MOD) :
    (cb.refs = 0 → control_block.add_strong s c
      = some (s.store c ⟨1, cb.weak_refs + 1, cb.variant⟩)) ∧
    (0 < cb.refs → control_block.add_strong s c
      = some (s.store c ⟨cb.refs + 1, cb.weak_refs, cb.variant⟩)) ∧
    control_block.add_weak s c = some (s.store c ⟨cb.refs, cb.weak_refs + 1, cb.variant⟩) ∧
    (1 < cb.refs → control_block.del_strong s c
      = some (s.store c ⟨cb.refs - 1, cb.weak_refs, cb.variant⟩)) ∧
    (cb.refs = 1 →
      control_block.dec_refs s c = some (s.store c ⟨0, cb.weak_refs, cb.variant⟩) ∧
      control_block.delete_object (s.store c ⟨0, cb.weak_refs, cb.variant⟩) c
        = some (((s.emit (Event.delete_object c)).emit (cb.variant.effect c)).store c
            ⟨0, cb.weak_refs, cb.variant.after⟩) ∧
      control_block.del_strong s c
        = control_block.del_weak
            (((s.emit (Event.delete_object c)).emit (cb.variant.effect c)).store c
              ⟨0, cb.weak_refs, cb.variant.after⟩) c ∧
      (1 < cb.weak_refs → control_block.del_strong s c
        = some (((s.emit (Event.delete_object c)).emit (cb.variant.effect c)).store c
            ⟨0, cb.weak_refs - 1, cb.variant.after⟩)) ∧
      (cb.weak_refs = 1 → control_block.del_strong s c
        = some ((((s.emit (Event.delete_object c)).emit (cb.variant.effect c)).emit
            (Event.delete_this c)).free c))) ∧
    (1 < cb.weak_refs → control_block.del_weak s c
      = some (s.store c ⟨cb.refs, cb.weak_refs - 1, cb.variant⟩)) ∧
    (cb.weak_refs = 1 → control_block.del_weak s c
      = some ((s.emit (Event.delete_this c)).free c)) ∧
    (∀ e, ((s.emit e).free c).load c = none) ∧
    control_block.strong_count s c = some cb.refs ∧
    control_block.weak_count s c = some cb.weak_refs := by
  have hlt := load_lt h
  have hir : size_inc cb.refs = cb.refs + 1 := size_inc_eq hr
  have hiw : size_inc cb.weak_refs = cb.weak_refs + 1 := size_inc_eq hw
  have hdr : 0 < cb.refs → size_dec cb.refs = cb.refs - 1 :=
    fun hp => size_dec_eq (by omega) hp
  have hdw : 0 < cb.weak_refs → size_dec cb.weak_refs = cb.weak_refs - 1 :=
    fun hp => size_dec_eq (by omega) hp
  refine ⟨?_, ?_, ?_, ?_, ?_, ?_, ?_, ?_, ?_, ?_⟩
  · intro h0
    rw [add_strong_eq h, hir, hiw]
    simp [h0]
  · intro h0
    rw [add_strong_eq h, hir]
    have : cb.refs ≠ 0 := by omega
    simp [this]
  · rw [add_weak_eq h, hiw]
  · intro h1
    rw [del_strong_eq h, hdr (by omega)]
    have : cb.refs - 1 ≠ 0 := by omega
    simp [this]
  · intro h1
    have hd : size_dec cb.refs = 0 := by
      rw [hdr (by omega)]
      omega
    have hl1 : (s.store c ⟨0, cb.weak_refs, cb.variant⟩).load c
        = some ⟨0, cb.weak_refs, cb.variant⟩ := by simp [hlt]
    have e1 : control_block.dec_refs s c = some (s.store c ⟨0, cb.weak_refs, cb.variant⟩) := by
      simp [control_block.dec_refs, h, hd]
    have e2 := delete_object_eq hl1
    have e2' : control_block.delete_object (s.store c ⟨0, cb.weak_refs, cb.variant⟩) c
        = some (((s.emit (Event.delete_object c)).emit (cb.variant.effect c)).store c
            ⟨0, cb.weak_refs, cb.variant.after⟩) := by
      rw [e2]
      simp [State.store, State.emit, List.set_set]
    have e3 : control_block.del_strong s c
        = control_block.del_weak
            (((s.emit (Event.delete_object c)).emit (cb.variant.effect c)).store c
              ⟨0, cb.weak_refs, cb.variant.after⟩) c := by
      simp only [control_block.del_strong, e1, hl1, if_true, e2']
    refine ⟨e1, e2', e3, ?_, ?_⟩
    · intro hw1
      rw [del_strong_eq h, hd, hdw (by omega)]
      have : cb.weak_refs - 1 ≠ 0 := by omega
      simp [this]
    · intro hw1
      rw [del_strong_eq h, hd, hdw (by omega)]
      have : cb.weak_refs - 1 = 0 := by omega
      simp [this]
  · intro hw1
    rw [del_weak_eq h, hdw (by omega)]
    have : cb.weak_refs - 1 ≠ 0 := by omega
    simp [this]
  · intro hw1
    rw [del_weak_eq h, hdw (by omega)]
    have : cb.weak_refs - 1 = 0 := by omega
    simp [this]
  · intro e
    simp [hlt]
  · simp [control_block.strong_count, h]
  · simp [control_block.weak_count, h]

theorem counter_transitions_witness :
    sample_state.load 1 = some ⟨1, 1, Variant.inplace [42]⟩ ∧
    (1 : Nat) + 1 < SIZE_MOD ∧
    control_block.add_weak sample_state 1
      = some (sample_state.store 1 ⟨1, 1 + 1, Variant.inplace [42]⟩) :=
  ⟨by decide, by decide,
   (counter_transitions sample_state 1 ⟨1, 1, Variant.inplace [42]⟩ (by decide) (by decide)
      (by decide)).2.2.1⟩

/-- C19: in every reachable state, `weak_refs` of every live control block equals the
number of live observing handles that refer to it, plus 1 if its `refs` is not zero and
plus 0 otherwise; inside `del_strong` of the last owner, after `refs--` and after
`delete_object` has run, `refs` is 0 and `weak_refs` still is the number of observers
plus 1; a deleted block has no handle of either kind, so that every live handle with a
control block refers to a block that is alive. -/
theorem weak_count_accounting (s : State) (hr : Reachable s) :
    (∀ c cb, s.load c = some cb →
      cb.weak_refs = s.observers c + (if cb.refs = 0 then 0 else 1) ∧
      control_block.weak_count s c
        = some (s.observers c + (if s.owners c = 0 then 0 else 1))) ∧
    (∀ c, s.load c = none → s.owners c = 0 ∧ s.observers c = 0) ∧
    (∀ i a c, s.sp i = some a → a.cblock = some c → ∃ cb, s.load c = some cb) ∧
    (∀ i a c, s.wp i = some a → a.cblock = some c → ∃ cb, s.load c = some cb) ∧
    (∀ i a c, s.sp i = some a → a.cblock = some c → s.owners c = 1 →
      ∃ t1 t2, control_block.dec_refs s c = some t1 ∧
        control_block.strong_count t1 c = some 0 ∧
        control_block.weak_count t1 c = some (s.observers c + 1) ∧
        control_block.delete_object t1 c = some t2 ∧
        control_block.strong_count t2 c = some 0 ∧
        control_block.weak_count t2 c = some (s.observers c + 1) ∧
        t1.observers c = s.observers c ∧ t2.observers c = s.observers c) := by
  have hwf := hr.wf
  refine ⟨?_, ?_, ?_, ?_, ?_⟩
  · intro c cb h
    obtain ⟨a1, a2, _⟩ := (hwf c).live cb h
    refine ⟨a2, ?_⟩
    simp only [control_block.weak_count, h, Option.map_some', a2, a1]
  · intro c h
    exact (hwf c).dead h
  · intro i a c hi ha
    obtain ⟨cb, hcb, _⟩ := owner_block hwf hi ha
    exact ⟨cb, hcb⟩
  · intro i a c hi ha
    obtain ⟨cb, hcb, _⟩ := observer_block hwf hi ha
    exact ⟨cb, hcb⟩
  · intro i a c hi ha h1
    obtain ⟨cb, hcb, hpos, hown⟩ := owner_block hwf hi ha
    obtain ⟨a1, a2, a3, a4, a5⟩ := (hwf c).live cb hcb
    have hlt := load_lt hcb
    have hd : size_dec cb.refs = 0 := by
      rw [size_dec_eq a4 hpos]
      omega
    have h0 : cb.refs ≠ 0 := by omega
    simp only [h0, if_false] at a2
    have hl1 : (s.store c ⟨0, cb.weak_refs, cb.variant⟩).load c
        = some ⟨0, cb.weak_refs, cb.variant⟩ := by simp [hlt]
    refine ⟨s.store c ⟨0, cb.weak_refs, cb.variant⟩, _, ?_, ?_, ?_, delete_object_eq hl1,
      ?_, ?_, rfl, rfl⟩
    · simp [control_block.dec_refs, hcb, hd]
    · rw [control_block.strong_count, hl1]
      rfl
    · rw [control_block.weak_count, hl1, a2]
      rfl
    · simp [control_block.strong_count, hlt]
    · simp [control_block.weak_count, hlt, a2]

theorem weak_count_accounting_witness :
    Reachable sample_state ∧ sample_state.load 0 = some ⟨2, 2, Variant.regular (Ptr.obj 7) 3⟩ ∧
    control_block.weak_count sample_state 0
      = some (sample_state.observers 0 + (if sample_state.owners 0 = 0 then 0 else 1)) :=
  ⟨sample_reachable, by decide,
   ((weak_count_accounting sample_state sample_reachable).1 0
      ⟨2, 2, Variant.regular (Ptr.obj 7) 3⟩ (by decide)).2⟩

/-- The calls on observing handles leave the owning handles alone. -/
theorem step_observing_sps {s s1 : State} {op : Op} (hwf : WF s)
    (hb : s.live + 1 < SIZE_MOD) (hop : op.observing = true) (hs : step s op = some s1) :
    s1.sps = s.sps := by
  cases op <;> simp only [Op.observing, Bool.false_eq_true] at hop
  case wp_ctor =>
    simp only [step, weak_ptr.ctor, Option.some.injEq] at hs
    subst hs
    rfl
  case wp_ctor_copy j =>
    cases hj : s.wp j with
    | none => simp [step, weak_ptr.ctor_copy, hj] at hs
    | some b =>
      obtain ⟨s2, e, _, p, _⟩ := wp_ctor_copy_spec hwf hb hj
      simp only [step, e, Option.map_some', Option.some.injEq] at hs
      subst hs
      exact p
  case wp_ctor_shared j =>
    cases hj : s.sp j with
    | none => simp [step, weak_ptr.ctor_shared, hj] at hs
    | some b =>
      obtain ⟨s2, e, _, p, _⟩ := wp_ctor_shared_spec hwf hb hj
      simp only [step, e, Option.map_some', Option.some.injEq] at hs
      subst hs
      exact p
  case wp_ctor_move j =>
    cases hj : s.wp j with
    | none => simp [step, weak_ptr.ctor_move, hj] at hs
    | some b =>
      obtain ⟨s2, e, _, p, _⟩ := wp_ctor_move_spec hwf hj
      simp only [step, e, Option.map_some', Option.some.injEq] at hs
      subst hs
      exact p
  case wp_dtor i =>
    cases hi : s.wp i with
    | none => simp [step, weak_ptr.dtor, hi] at hs
    | some a =>
      obtain ⟨s2, e, _, p, _⟩ := wp_dtor_spec hwf hi
      simp only [step, e, Option.some.injEq] at hs
      subst hs
      exact p
  case wp_assign_copy i j =>
    cases hi : s.wp i with
    | none => simp [step, weak_ptr.assign_copy, hi] at hs
    | some a =>
      cases hj : s.wp j with
      | none => simp [step, weak_ptr.assign_copy, hi, hj] at hs
      | some b =>
        obtain ⟨s2, e, _, p, _⟩ := wp_assign_copy_spec hwf hb hi hj
        simp only [step, e, Option.some.injEq] at hs
        subst hs
        exact p
  case wp_assign_move i j =>
    cases hi : s.wp i with
    | none => simp [step, weak_ptr.assign_move, hi] at hs
    | some a =>
      cases hj : s.wp j with
      | none => simp [step, weak_ptr.assign_move, hi, hj] at hs
      | some b =>
        obtain ⟨s2, e, _, p, _⟩ := wp_assign_move_spec hwf hi hj
        simp only [step, e, Option.some.injEq] at hs
        subst hs
        exact p
  case wp_swap i j =>
    cases hi : s.wp i with
    | none => simp [step, weak_ptr.swap, hi] at hs
    | some a =>
      cases hj : s.wp j with
      | none => simp [step, weak_ptr.swap, hi, hj] at hs
      | some b =>
        obtain ⟨s2, e, _, p, _⟩ := wp_swap_spec hwf hi hj
        simp only [step, e, Option.some.injEq] at hs
        subst hs
        exact p

/-- C16: a call that constructs an observing handle (from an owning or an observing
handle), copies, moves, copy- or move-assigns (also to itself), swaps or destroys
observing handles, made in a reachable state, leaves every owning handle and the number
of owners of every block unchanged, adds no `delete_object` to the log, and leaves `refs`
of every block unchanged (a block that the call deletes had `refs == 0`). Constructing
an observing handle from a handle with a control block adds exactly 1 to `weak_refs` of
that block and nothing else, and copies the access pointer; destroying an observing
handle subtracts exactly 1 from `weak_refs`, or deletes the block when `weak_refs` was
1. -/
theorem observing_frame (s : State) (hr : Reachable s) (hb : s.live + 1 < SIZE_MOD) :
    (∀ s1 op, op.observing = true → step s op = some s1 →
      s1.sps = s.sps ∧
      (∀ c, s1.owners c = s.owners c ∧ s1.deletions c = s.deletions c) ∧
      (∃ l, s1.log = s.log ++ l ∧ ∀ c, Event.delete_object c ∉ l) ∧
      (∀ c cb, s.load c = some cb →
        (∃ cb1, s1.load c = some cb1 ∧ cb1.refs = cb.refs) ∨
        (s1.load c = none ∧ cb.refs = 0)) ∧
      (∀ c cb1, s1.load c = some cb1 → ∃ cb, s.load c = some cb ∧ cb1.refs = cb.refs)) ∧
    (∀ j o, s.sp j = some o →
      ∃ t, weak_ptr.ctor_shared s j = some (t, s.wps.length) ∧
        t.wp s.wps.length = some ⟨o.cblock, o.ptr⟩ ∧ t.log = s.log ∧ t.sps = s.sps ∧
        (o.cblock = none → t.heap = s.heap) ∧
        (∀ c, o.cblock = some c → ∃ cb, s.load c = some cb ∧
          t.load c = some ⟨cb.refs, cb.weak_refs + 1, cb.variant⟩ ∧
          ∀ c1, c1 ≠ c → t.load c1 = s.load c1)) ∧
    (∀ j o, s.wp j = some o →
      ∃ t, weak_ptr.ctor_copy s j = some (t, s.wps.length) ∧
        t.wp s.wps.length = some o ∧ t.log = s.log ∧ t.sps = s.sps ∧
        (o.cblock = none → t.heap = s.heap) ∧
        (∀ c, o.cblock = some c → ∃ cb, s.load c = some cb ∧
          t.load c = some ⟨cb.refs, cb.weak_refs + 1, cb.variant⟩ ∧
          ∀ c1, c1 ≠ c → t.load c1 = s.load c1)) ∧
    (∀ i w, s.wp i = some w →
      ∃ t, weak_ptr.dtor s i = some t ∧ t.wp i = none ∧ t.sps = s.sps ∧
        (w.cblock = none → t.heap = s.heap ∧ t.log = s.log) ∧
        (∀ c, w.cblock = some c → ∃ cb, s.load c = some cb ∧
          (∀ c1, c1 ≠ c → t.load c1 = s.load c1) ∧
          (1 < cb.weak_refs →
            t.load c = some ⟨cb.refs, cb.weak_refs - 1, cb.variant⟩ ∧ t.log = s.log) ∧
          (cb.weak_refs = 1 →
            t.load c = none ∧ t.log = s.log ++ [Event.delete_this c]))) := by
  have hwf := hr.wf
  have hctor : ∀ (cbo : Option Nat) (p : Ptr),
      (∀ c, cbo = some c → ∃ cb, s.load c = some cb) →
      ∃ t, weak_ptr.ctor_cblock s cbo p = some (t, s.wps.length) ∧
        t.wp s.wps.length = some ⟨cbo, p⟩ ∧ t.log = s.log ∧ t.sps = s.sps ∧
        (cbo = none → t.heap = s.heap) ∧
        (∀ c, cbo = some c → ∃ cb, s.load c = some cb ∧
          t.load c = some ⟨cb.refs, cb.weak_refs + 1, cb.variant⟩ ∧
          ∀ c1, c1 ≠ c → t.load c1 = s.load c1) := by
    intro cbo p hlive
    cases cbo with
    | none =>
      refine ⟨s.pushWp ⟨none, p⟩, rfl, by simp, rfl, rfl, fun _ => rfl, ?_⟩
      intro c hc
      cases hc
    | some c =>
      obtain ⟨cb, hcb⟩ := hlive c rfl
      obtain ⟨a1, a2, a3, a4, a5⟩ := (hwf c).live cb hcb
      have hlt := load_lt hcb
      have hl := owners_le_live s c
      have hiw : size_inc cb.weak_refs = cb.weak_refs + 1 :=
        size_inc_eq (by split_ifs at a2 <;> omega)
      refine ⟨_, wp_ctor_cblock_eq p hcb, by simp, rfl, rfl, ?_, ?_⟩
      · intro h
        cases h
      · intro c1 hc1
        cases hc1
        refine ⟨cb, hcb, by simp [hlt, hiw], ?_⟩
        intro c2 hc2
        simp [hc2]
  refine ⟨?_, ?_, ?_, ?_⟩
  · intro s1 op hop hs
    obtain ⟨w1, _⟩ := step_spec hwf hb hs
    have hsps := step_observing_sps hwf hb hop hs
    have e := step_ext hs
    have hal : op.allocates = false := by
      cases op <;> simp [Op.observing] at hop <;> rfl
    have hlen : s1.heap.length = s.heap.length := by
      have := e.heap
      simpa [hal] using this
    have hown : ∀ c, s1.owners c = s.owners c := owners_eq_of_sps hsps
    have hdel : ∀ c, s1.deletions c = s.deletions c := by
      intro c
      rw [(w1 c).deletions, (hwf c).deletions, hlen, hown c]
    refine ⟨hsps, fun c => ⟨hown c, hdel c⟩, ?_, ?_, ?_⟩
    · obtain ⟨l, hl⟩ := e.log
      refine ⟨l, hl, ?_⟩
      intro c hmem
      have := hdel c
      simp only [State.deletions, hl, List.count_append] at this
      have hpos : 0 < l.count (Event.delete_object c) := List.count_pos_iff.mpr hmem
      omega
    · intro c cb hcb
      have r0 := ((hwf c).live cb hcb).1
      cases h1 : s1.load c with
      | none =>
        right
        have := ((w1 c).dead h1).1
        have := hown c
        exact ⟨rfl, by omega⟩
      | some cb1 =>
        left
        have := ((w1 c).live cb1 h1).1
        have := hown c
        exact ⟨cb1, rfl, by omega⟩
    · intro c cb1 h1
      have r1 := ((w1 c).live cb1 h1).1
      cases h0 : s.load c with
      | none =>
        have hlt1 := load_lt h1
        have : c < s.heap.length := by omega
        have hf0 := (hwf c).frees
        have hf1 := (w1 c).frees
        have hle := e.frees_le c
        simp only [this, h0, and_self, if_true] at hf0
        simp only [h1, reduceCtorEq, and_false, if_false] at hf1
        omega
      | some cb =>
        have := ((hwf c).live cb h0).1
        have := hown c
        exact ⟨cb, rfl, by omega⟩
  · intro j o hj
    have := hctor o.cblock o.ptr (by
      intro c hc
      obtain ⟨cb, h1, _⟩ := owner_block hwf hj hc
      exact ⟨cb, h1⟩)
    simpa [weak_ptr.ctor_shared, hj] using this
  · intro j o hj
    have := hctor o.cblock o.ptr (by
      intro c hc
      obtain ⟨cb, h1, _⟩ := observer_block hwf hj hc
      exact ⟨cb, h1⟩)
    simpa [weak_ptr.ctor_copy, hj] using this
  · intro i w hi
    have hlt := wp_lt hi
    cases hc : w.cblock with
    | none =>
      refine ⟨s.setWp i none, by simp [weak_ptr.dtor, hi, hc], by simp [hlt], rfl,
        fun _ => ⟨rfl, rfl⟩, ?_⟩
      intro c h
      cases h
    | some c =>
      obtain ⟨cb, hcb, _⟩ := observer_block hwf hi hc
      obtain ⟨a1, a2, a3, a4, a5⟩ := (hwf c).live cb hcb
      have hcl := load_lt hcb
      have hdw : size_dec cb.weak_refs = cb.weak_refs - 1 := size_dec_eq a5 a3
      refine ⟨_, by simp only [weak_ptr.dtor, hi, hc, del_weak_eq hcb, hdw]; rfl, ?_, ?_,
        ?_, ?_⟩
      · split_ifs <;> simp [hlt]
      · split_ifs <;> rfl
      · intro h
        cases h
      · intro c1 hc1
        cases hc1
        refine ⟨cb, hcb, ?_, ?_, ?_⟩
        · intro c2 hc2
          split_ifs <;> simp [hc2]
        · intro h1
          have : ¬ cb.weak_refs - 1 = 0 := by omega
          simp [this, hcl]
        · intro h1
          have : cb.weak_refs - 1 = 0 := by omega
          simp [this, hcl]

theorem observing_frame_witness :
    Reachable sample_state ∧ sample_state.live + 1 < SIZE_MOD ∧
    sample_state.wp 0 = some ⟨some 0, Ptr.obj 7⟩ ∧
    ∃ t, weak_ptr.ctor_copy sample_state 0 = some (t, sample_state.wps.length) ∧
        t.wp sample_state.wps.length = some ⟨some 0, Ptr.obj 7⟩ ∧
        t.log = sample_state.log ∧ t.sps = sample_state.sps ∧
        ((some 0 : Option Nat) = none → t.heap = sample_state.heap) ∧
        (∀ c, (some 0 : Option Nat) = some c → ∃ cb, sample_state.load c = some cb ∧
          t.load c = some ⟨cb.refs, cb.weak_refs + 1, cb.variant⟩ ∧
          ∀ c1, c1 ≠ c → t.load c1 = sample_state.load c1) :=
  ⟨sample_reachable, by decide, by decide,
   (observing_frame sample_state sample_reachable (by decide)).2.2.1 0
      ⟨some 0, Ptr.obj 7⟩ (by decide)⟩

/-- C13: for every live observing handle `w` in a reachable state: if `w` has a control
block, `operator bool` returns, and it returns true exactly if `strong_count` of the
block is not 0 and the access pointer is not null; the test reads through a null control
block reference (undefined behaviour) exactly if `w` has no control block, as a
default-constructed and a moved-from handle have; and once the only owner of the block
is destroyed the test returns false. -/
theorem observing_bool_spec (s : State) (i : Nat) (w : weak_ptr) (hr : Reachable s)
    (hi : s.wp i = some w) :
    (∀ c, w.cblock = some c → ∃ n, control_block.strong_count s c = some n ∧
      weak_ptr.to_bool s i = some (decide (n ≠ 0 ∧ w.ptr ≠ Ptr.null))) ∧
    (weak_ptr.to_bool s i = none ↔ w.cblock = none) ∧
    ((weak_ptr.ctor s).1.wp s.wps.length = some ⟨none, Ptr.null⟩ ∧
      weak_ptr.to_bool (weak_ptr.ctor s).1 s.wps.length = none) ∧
    (∃ t, weak_ptr.ctor_move s i = some (t, s.wps.length) ∧
      t.wp s.wps.length = some w ∧ t.wp i = some ⟨none, Ptr.null⟩ ∧
      weak_ptr.to_bool t i = none) ∧
    (∀ j a c, s.sp j = some a → a.cblock = some c → w.cblock = some c → s.owners c = 1 →
      ∃ t, shared_ptr.dtor s j = some t ∧ t.wp i = some w ∧
        weak_ptr.to_bool t i = some false) := by
  have hwf := hr.wf
  have hlt := wp_lt hi
  have key : ∀ c, w.cblock = some c → ∃ n, control_block.strong_count s c = some n ∧
      weak_ptr.to_bool s i = some (decide (n ≠ 0 ∧ w.ptr ≠ Ptr.null)) := by
    intro c hc
    obtain ⟨cb, hcb, _⟩ := observer_block hwf hi hc
    refine ⟨cb.refs, by simp [control_block.strong_count, hcb], ?_⟩
    by_cases h0 : cb.refs = 0
    · simp [weak_ptr.to_bool, hi, hc, control_block.strong_count, hcb, h0]
    · simp [weak_ptr.to_bool, hi, hc, control_block.strong_count, hcb, h0]
  refine ⟨key, ?_, ⟨by simp [weak_ptr.ctor], by simp [weak_ptr.to_bool, weak_ptr.ctor]⟩,
    ?_, ?_⟩
  · constructor
    · intro h
      cases hc : w.cblock with
      | none => rfl
      | some c =>
        obtain ⟨n, _, h2⟩ := key c hc
        rw [h2] at h
        cases h
    · intro hc
      simp [weak_ptr.to_bool, hi, hc]
  · obtain ⟨t, e, _, _, q, _⟩ := wp_ctor_move_spec hwf hi
    have h1 : t.wp i = some ⟨none, Ptr.null⟩ := by
      rw [wp_of_wps q, getD_append_one, if_neg (Nat.ne_of_lt (by simpa using hlt)),
        getD_set_none]
      simp [hlt]
    refine ⟨t, e, ?_, h1, ?_⟩
    · rw [wp_of_wps q, getD_append_one]
      simp
    · simp [weak_ptr.to_bool, h1]
  · intro j a c hj ha hc h1
    obtain ⟨t, e1, w1, p1, q1, r1⟩ := sp_dtor_spec hwf hj
    have hw1 : t.wp i = some w := by
      rw [wp_of_wps q1]
      exact hi
    obtain ⟨cb1, hcb1, _⟩ := observer_block w1 hw1 hc
    have hz : cb1.refs = 0 := by
      have := ((w1 c).live cb1 hcb1).1
      have := r1 c
      simp only [ha, if_true] at this
      omega
    refine ⟨t, e1, hw1, ?_⟩
    simp [weak_ptr.to_bool, hw1, hc, control_block.strong_count, hcb1, hz]

theorem observing_bool_spec_witness :
    Reachable sample_state ∧ sample_state.wp 0 = some ⟨some 0, Ptr.obj 7⟩ ∧
    ∃ n, control_block.strong_count sample_state 0 = some n ∧
      weak_ptr.to_bool sample_state 0
        = some (decide (n ≠ 0 ∧ Ptr.obj 7 ≠ Ptr.null)) :=
  ⟨sample_reachable, by decide,
   (observing_bool_spec sample_state 0 ⟨some 0, Ptr.obj 7⟩ sample_reachable
      (by decide)).1 0 rfl⟩


/-! ## The destructor of an in-place object runs only inside `delete_object` -/

theorem Tidy.tidy_refl (s : State) : Tidy s s := ⟨[], by simp, by simp⟩

theorem Tidy.tidy_trans {s s1 s2 : State} (h1 : Tidy s s1) (h2 : Tidy s1 s2) : Tidy s s2 := by
  obtain ⟨l1, e1, p1⟩ := h1
  obtain ⟨l2, e2, p2⟩ := h2
  refine ⟨l1 ++ l2, ?_, ?_⟩
  · rw [e2, e1, List.append_assoc]
  · intro c
    have := p1 c
    have := p2 c
    simp only [List.count_append]
    omega

theorem Tidy.tidy_of_eq {s s1 : State} (hl : s1.log = s.log) : Tidy s s1 :=
  ⟨[], by simp [hl], by simp⟩

theorem Tidy.of_log {s s1 : State} {l : List Event} (hl : s1.log = s.log ++ l)
    (h : ∀ c, l.count (Event.destructor c) ≤ l.count (Event.delete_object c)) : Tidy s s1 :=
  ⟨l, hl, h⟩

theorem Tidy.single_free (s : State) (c : Nat) : Tidy s ((s.emit (Event.delete_this c)).free c) :=
  ⟨[Event.delete_this c], by simp, by intro c2; simp⟩

theorem tidy_release (c : Nat) (v : Variant) (l : List Event)
    (hl : ∀ c2, l.count (Event.destructor c2) = 0) (c2 : Nat) :
    (Event.delete_object c :: v.effect c :: l).count (Event.destructor c2) ≤
      (Event.delete_object c :: v.effect c :: l).count (Event.delete_object c2) := by
  cases v <;> simp only [Variant.effect, List.count_cons, hl c2] <;> simp

theorem Tidy.destructions_mono {s s1 : State} (h : Tidy s s1) (c : Nat) :
    s.destructions c ≤ s1.destructions c := by
  obtain ⟨l, e, -⟩ := h
  simp [State.destructions, e, List.count_append]

theorem add_weak_tidy {s s1 : State} {c : Nat} (h : control_block.add_weak s c = some s1) :
    Tidy s s1 := by
  cases hl : s.load c with
  | none => simp [control_block.add_weak, hl] at h
  | some cb =>
    rw [add_weak_eq hl] at h
    cases h
    exact Tidy.tidy_of_eq rfl

theorem add_strong_tidy {s s1 : State} {c : Nat} (h : control_block.add_strong s c = some s1) :
    Tidy s s1 := by
  cases hl : s.load c with
  | none => simp [control_block.add_strong, hl] at h
  | some cb =>
    rw [add_strong_eq hl] at h
    cases h
    exact Tidy.tidy_of_eq rfl

theorem del_weak_tidy {s s1 : State} {c : Nat} (h : control_block.del_weak s c = some s1) :
    Tidy s s1 := by
  cases hl : s.load c with
  | none => simp [control_block.del_weak, hl] at h
  | some cb =>
    rw [del_weak_eq hl] at h
    have h := Option.some.inj h
    subst h
    split_ifs
    · exact Tidy.single_free s c
    · exact Tidy.tidy_of_eq rfl

theorem del_strong_tidy {s s1 : State} {c : Nat} (h : control_block.del_strong s c = some s1) :
    Tidy s s1 := by
  cases hl : s.load c with
  | none => simp [control_block.del_strong, control_block.dec_refs, hl] at h
  | some cb =>
    rw [del_strong_eq hl] at h
    have h := Option.some.inj h
    subst h
    split_ifs
    · exact Tidy.tidy_of_eq rfl
    · exact Tidy.of_log (by simp) (tidy_release c cb.variant [] (by simp))
    · exact Tidy.of_log (by simp) (tidy_release c cb.variant [Event.delete_this c] (by simp))

theorem sp_ctor_cblock_tidy {s s1 : State} {cbo : Option Nat} {p : Ptr} {n : Nat}
    (h : shared_ptr.ctor_cblock s cbo p = some (s1, n)) : Tidy s s1 := by
  cases cbo with
  | none =>
    simp only [shared_ptr.ctor_cblock, Option.some.injEq, Prod.mk.injEq] at h
    rw [← h.1]
    exact Tidy.tidy_of_eq rfl
  | some c =>
    simp only [shared_ptr.ctor_cblock] at h
    cases h1 : control_block.add_strong (s.pushSp ⟨some c, p⟩) c with
    | none => simp [h1] at h
    | some s2 =>
      simp only [h1, Option.some.injEq, Prod.mk.injEq] at h
      rw [← h.1]
      have := add_strong_tidy h1
      exact this

theorem wp_ctor_cblock_tidy {s s1 : State} {cbo : Option Nat} {p : Ptr} {n : Nat}
    (h : weak_ptr.ctor_cblock s cbo p = some (s1, n)) : Tidy s s1 := by
  cases cbo with
  | none =>
    simp only [weak_ptr.ctor_cblock, Option.some.injEq, Prod.mk.injEq] at h
    rw [← h.1]
    exact Tidy.tidy_of_eq rfl
  | some c =>
    simp only [weak_ptr.ctor_cblock] at h
    cases h1 : control_block.add_weak (s.pushWp ⟨some c, p⟩) c with
    | none => simp [h1] at h
    | some s2 =>
      simp only [h1, Option.some.injEq, Prod.mk.injEq] at h
      rw [← h.1]
      have := add_weak_tidy h1
      exact this

theorem sp_swap_tidy {s s1 : State} {i j : Nat} (h : shared_ptr.swap s i j = some s1) :
    Tidy s s1 := by
  simp only [shared_ptr.swap] at h
  split at h
  · cases h
    exact Tidy.tidy_of_eq rfl
  · cases h

theorem wp_swap_tidy {s s1 : State} {i j : Nat} (h : weak_ptr.swap s i j = some s1) :
    Tidy s s1 := by
  simp only [weak_ptr.swap] at h
  split at h
  · cases h
    exact Tidy.tidy_of_eq rfl
  · cases h

theorem sp_dtor_tidy {s s1 : State} {i : Nat} (h : shared_ptr.dtor s i = some s1) :
    Tidy s s1 := by
  simp only [shared_ptr.dtor] at h
  cases hi : s.sp i with
  | none => simp [hi] at h
  | some a =>
    simp only [hi] at h
    cases ha : a.cblock with
    | none =>
      simp only [ha, Option.some.injEq] at h
      rw [← h]
      exact Tidy.tidy_of_eq rfl
    | some c =>
      simp only [ha] at h
      cases h1 : control_block.del_strong s c with
      | none => simp [h1] at h
      | some s2 =>
        simp only [h1, Option.some.injEq] at h
        rw [← h]
        have := del_strong_tidy h1
        exact this

theorem wp_dtor_tidy {s s1 : State} {i : Nat} (h : weak_ptr.dtor s i = some s1) :
    Tidy s s1 := by
  simp only [weak_ptr.dtor] at h
  cases hi : s.wp i with
  | none => simp [hi] at h
  | some a =>
    simp only [hi] at h
    cases ha : a.cblock with
    | none =>
      simp only [ha, Option.some.injEq] at h
      rw [← h]
      exact Tidy.tidy_of_eq rfl
    | some c =>
      simp only [ha] at h
      cases h1 : control_block.del_weak s c with
      | none => simp [h1] at h
      | some s2 =>
        simp only [h1, Option.some.injEq] at h
        rw [← h]
        have := del_weak_tidy h1
        exact this

theorem sp_ctor_tidy (s : State) : Tidy s (shared_ptr.ctor s).1 := Tidy.tidy_of_eq rfl

theorem wp_ctor_tidy (s : State) : Tidy s (weak_ptr.ctor s).1 := Tidy.tidy_of_eq rfl

theorem sp_ctor_ptr_deleter_tidy {s s1 : State} {p : Ptr} {d : Nat} {alloc : Option Exn}
    {r : Except Exn Nat} (h : shared_ptr.ctor_ptr_deleter s p d alloc = some (s1, r)) :
    Tidy s s1 := by
  cases alloc with
  | some e =>
    simp only [shared_ptr.ctor_ptr_deleter, Option.some.injEq, Prod.mk.injEq] at h
    rw [← h.1]
    exact Tidy.of_log rfl (by intro c2; simp)
  | none =>
    rw [sp_adopt_eq] at h
    simp only [Option.some.injEq, Prod.mk.injEq] at h
    rw [← h.1]
    exact Tidy.tidy_of_eq rfl

theorem make_shared_tidy {s s1 : State} {args : List Nat} {alloc : Option Exn}
    {r : Except Exn Nat} (h : make_shared s args alloc = some (s1, r)) :
    Tidy s s1 := by
  cases alloc with
  | some e =>
    simp only [make_shared, Option.some.injEq, Prod.mk.injEq] at h
    rw [← h.1]
    exact Tidy.tidy_refl s
  | none =>
    rw [make_shared_eq] at h
    simp only [Option.some.injEq, Prod.mk.injEq] at h
    rw [← h.1]
    exact Tidy.tidy_of_eq rfl

theorem sp_ctor_alias_tidy {s s1 : State} {j n : Nat} {p : Ptr}
    (h : shared_ptr.ctor_alias s j p = some (s1, n)) : Tidy s s1 := by
  simp only [shared_ptr.ctor_alias] at h
  split at h
  · cases h
  · exact sp_ctor_cblock_tidy h

theorem sp_ctor_convert_tidy {s s1 : State} {j n : Nat}
    (h : shared_ptr.ctor_convert s j = some (s1, n)) : Tidy s s1 := by
  simp only [shared_ptr.ctor_convert] at h
  split at h
  · cases h
  · exact sp_ctor_alias_tidy h

theorem sp_ctor_copy_tidy {s s1 : State} {j n : Nat}
    (h : shared_ptr.ctor_copy s j = some (s1, n)) : Tidy s s1 := by
  simp only [shared_ptr.ctor_copy] at h
  split at h
  · cases h
  · exact sp_ctor_cblock_tidy h

theorem sp_ctor_move_tidy {s s1 : State} {j n : Nat}
    (h : shared_ptr.ctor_move s j = some (s1, n)) : Tidy s s1 := by
  simp only [shared_ptr.ctor_move] at h
  split at h
  · cases h
  · cases h1 : shared_ptr.swap (shared_ptr.ctor s).1 (shared_ptr.ctor s).2 j with
    | none => simp [h1] at h
    | some s2 =>
      simp only [h1, Option.some.injEq, Prod.mk.injEq] at h
      rw [← h.1]
      exact (sp_ctor_tidy s).tidy_trans (sp_swap_tidy h1)

theorem sp_reset_tidy {s s1 : State} {i : Nat} (h : shared_ptr.reset s i = some s1) :
    Tidy s s1 := by
  simp only [shared_ptr.reset] at h
  split at h
  · cases h
  · cases h1 : shared_ptr.swap (shared_ptr.ctor s).1 i (shared_ptr.ctor s).2 with
    | none => simp [h1] at h
    | some s2 =>
      simp only [h1] at h
      exact ((sp_ctor_tidy s).tidy_trans (sp_swap_tidy h1)).tidy_trans (sp_dtor_tidy h)

theorem sp_assign_copy_tidy {s s1 : State} {i j : Nat}
    (h : shared_ptr.assign_copy s i j = some s1) : Tidy s s1 := by
  simp only [shared_ptr.assign_copy] at h
  split at h
  · split_ifs at h with hij
    · cases h1 : shared_ptr.ctor_copy s j with
      | none => simp [h1] at h
      | some r =>
        obtain ⟨s2, n⟩ := r
        simp only [h1] at h
        cases h2 : shared_ptr.swap s2 i n with
        | none => simp [h2] at h
        | some s3 =>
          simp only [h2] at h
          exact ((sp_ctor_copy_tidy h1).tidy_trans (sp_swap_tidy h2)).tidy_trans (sp_dtor_tidy h)
    · cases h
      exact Tidy.tidy_refl s
  · cases h

theorem sp_assign_move_tidy {s s1 : State} {i j : Nat}
    (h : shared_ptr.assign_move s i j = some s1) : Tidy s s1 := by
  simp only [shared_ptr.assign_move] at h
  split at h
  · split_ifs at h with hij
    · cases h1 : shared_ptr.reset s i with
      | none => simp [h1] at h
      | some s2 =>
        simp only [h1] at h
        exact (sp_reset_tidy h1).tidy_trans (sp_swap_tidy h)
    · cases h
      exact Tidy.tidy_refl s
  · cases h

theorem sp_reset_ptr_deleter_tidy {s s1 : State} {i : Nat} {p : Ptr} {d : Nat}
    {alloc : Option Exn} {r : Except Exn Unit}
    (h : shared_ptr.reset_ptr_deleter s i p d alloc = some (s1, r)) :
    Tidy s s1 := by
  simp only [shared_ptr.reset_ptr_deleter] at h
  split at h
  · cases h
  · cases h1 : shared_ptr.ctor_ptr_deleter s p d alloc with
    | none => simp [h1] at h
    | some r1 =>
      obtain ⟨s2, x⟩ := r1
      have e1 := sp_ctor_ptr_deleter_tidy h1
      cases x with
      | error e =>
        simp only [h1, Option.some.injEq, Prod.mk.injEq] at h
        rw [← h.1]
        exact e1
      | ok n =>
        simp only [h1] at h
        cases h2 : shared_ptr.swap s2 i n with
        | none => simp [h2] at h
        | some s3 =>
          simp only [h2] at h
          cases h3 : shared_ptr.dtor s3 n with
          | none => simp [h3] at h
          | some s4 =>
            simp only [h3, Option.some.injEq, Prod.mk.injEq] at h
            rw [← h.1]
            exact (e1.tidy_trans (sp_swap_tidy h2)).tidy_trans (sp_dtor_tidy h3)

theorem wp_ctor_copy_tidy {s s1 : State} {j n : Nat}
    (h : weak_ptr.ctor_copy s j = some (s1, n)) : Tidy s s1 := by
  simp only [weak_ptr.ctor_copy] at h
  split at h
  · cases h
  · exact wp_ctor_cblock_tidy h

theorem wp_ctor_shared_tidy {s s1 : State} {j n : Nat}
    (h : weak_ptr.ctor_shared s j = some (s1, n)) : Tidy s s1 := by
  simp only [weak_ptr.ctor_shared] at h
  split at h
  · cases h
  · exact wp_ctor_cblock_tidy h

theorem wp_ctor_move_tidy {s s1 : State} {j n : Nat}
    (h : weak_ptr.ctor_move s j = some (s1, n)) : Tidy s s1 := by
  simp only [weak_ptr.ctor_move] at h
  split at h
  · cases h
  · cases h1 : weak_ptr.swap (weak_ptr.ctor s).1 (weak_ptr.ctor s).2 j with
    | none => simp [h1] at h
    | some s2 =>
      simp only [h1, Option.some.injEq, Prod.mk.injEq] at h
      rw [← h.1]
      exact (wp_ctor_tidy s).tidy_trans (wp_swap_tidy h1)

theorem wp_assign_copy_tidy {s s1 : State} {i j : Nat}
    (h : weak_ptr.assign_copy s i j = some s1) : Tidy s s1 := by
  simp only [weak_ptr.assign_copy] at h
  split at h
  · cases h1 : weak_ptr.ctor_copy s j with
    | none => simp [h1] at h
    | some r =>
      obtain ⟨s2, n⟩ := r
      simp only [h1] at h
      cases h2 : weak_ptr.swap s2 i n with
      | none => simp [h2] at h
      | some s3 =>
        simp only [h2] at h
        exact ((wp_ctor_copy_tidy h1).tidy_trans (wp_swap_tidy h2)).tidy_trans (wp_dtor_tidy h)
  · cases h

theorem wp_assign_move_tidy {s s1 : State} {i j : Nat}
    (h : weak_ptr.assign_move s i j = some s1) : Tidy s s1 := by
  simp only [weak_ptr.assign_move] at h
  split at h
  · split_ifs at h with hij
    · cases h1 : weak_ptr.ctor_move (weak_ptr.ctor s).1 j with
      | none => simp [h1] at h
      | some r =>
        obtain ⟨s2, tmp⟩ := r
        simp only [h1] at h
        cases h2 : weak_ptr.swap s2 tmp i with
        | none => simp [h2] at h
        | some s3 =>
          simp only [h2] at h
          cases h3 : weak_ptr.dtor s3 tmp with
          | none => simp [h3] at h
          | some s4 =>
            simp only [h3] at h
            exact ((((wp_ctor_tidy s).tidy_trans (wp_ctor_move_tidy h1)).tidy_trans
              (wp_swap_tidy h2)).tidy_trans (wp_dtor_tidy h3)).tidy_trans (wp_dtor_tidy h)
    · cases h
      exact Tidy.tidy_refl s
  · cases h

theorem wp_lock_tidy {s s1 : State} {i n : Nat}
    (h : weak_ptr.lock s i = some (s1, n)) : Tidy s s1 := by
  simp only [weak_ptr.lock] at h
  split at h
  · cases h
  · split at h
    · simp only [Option.some.injEq] at h
      have := sp_ctor_tidy s
      rw [h] at this
      exact this
    · split at h
      · cases h
      · split_ifs at h
        · simp only [Option.some.injEq] at h
          have := sp_ctor_tidy s
          rw [h] at this
          exact this
        · exact sp_ctor_cblock_tidy h

/-- A call adds `~T()` on the storage of a block to the log only together with
`delete_object` on that block. -/
theorem step_tidy {s s1 : State} {op : Op} (h : step s op = some s1) :
    Tidy s s1 := by
  cases op <;> simp only [step, Option.map_eq_some', Prod.exists, exists_and_right,
    exists_eq_right, Option.some.injEq, shared_ptr.ctor_nullptr, shared_ptr.ctor_ptr,
    shared_ptr.reset_ptr] at h
  case sp_ctor => subst h; exact sp_ctor_tidy s
  case sp_ctor_nullptr => subst h; exact sp_ctor_tidy s
  case sp_ctor_ptr p alloc =>
    obtain ⟨r, h⟩ := h
    have := sp_ctor_ptr_deleter_tidy h
    exact this
  case sp_ctor_ptr_deleter p d alloc =>
    obtain ⟨r, h⟩ := h
    have := sp_ctor_ptr_deleter_tidy h
    exact this
  case sp_ctor_alias j p => obtain ⟨r, h⟩ := h; exact sp_ctor_alias_tidy h
  case sp_ctor_convert j => obtain ⟨r, h⟩ := h; exact sp_ctor_convert_tidy h
  case sp_ctor_copy j => obtain ⟨r, h⟩ := h; exact sp_ctor_copy_tidy h
  case sp_ctor_move j => obtain ⟨r, h⟩ := h; exact sp_ctor_move_tidy h
  case sp_assign_copy i j => exact sp_assign_copy_tidy h
  case sp_assign_move i j => exact sp_assign_move_tidy h
  case sp_dtor i => exact sp_dtor_tidy h
  case sp_reset i => exact sp_reset_tidy h
  case sp_reset_ptr i p alloc =>
    obtain ⟨r, h⟩ := h
    have := sp_reset_ptr_deleter_tidy h
    exact this
  case sp_reset_ptr_deleter i p d alloc =>
    obtain ⟨r, h⟩ := h
    have := sp_reset_ptr_deleter_tidy h
    exact this
  case sp_swap i j => exact sp_swap_tidy h
  case make_shared args alloc =>
    obtain ⟨r, h⟩ := h
    have := make_shared_tidy h
    exact this
  case wp_ctor => subst h; exact wp_ctor_tidy s
  case wp_ctor_copy j => obtain ⟨r, h⟩ := h; exact wp_ctor_copy_tidy h
  case wp_ctor_shared j => obtain ⟨r, h⟩ := h; exact wp_ctor_shared_tidy h
  case wp_ctor_move j => obtain ⟨r, h⟩ := h; exact wp_ctor_move_tidy h
  case wp_dtor i => exact wp_dtor_tidy h
  case wp_assign_copy i j => exact wp_assign_copy_tidy h
  case wp_assign_move i j => exact wp_assign_move_tidy h
  case wp_swap i j => exact wp_swap_tidy h
  case wp_lock i => obtain ⟨r, h⟩ := h; exact wp_lock_tidy h


theorem run_tidy {ops : List Op} {s s1 : State} (h : run s ops = some s1) : Tidy s s1 := by
  induction ops generalizing s with
  | nil =>
    simp only [run, Option.some.injEq] at h
    subst h
    exact Tidy.tidy_refl s
  | cons op ops ih =>
    simp only [run] at h
    split_ifs at h with hb
    cases hs : step s op with
    | none => simp [hs] at h
    | some s2 =>
      simp only [hs] at h
      exact (step_tidy hs).tidy_trans (ih h)

/-- In every reachable state `~T()` has run on the storage of a block at most as often as
`delete_object` on the block. -/
theorem Reachable.destructions_le {s : State} (h : Reachable s) (c : Nat) :
    s.destructions c ≤ s.deletions c := by
  obtain ⟨ops, h⟩ := h
  obtain ⟨l, e, p⟩ := run_tidy h
  have := p c
  simpa [State.destructions, State.deletions, e, State.init] using this

theorem del_strong_closed (s : State) (c : Nat) :
    control_block.del_strong s c =
      match s.load c with
      | none => none
      | some cb => some (
        if size_dec cb.refs ≠ 0 then s.store c { cb with refs := size_dec cb.refs }
        else if size_dec cb.weak_refs ≠ 0 then
          ((s.emit (Event.delete_object c)).emit (cb.variant.effect c)).store c
            ⟨0, size_dec cb.weak_refs, cb.variant.after⟩
        else
          (((s.emit (Event.delete_object c)).emit (cb.variant.effect c)).emit
            (Event.delete_this c)).free c) := by
  cases h : s.load c with
  | none => simp [control_block.del_strong, control_block.dec_refs, h]
  | some cb => exact del_strong_eq h

theorem sp_dtor_closed (s : State) (i : Nat) :
    shared_ptr.dtor s i =
      match s.sp i with
      | none => none
      | some a =>
        match a.cblock with
        | none => some (s.setSp i none)
        | some c => (control_block.del_strong s c).map (fun s1 => s1.setSp i none) := by
  cases hi : s.sp i with
  | none => simp [shared_ptr.dtor, hi]
  | some a =>
    cases ha : a.cblock with
    | none => simp [shared_ptr.dtor, hi, ha]
    | some c =>
      cases hd : control_block.del_strong s c with
      | none => simp [shared_ptr.dtor, hi, ha, hd]
      | some s1 => simp [shared_ptr.dtor, hi, ha, hd]

/-- The destructor of an owning handle with a block, in terms of the block: another owner
remains, or the object is destroyed and observers remain, or the block goes as well. -/
theorem sp_dtor_block {s : State} {i c : Nat} {a : shared_ptr} {cb : control_block}
    (hwf : WF s) (hi : s.sp i = some a) (ha : a.cblock = some c) (hcb : s.load c = some cb) :
    shared_ptr.dtor s i = some (
      if cb.refs ≠ 1 then (s.store c { cb with refs := cb.refs - 1 }).setSp i none
      else if cb.weak_refs ≠ 1 then
        (((s.emit (Event.delete_object c)).emit (cb.variant.effect c)).store c
          ⟨0, cb.weak_refs - 1, cb.variant.after⟩).setSp i none
      else
        ((((s.emit (Event.delete_object c)).emit (cb.variant.effect c)).emit
          (Event.delete_this c)).free c).setSp i none) := by
  obtain ⟨cb1, hcb1, hpos, -⟩ := owner_block hwf hi ha
  rw [hcb] at hcb1
  have hcb1 := Option.some.inj hcb1
  subst hcb1
  obtain ⟨-, -, a3, a4, a5⟩ := (hwf c).live cb hcb
  have h1 : size_dec cb.refs = cb.refs - 1 := size_dec_eq a4 hpos
  have h2 : size_dec cb.weak_refs = cb.weak_refs - 1 := size_dec_eq a5 a3
  have e1 : (cb.refs - 1 ≠ 0) = (cb.refs ≠ 1) := propext (by omega)
  have e2 : (cb.weak_refs - 1 ≠ 0) = (cb.weak_refs ≠ 1) := propext (by omega)
  rw [sp_dtor_closed]
  simp only [hi, ha, del_strong_eq hcb, h1, h2, e1, e2, Option.map_some']
  split_ifs <;> rfl


/-- C14: in every reachable state, `make_shared<T>(args...)` returns; it allocates exactly
one control block, an `inplace_control_block` whose storage holds the object built from
`args`, with both counters 1, leaves every other block and the log unchanged, and returns
a new owning handle on that block whose access pointer is the storage inside the block
and whose `use_count()` is 1 (a throwing `new` expression changes nothing). In every
reachable state `~T()` has run on the storage of a block at most as often as
`delete_object` on that block, which is at most once, and no call lowers that number.
Destroying an owning handle of an in-place block returns; when it was the last owner,
`~T()` had not run on the storage before and has run exactly once after, the block stays,
with its storage and `weak_refs` lowered by 1, while observers remain, and is released
in that same call when none remain; when it was not the last owner, nothing is logged.
A block is gone exactly when no handle of either kind refers to it. -/
theorem make_shared_single_allocation (s : State) (hr : Reachable s) :
    (∀ args, ∃ s1, make_shared s args none = some (s1, Except.ok s.sps.length) ∧
      s1.heap.length = s.heap.length + 1 ∧ s1.log = s.log ∧
      s1.load s.heap.length = some ⟨1, 1, Variant.inplace args⟩ ∧
      s1.sp s.sps.length = some ⟨some s.heap.length, Ptr.stg s.heap.length⟩ ∧
      shared_ptr.use_count s1 s.sps.length = some 1 ∧
      shared_ptr.get s1 s.sps.length = some (Ptr.stg s.heap.length) ∧
      (∀ c, c ≠ s.heap.length → s1.load c = s.load c)) ∧
    (∀ args e, make_shared s args (some e) = some (s, Except.error e)) ∧
    (∀ c, s.destructions c ≤ s.deletions c ∧ s.deletions c ≤ 1) ∧
    (∀ op s1 c, step s op = some s1 → s.destructions c ≤ s1.destructions c) ∧
    (∀ i a c cb args, s.sp i = some a → a.cblock = some c → s.load c = some cb →
      cb.variant = Variant.inplace args →
      ∃ t, shared_ptr.dtor s i = some t ∧
        (s.owners c = 1 → s.destructions c = 0 ∧ t.destructions c = 1 ∧
          t.deletions c = 1 ∧
          (0 < s.observers c →
            t.load c = some ⟨0, s.observers c, Variant.inplace args⟩ ∧
            t.log = s.log ++ [Event.delete_object c, Event.destructor c]) ∧
          (s.observers c = 0 → t.load c = none ∧
            t.log = s.log ++
              [Event.delete_object c, Event.destructor c, Event.delete_this c])) ∧
        (s.owners c ≠ 1 → t.log = s.log ∧
          t.load c = some ⟨s.owners c - 1, cb.weak_refs, Variant.inplace args⟩)) ∧
    (∀ c, s.load c = none ↔ s.owners c + s.observers c = 0) := by
  have hwf := hr.wf
  refine ⟨?_, ?_, ?_, ?_, ?_, ?_⟩
  · intro args
    refine ⟨_, make_shared_eq s args, by simp, by simp, by simp [size_inc_zero], by simp, ?_,
      by simp [shared_ptr.get], ?_⟩
    · simp [shared_ptr.use_count, control_block.strong_count, size_inc_zero]
    · intro c hc
      simp [hc]
  · intro args e
    rfl
  · intro c
    refine ⟨hr.destructions_le c, ?_⟩
    rw [(hwf c).deletions]
    split_ifs <;> omega
  · intro op s1 c hs
    exact (step_tidy hs).destructions_mono c
  · intro i a c cb args hi ha hcb hv
    obtain ⟨a1, a2, a3, a4, a5⟩ := (hwf c).live cb hcb
    have hlt := load_lt hcb
    have hd := hr.destructions_le c
    have hdel := (hwf c).deletions
    refine ⟨_, sp_dtor_block hwf hi ha hcb, ?_, ?_⟩
    · intro h1
      have hr1 : cb.refs = 1 := by omega
      have hw : cb.weak_refs = s.observers c + 1 := by
        rw [a2, hr1]
        simp
      have hd0 : s.destructions c = 0 := by
        rw [hdel, h1] at hd
        simpa using hd
      have hd1 : s.log.count (Event.destructor c) = 0 := hd0
      have hd2 : s.log.count (Event.delete_object c) = 0 := by
        have : s.deletions c = 0 := by
          rw [hdel, h1]
          simp
        exact this
      refine ⟨hd0, ?_, ?_, ?_, ?_⟩
      · simp only [hr1, ne_eq, not_true_eq_false, if_false, hv, Variant.effect]
        split_ifs <;>
          simp [State.destructions, State.emit, State.store, State.free, State.setSp,
            List.count_append, hd1]
      · simp only [hr1, ne_eq, not_true_eq_false, if_false, hv, Variant.effect]
        split_ifs <;>
          simp [State.deletions, State.emit, State.store, State.free, State.setSp,
            List.count_append, hd2]
      · intro ho
        have : cb.weak_refs ≠ 1 := by omega
        have hsub : cb.weak_refs - 1 = s.observers c := by omega
        simp only [hr1, ne_eq, not_true_eq_false, if_false, this, not_false_eq_true, if_true,
          hv, Variant.effect, Variant.after, hsub]
        constructor
        · simp [hlt]
        · simp [State.emit, State.store, State.setSp]
      · intro ho
        have : cb.weak_refs = 1 := by omega
        simp only [hr1, ne_eq, not_true_eq_false, if_false, this, hv, Variant.effect]
        constructor
        · simp [hlt]
        · simp [State.emit, State.free, State.setSp]
    · intro h1
      have hr1 : cb.refs ≠ 1 := by omega
      simp only [hr1, ne_eq, not_false_eq_true, if_true]
      constructor
      · simp [State.store, State.setSp]
      · simp [hlt, a1, hv]
  · intro c
    exact load_none_iff hwf

theorem make_shared_single_allocation_witness :
    Reachable sample_state ∧
    (∃ t, shared_ptr.dtor sample_state 2 = some t ∧
      (sample_state.owners 1 = 1 → sample_state.destructions 1 = 0 ∧
        t.destructions 1 = 1 ∧ t.deletions 1 = 1 ∧
        (0 < sample_state.observers 1 →
          t.load 1 = some ⟨0, sample_state.observers 1, Variant.inplace [42]⟩ ∧
          t.log = sample_state.log ++ [Event.delete_object 1, Event.destructor 1]) ∧
        (sample_state.observers 1 = 0 → t.load 1 = none ∧
          t.log = sample_state.log ++
            [Event.delete_object 1, Event.destructor 1, Event.delete_this 1])) ∧
      (sample_state.owners 1 ≠ 1 → t.log = sample_state.log ∧
        t.load 1 = some ⟨sample_state.owners 1 - 1, 1, Variant.inplace [42]⟩)) :=
  ⟨sample_reachable,
   (make_shared_single_allocation sample_state sample_reachable).2.2.2.2.1 2
     ⟨some 1, Ptr.stg 1⟩ 1 ⟨1, 1, Variant.inplace [42]⟩ [42] (by decide) rfl (by decide) rfl⟩


theorem WF.strong_count {s : State} (hwf : WF s) {c : Nat} (h : 0 < s.owners c) :
    control_block.strong_count s c = some (s.owners c) := by
  cases hl : s.load c with
  | none =>
    have := ((hwf c).dead hl).1
    omega
  | some cb =>
    simp [control_block.strong_count, hl, ((hwf c).live cb hl).1]

/-- C11, as stated, fails: when two distinct owning handles `a` and `b` share a control
block with `strong_count` 2, after `a = std::move(b)` the `strong_count` of that block,
which is the previous block of `b`, is 1 and not unchanged. -/
theorem move_assign_counterexample :
    Reachable sample_state ∧
    sample_state.sp 1 = some ⟨some 0, Ptr.obj 7⟩ ∧
    sample_state.sp 3 = some ⟨some 0, Ptr.obj 8⟩ ∧
    control_block.strong_count sample_state 0 = some 2 ∧
    (shared_ptr.assign_move sample_state 1 3).map
      (fun s1 => (s1.sp 1, s1.sp 3, control_block.strong_count s1 0))
      = some (some ⟨some 0, Ptr.obj 8⟩, some ⟨none, Ptr.null⟩, some 1) ∧
    ¬ (∀ s i j a b c s1, Reachable s → i ≠ j → s.sp i = some a → s.sp j = some b →
        b.cblock = some c → shared_ptr.assign_move s i j = some s1 →
        control_block.strong_count s1 c = control_block.strong_count s c) := by
  refine ⟨sample_reachable, by decide, by decide, by decide, by decide, ?_⟩
  intro h
  have h1 := h sample_state 1 3 ⟨some 0, Ptr.obj 7⟩ ⟨some 0, Ptr.obj 8⟩ 0
    { heap := [some ⟨1, 2, Variant.regular (Ptr.obj 7) 3⟩, some ⟨1, 1, Variant.inplace [42]⟩],
      sps := [none, some ⟨some 0, Ptr.obj 8⟩, some ⟨some 1, Ptr.stg 1⟩, some ⟨none, Ptr.null⟩,
        none],
      wps := [some ⟨some 0, Ptr.obj 7⟩], log := [] }
    sample_reachable (by decide) (by decide) (by decide) rfl (by decide)
  revert h1
  decide

/-- C11, amended: for live owning handles `a` (slot `i`) and `b` (slot `j`) in a reachable
state, `strong_count` of a block with an owner is the number of its owners before and
after the assignment. Self-assignment by copy or move returns the state unchanged.
Copy assignment `a = b` between distinct handles returns; afterwards `a` has the control
block and access pointer of `b`, `b` and all other handles are unchanged, and for every
block the owners have grown by one if it is the block of `b` and shrunk by one if it was
the block of `a` (net zero when both). Move assignment `a = std::move(b)` between
distinct handles returns; afterwards `a` has the previous members of `b`, `b` is empty,
all other handles are unchanged, every block has lost one owner if it was the block of
`a` and none otherwise: the previous block of `b` keeps its `strong_count` when it is
not also the previous block of `a`, and loses one strong reference when it is. -/
theorem assignment_spec (s : State) (i j : Nat) (a b : shared_ptr) (hr : Reachable s)
    (hb : s.live + 1 < SIZE_MOD) (hi : s.sp i = some a) (hj : s.sp j = some b) :
    (shared_ptr.assign_copy s i i = some s ∧ shared_ptr.assign_move s i i = some s) ∧
    (∀ c, 0 < s.owners c → control_block.strong_count s c = some (s.owners c)) ∧
    (i ≠ j → ∃ s1, shared_ptr.assign_copy s i j = some s1 ∧
      s1.sp i = some b ∧ s1.sp j = some b ∧
      (∀ k, k ≠ i → k < s.sps.length → s1.sp k = s.sp k) ∧ s1.wps = s.wps ∧
      (∀ c, s1.owners c + (if a.cblock = some c then 1 else 0)
        = s.owners c + (if b.cblock = some c then 1 else 0)) ∧
      (∀ c, 0 < s1.owners c → control_block.strong_count s1 c = some (s1.owners c))) ∧
    (i ≠ j → ∃ s1, shared_ptr.assign_move s i j = some s1 ∧
      s1.sp i = some b ∧ s1.sp j = some ⟨none, Ptr.null⟩ ∧
      (∀ k, k ≠ i → k ≠ j → k < s.sps.length → s1.sp k = s.sp k) ∧ s1.wps = s.wps ∧
      (∀ c, s1.owners c + (if a.cblock = some c then 1 else 0) = s.owners c) ∧
      (∀ c, 0 < s1.owners c → control_block.strong_count s1 c = some (s1.owners c)) ∧
      (∀ c, b.cblock = some c → a.cblock ≠ some c →
        control_block.strong_count s1 c = control_block.strong_count s c) ∧
      (∀ c, b.cblock = some c → a.cblock = some c →
        ∃ n, control_block.strong_count s c = some (n + 2) ∧
          control_block.strong_count s1 c = some (n + 1))) := by
  have hwf := hr.wf
  have hlti := sp_lt hi
  have hltj := sp_lt hj
  refine ⟨⟨by simp [shared_ptr.assign_copy, hi], by simp [shared_ptr.assign_move, hi]⟩,
    fun c h => hwf.strong_count h, ?_, ?_⟩
  · intro hij
    obtain ⟨s1, e1, w1, p1, q1, r1⟩ := sp_assign_copy_spec hwf hb hi hj
    rw [if_neg hij] at p1
    refine ⟨s1, e1, ?_, ?_, ?_, q1, ?_, fun c h => w1.strong_count h⟩
    · rw [sp_of_sps p1, getD_append_one, if_neg (by simp; omega), getD_set_none]
      simp [hlti]
    · rw [sp_of_sps p1, getD_append_one, if_neg (by simp; omega), getD_set_none,
        if_neg (by intro h; exact hij h.1.symm)]
      exact hj
    · intro k hk hlt
      rw [sp_of_sps p1, getD_append_one, if_neg (by simp; omega), getD_set_none,
        if_neg (by intro h; exact hk h.1)]
      rfl
    · intro c
      simpa [hij] using r1 c
  · intro hij
    obtain ⟨s1, e1, w1, p1, q1, r1⟩ := sp_assign_move_spec hwf hi hj
    rw [if_neg hij] at p1
    have hji : ¬ j = i := fun e => hij e.symm
    have hown : ∀ c, s1.owners c + (if a.cblock = some c then 1 else 0) = s.owners c := by
      intro c
      simpa [hij] using r1 c
    have hbo : ∀ c, b.cblock = some c → 0 < s.owners c ∧
        (a.cblock = some c → 1 < s.owners c) := by
      intro c hc
      obtain ⟨cb, -, hpos, hown1⟩ := owner_block hwf hj hc
      refine ⟨by omega, ?_⟩
      intro hac
      have h1 := hown c
      rw [if_pos hac] at h1
      have hi1 : s1.sp i = some b := by
        rw [sp_of_sps p1, getD_append_one, if_neg (by simp; omega), getD_set_none,
          if_neg (by intro h; exact hij h.1), getD_set_none]
        simp [hlti]
      obtain ⟨cb1, -, hpos1, hown2⟩ := owner_block w1 hi1 hc
      omega
    refine ⟨s1, e1, ?_, ?_, ?_, q1, hown, fun c h => w1.strong_count h, ?_, ?_⟩
    · rw [sp_of_sps p1, getD_append_one, if_neg (by simp; omega), getD_set_none,
        if_neg (by intro h; exact hij h.1), getD_set_none]
      simp [hlti]
    · rw [sp_of_sps p1, getD_append_one, if_neg (by simp; omega), getD_set_none]
      simp [hltj]
    · intro k hk1 hk2 hlt
      rw [sp_of_sps p1, getD_append_one, if_neg (by simp; omega), getD_set_none,
        if_neg (by intro h; exact hk2 h.1), getD_set_none, if_neg (by intro h; exact hk1 h.1)]
      rfl
    · intro c hc hac
      have h1 := hown c
      rw [if_neg hac] at h1
      have h2 := (hbo c hc).1
      rw [hwf.strong_count h2, w1.strong_count (by omega)]
      simp only [Option.some.injEq]
      omega
    · intro c hc hac
      have h1 := hown c
      rw [if_pos hac] at h1
      have h2 := (hbo c hc).2 hac
      refine ⟨s.owners c - 2, ?_, ?_⟩
      · rw [hwf.strong_count (by omega)]
        simp only [Option.some.injEq]
        omega
      · rw [w1.strong_count (by omega)]
        simp only [Option.some.injEq]
        omega

theorem assignment_spec_witness :
    Reachable sample_state ∧ sample_state.live + 1 < SIZE_MOD ∧
    ((1 : Nat) ≠ 3 → ∃ s1, shared_ptr.assign_move sample_state 1 3 = some s1 ∧
      s1.sp 1 = some ⟨some 0, Ptr.obj 8⟩ ∧ s1.sp 3 = some ⟨none, Ptr.null⟩ ∧
      (∀ k, k ≠ 1 → k ≠ 3 → k < sample_state.sps.length → s1.sp k = sample_state.sp k) ∧
      s1.wps = sample_state.wps ∧
      (∀ c, s1.owners c
          + (if (⟨some 0, Ptr.obj 7⟩ : shared_ptr).cblock = some c then 1 else 0)
        = sample_state.owners c) ∧
      (∀ c, 0 < s1.owners c → control_block.strong_count s1 c = some (s1.owners c)) ∧
      (∀ c, (⟨some 0, Ptr.obj 8⟩ : shared_ptr).cblock = some c →
        (⟨some 0, Ptr.obj 7⟩ : shared_ptr).cblock ≠ some c →
        control_block.strong_count s1 c = control_block.strong_count sample_state c) ∧
      (∀ c, (⟨some 0, Ptr.obj 8⟩ : shared_ptr).cblock = some c →
        (⟨some 0, Ptr.obj 7⟩ : shared_ptr).cblock = some c →
        ∃ n, control_block.strong_count sample_state c = some (n + 2) ∧
          control_block.strong_count s1 c = some (n + 1))) :=
  ⟨sample_reachable, by decide,
   (assignment_spec sample_state 1 3 ⟨some 0, Ptr.obj 7⟩ ⟨some 0, Ptr.obj 8⟩
      sample_reachable (by decide) (by decide) (by decide)).2.2.2⟩


theorem run_cons_some {s s1 : State} {op : Op} (ops : List Op) (hb : s.live + 1 < SIZE_MOD)
    (hs : step s op = some s1) : run s (op :: ops) = run s1 ops := by
  simp only [run, if_pos hb, hs]

theorem run_nil (s : State) : run s [] = some s := rfl

theorem size_inc_two : size_inc 2 = 3 := by decide

theorem size_inc_three : size_inc 3 = 4 := by decide

theorem size_dec_three : size_dec 3 = 2 := by decide

theorem size_dec_four : size_dec 4 = 3 := by decide

theorem small_live (n : Nat) (h : n ≤ 10) : n + 1 < SIZE_MOD := by
  unfold SIZE_MOD
  omega

/-- The states of the scenario: after the adoption and the three copies, and after each
of the four destructions. -/
theorem scenario_run (p : Ptr) (d : Nat) :
    run State.init (scenario p d 0) = some
      ⟨[some ⟨4, 1, Variant.regular p d⟩],
        [some ⟨some 0, p⟩, some ⟨some 0, p⟩, some ⟨some 0, p⟩, some ⟨some 0, p⟩], [], []⟩ ∧
    run State.init (scenario p d 1) = some
      ⟨[some ⟨3, 1, Variant.regular p d⟩],
        [none, some ⟨some 0, p⟩, some ⟨some 0, p⟩, some ⟨some 0, p⟩], [], []⟩ ∧
    run State.init (scenario p d 2) = some
      ⟨[some ⟨2, 1, Variant.regular p d⟩],
        [none, none, some ⟨some 0, p⟩, some ⟨some 0, p⟩], [], []⟩ ∧
    run State.init (scenario p d 3) = some
      ⟨[some ⟨1, 1, Variant.regular p d⟩],
        [none, none, none, some ⟨some 0, p⟩], [], []⟩ ∧
    run State.init (scenario p d 4) = some
      ⟨[none], [none, none, none, none], [],
        [Event.delete_object 0, Event.deleter d p, Event.delete_this 0]⟩ := by
  have e1 : step State.init (Op.sp_ctor_ptr_deleter p d none)
      = some ⟨[some ⟨1, 1, Variant.regular p d⟩], [some ⟨some 0, p⟩], [], []⟩ := by
    simp only [step, sp_adopt_eq, Option.map_some', size_inc_zero]
    rfl
  have e2 : step ⟨[some ⟨1, 1, Variant.regular p d⟩], [some ⟨some 0, p⟩], [], []⟩
      (Op.sp_ctor_copy 0)
      = some ⟨[some ⟨2, 1, Variant.regular p d⟩], [some ⟨some 0, p⟩, some ⟨some 0, p⟩],
          [], []⟩ := by
    have hl : (⟨[some ⟨1, 1, Variant.regular p d⟩], [some ⟨some 0, p⟩], [], []⟩ : State).load 0
        = some ⟨1, 1, Variant.regular p d⟩ := rfl
    simp only [step, shared_ptr.ctor_copy, State.sp, List.getD_cons_zero,
      sp_ctor_cblock_eq p hl, Option.map_some', size_inc_one]
    rfl
  have e3 : step ⟨[some ⟨2, 1, Variant.regular p d⟩], [some ⟨some 0, p⟩, some ⟨some 0, p⟩],
      [], []⟩ (Op.sp_ctor_copy 0)
      = some ⟨[some ⟨3, 1, Variant.regular p d⟩],
          [some ⟨some 0, p⟩, some ⟨some 0, p⟩, some ⟨some 0, p⟩], [], []⟩ := by
    have hl : (⟨[some ⟨2, 1, Variant.regular p d⟩], [some ⟨some 0, p⟩, some ⟨some 0, p⟩],
        [], []⟩ : State).load 0 = some ⟨2, 1, Variant.regular p d⟩ := rfl
    simp only [step, shared_ptr.ctor_copy, State.sp, List.getD_cons_zero,
      sp_ctor_cblock_eq p hl, Option.map_some', size_inc_two]
    rfl
  have e4 : step ⟨[some ⟨3, 1, Variant.regular p d⟩],
      [some ⟨some 0, p⟩, some ⟨some 0, p⟩, some ⟨some 0, p⟩], [], []⟩ (Op.sp_ctor_copy 0)
      = some ⟨[some ⟨4, 1, Variant.regular p d⟩],
          [some ⟨some 0, p⟩, some ⟨some 0, p⟩, some ⟨some 0, p⟩, some ⟨some 0, p⟩],
          [], []⟩ := by
    have hl : (⟨[some ⟨3, 1, Variant.regular p d⟩],
        [some ⟨some 0, p⟩, some ⟨some 0, p⟩, some ⟨some 0, p⟩], [], []⟩ : State).load 0
        = some ⟨3, 1, Variant.regular p d⟩ := rfl
    simp only [step, shared_ptr.ctor_copy, State.sp, List.getD_cons_zero,
      sp_ctor_cblock_eq p hl, Option.map_some', size_inc_three]
    rfl
  have d1 : step ⟨[some ⟨4, 1, Variant.regular p d⟩],
      [some ⟨some 0, p⟩, some ⟨some 0, p⟩, some ⟨some 0, p⟩, some ⟨some 0, p⟩], [], []⟩
      (Op.sp_dtor 0)
      = some ⟨[some ⟨3, 1, Variant.regular p d⟩],
          [none, some ⟨some 0, p⟩, some ⟨some 0, p⟩, some ⟨some 0, p⟩], [], []⟩ := by
    simp only [step, sp_dtor_closed, State.sp, List.getD_cons_zero, del_strong_closed,
      State.load, size_dec_four]
    simp [State.store, State.setSp]
  have d2 : step ⟨[some ⟨3, 1, Variant.regular p d⟩],
      [none, some ⟨some 0, p⟩, some ⟨some 0, p⟩, some ⟨some 0, p⟩], [], []⟩ (Op.sp_dtor 1)
      = some ⟨[some ⟨2, 1, Variant.regular p d⟩],
          [none, none, some ⟨some 0, p⟩, some ⟨some 0, p⟩], [], []⟩ := by
    simp only [step, sp_dtor_closed, State.sp, List.getD_cons_zero, List.getD_cons_succ,
      del_strong_closed, State.load, size_dec_three]
    simp [State.store, State.setSp]
  have d3 : step ⟨[some ⟨2, 1, Variant.regular p d⟩],
      [none, none, some ⟨some 0, p⟩, some ⟨some 0, p⟩], [], []⟩ (Op.sp_dtor 2)
      = some ⟨[some ⟨1, 1, Variant.regular p d⟩],
          [none, none, none, some ⟨some 0, p⟩], [], []⟩ := by
    simp only [step, sp_dtor_closed, State.sp, List.getD_cons_zero, List.getD_cons_succ,
      del_strong_closed, State.load, size_dec_two]
    simp [State.store, State.setSp]
  have d4 : step ⟨[some ⟨1, 1, Variant.regular p d⟩],
      [none, none, none, some ⟨some 0, p⟩], [], []⟩ (Op.sp_dtor 3)
      = some ⟨[none], [none, none, none, none], [],
          [Event.delete_object 0, Event.deleter d p, Event.delete_this 0]⟩ := by
    simp only [step, sp_dtor_closed, State.sp, List.getD_cons_zero, List.getD_cons_succ,
      del_strong_closed, State.load, size_dec_one]
    simp [State.store, State.emit, State.free, Variant.effect, Variant.after, State.setSp]
  have r0 : run State.init (scenario_setup p d) = some
      ⟨[some ⟨4, 1, Variant.regular p d⟩],
        [some ⟨some 0, p⟩, some ⟨some 0, p⟩, some ⟨some 0, p⟩, some ⟨some 0, p⟩], [], []⟩ := by
    rw [scenario_setup, run_cons_some _ (small_live _ (by simp [State.live, State.init])) e1,
      run_cons_some _ (small_live _ (by simp [State.live, State.init])) e2,
      run_cons_some _ (small_live _ (by simp [State.live, State.init])) e3,
      run_cons_some _ (small_live _ (by simp [State.live, State.init])) e4]
    rfl
  have t0 : scenario p d 0 = scenario_setup p d ++ [] := rfl
  have t1 : scenario p d 1 = scenario_setup p d ++ [Op.sp_dtor 0] := rfl
  have t2 : scenario p d 2 = scenario_setup p d ++ [Op.sp_dtor 0, Op.sp_dtor 1] := rfl
  have t3 : scenario p d 3
      = scenario_setup p d ++ [Op.sp_dtor 0, Op.sp_dtor 1, Op.sp_dtor 2] := rfl
  have t4 : scenario p d 4
      = scenario_setup p d ++ [Op.sp_dtor 0, Op.sp_dtor 1, Op.sp_dtor 2, Op.sp_dtor 3] := rfl
  have b1 := run_cons_some [] (small_live _ (by simp [State.live])) d4
  have b2 := (run_cons_some [Op.sp_dtor 3] (small_live _ (by simp [State.live])) d3).trans b1
  have b3 := (run_cons_some [Op.sp_dtor 2, Op.sp_dtor 3]
    (small_live _ (by simp [State.live])) d2).trans b2
  have b4 := (run_cons_some [Op.sp_dtor 1, Op.sp_dtor 2, Op.sp_dtor 3]
    (small_live _ (by simp [State.live])) d1).trans b3
  have c1 := run_cons_some [] (small_live _ (by simp [State.live])) d3
  have c2 := (run_cons_some [Op.sp_dtor 2] (small_live _ (by simp [State.live])) d2).trans c1
  have c3 := (run_cons_some [Op.sp_dtor 1, Op.sp_dtor 2]
    (small_live _ (by simp [State.live])) d1).trans c2
  have f1 := run_cons_some [] (small_live _ (by simp [State.live])) d2
  have f2 := (run_cons_some [Op.sp_dtor 1] (small_live _ (by simp [State.live])) d1).trans f1
  have g1 := run_cons_some [] (small_live _ (by simp [State.live])) d1
  rw [run_nil] at b4 c3 f2 g1
  refine ⟨?_, ?_, ?_, ?_, ?_⟩
  · rw [t0, List.append_nil]
    exact r0
  · rw [t1, run_append, r0, Option.some_bind]
    exact g1
  · rw [t2, run_append, r0, Option.some_bind]
    exact f2
  · rw [t3, run_append, r0, Option.some_bind]
    exact c3
  · rw [t4, run_append, r0, Option.some_bind]
    exact b4

/-- C12, as stated, fails: with the four owning handles of the scenario, after the
third-to-last destruction, which is the second, two handles survive and `use_count()` of
each is 2, not 1. -/
theorem scenario_counterexample :
    (run State.init (scenario (Ptr.obj 7) 3 2)).map
      (fun s => (s.sp 0, s.sp 1, shared_ptr.use_count s 2, shared_ptr.use_count s 3))
      = some (none, none, some 2, some 2) ∧
    ¬ (∀ p d, ∃ s, run State.init (scenario p d 2) = some s ∧
        shared_ptr.use_count s 3 = some 1) := by
  refine ⟨?_, ?_⟩
  · rw [(scenario_run (Ptr.obj 7) 3).2.2.1]
    rfl
  · intro h
    obtain ⟨s, h1, h2⟩ := h (Ptr.obj 7) 3
    rw [(scenario_run (Ptr.obj 7) 3).2.2.1] at h1
    have h1 := Option.some.inj h1
    subst h1
    revert h2
    decide

/-- C12, amended: for every pointer `p` and deleter `d`, the scenario (adopt `p` with `d`,
copy the handle three times, destroy the four handles one at a time) runs to the end;
the surviving handle 3 has `use_count()` 4 before the destructions, 3 after the first,
2 after the second, which is the third-to-last, and 1 after the third, which is the
second-to-last; up to there the log is empty, so `d` has not been invoked; after the
fourth and final destruction the log is `delete_object`, `d(p)`, `delete this`, so `d` has
been invoked on `p` exactly once, and the control block is gone. -/
theorem scenario_spec (p : Ptr) (d : Nat) :
    (run State.init (scenario p d 0)).map
      (fun s => (shared_ptr.use_count s 3, s.invocations d p, s.log)) = some (some 4, 0, []) ∧
    (run State.init (scenario p d 1)).map
      (fun s => (shared_ptr.use_count s 3, s.invocations d p, s.log)) = some (some 3, 0, []) ∧
    (run State.init (scenario p d 2)).map
      (fun s => (shared_ptr.use_count s 3, s.invocations d p, s.log)) = some (some 2, 0, []) ∧
    (run State.init (scenario p d 3)).map
      (fun s => (shared_ptr.use_count s 3, s.invocations d p, s.log)) = some (some 1, 0, []) ∧
    (run State.init (scenario p d 4)).map
      (fun s => (s.sp 3, s.load 0, s.invocations d p, s.log))
      = some (none, none, 1,
          [Event.delete_object 0, Event.deleter d p, Event.delete_this 0]) := by
  obtain ⟨h0, h1, h2, h3, h4⟩ := scenario_run p d
  rw [h0, h1, h2, h3, h4]
  refine ⟨?_, ?_, ?_, ?_, ?_⟩
  · simp [shared_ptr.use_count, State.sp, control_block.strong_count, State.load,
      State.invocations]
  · simp [shared_ptr.use_count, State.sp, control_block.strong_count, State.load,
      State.invocations]
  · simp [shared_ptr.use_count, State.sp, control_block.strong_count, State.load,
      State.invocations]
  · simp [shared_ptr.use_count, State.sp, control_block.strong_count, State.load,
      State.invocations]
  · simp [State.sp, State.load, State.invocations]

theorem scenario_spec_witness :
    (run State.init (scenario (Ptr.obj 7) 3 3)).map
      (fun s => (shared_ptr.use_count s 3, s.invocations 3 (Ptr.obj 7), s.log))
      = some (some 1, 0, []) ∧
    (run State.init (scenario (Ptr.obj 7) 3 4)).map
      (fun s => (s.sp 3, s.load 0, s.invocations 3 (Ptr.obj 7), s.log))
      = some (none, none, 1,
          [Event.delete_object 0, Event.deleter 3 (Ptr.obj 7), Event.delete_this 0]) :=
  (scenario_spec (Ptr.obj 7) 3).2.2.2


/-! ## Every call on live handles returns -/

theorem isSome_elim {α : Type} {o : Option α} (h : o.isSome = true) : ∃ a, o = some a := by
  cases o with
  | none => simp at h
  | some a => exact ⟨a, rfl⟩

/-- In a state that satisfies the accounting, with room for one more handle, a call whose
operands are live returns. -/
theorem step_progress {s : State} {op : Op} (hwf : WF s) (hb : s.live + 1 < SIZE_MOD)
    (h : op.ready s = true) : ∃ s1, step s op = some s1 := by
  cases op <;> simp only [Op.ready, Bool.and_eq_true] at h
  case sp_ctor => exact ⟨_, rfl⟩
  case sp_ctor_nullptr => exact ⟨_, rfl⟩
  case sp_ctor_ptr p alloc =>
    cases alloc with
    | none => simp [step, shared_ptr.ctor_ptr, sp_adopt_eq]
    | some e => simp [step, shared_ptr.ctor_ptr, shared_ptr.ctor_ptr_deleter]
  case sp_ctor_ptr_deleter p d alloc =>
    cases alloc with
    | none => simp [step, sp_adopt_eq]
    | some e => simp [step, shared_ptr.ctor_ptr_deleter]
  case sp_ctor_alias j p =>
    obtain ⟨b, hj⟩ := isSome_elim h
    obtain ⟨s1, e1, -⟩ := sp_ctor_copy_spec hwf hb hj p
    exact ⟨s1, by simp [step, shared_ptr.ctor_alias, hj, e1]⟩
  case sp_ctor_convert j =>
    obtain ⟨b, hj⟩ := isSome_elim h
    obtain ⟨s1, e1, -⟩ := sp_ctor_copy_spec hwf hb hj b.ptr
    exact ⟨s1, by simp [step, shared_ptr.ctor_convert, shared_ptr.ctor_alias, hj, e1]⟩
  case sp_ctor_copy j =>
    obtain ⟨b, hj⟩ := isSome_elim h
    obtain ⟨s1, e1, -⟩ := sp_ctor_copy_spec hwf hb hj b.ptr
    exact ⟨s1, by simp [step, shared_ptr.ctor_copy, hj, e1]⟩
  case sp_ctor_move j =>
    obtain ⟨b, hj⟩ := isSome_elim h
    obtain ⟨s1, e1, -⟩ := sp_ctor_move_spec hwf hj
    exact ⟨s1, by simp [step, e1]⟩
  case sp_assign_copy i j =>
    obtain ⟨a, hi⟩ := isSome_elim h.1
    obtain ⟨b, hj⟩ := isSome_elim h.2
    obtain ⟨s1, e1, -⟩ := sp_assign_copy_spec hwf hb hi hj
    exact ⟨s1, e1⟩
  case sp_assign_move i j =>
    obtain ⟨a, hi⟩ := isSome_elim h.1
    obtain ⟨b, hj⟩ := isSome_elim h.2
    obtain ⟨s1, e1, -⟩ := sp_assign_move_spec hwf hi hj
    exact ⟨s1, e1⟩
  case sp_dtor i =>
    obtain ⟨a, hi⟩ := isSome_elim h
    obtain ⟨s1, e1, -⟩ := sp_dtor_spec hwf hi
    exact ⟨s1, e1⟩
  case sp_reset i =>
    obtain ⟨a, hi⟩ := isSome_elim h
    obtain ⟨s1, e1, -⟩ := sp_reset_spec hwf hi
    exact ⟨s1, e1⟩
  case sp_reset_ptr i p alloc =>
    obtain ⟨a, hi⟩ := isSome_elim h
    cases alloc with
    | none =>
      obtain ⟨s1, e1, -⟩ := sp_reset_ptr_spec hwf hi p default_delete
      exact ⟨s1, by simp [step, shared_ptr.reset_ptr, e1]⟩
    | some e =>
      simp [step, shared_ptr.reset_ptr, shared_ptr.reset_ptr_deleter, hi,
        shared_ptr.ctor_ptr_deleter]
  case sp_reset_ptr_deleter i p d alloc =>
    obtain ⟨a, hi⟩ := isSome_elim h
    cases alloc with
    | none =>
      obtain ⟨s1, e1, -⟩ := sp_reset_ptr_spec hwf hi p d
      exact ⟨s1, by simp [step, e1]⟩
    | some e =>
      simp [step, shared_ptr.reset_ptr_deleter, hi, shared_ptr.ctor_ptr_deleter]
  case sp_swap i j =>
    obtain ⟨a, hi⟩ := isSome_elim h.1
    obtain ⟨b, hj⟩ := isSome_elim h.2
    exact ⟨_, sp_swap_eq hi hj⟩
  case make_shared args alloc =>
    cases alloc with
    | none => simp [step, make_shared_eq]
    | some e => simp [step, make_shared]
  case wp_ctor => exact ⟨_, rfl⟩
  case wp_ctor_copy j =>
    obtain ⟨b, hj⟩ := isSome_elim h
    obtain ⟨s1, e1, -⟩ := wp_ctor_copy_spec hwf hb hj
    exact ⟨s1, by simp [step, e1]⟩
  case wp_ctor_shared j =>
    obtain ⟨b, hj⟩ := isSome_elim h
    obtain ⟨s1, e1, -⟩ := wp_ctor_shared_spec hwf hb hj
    exact ⟨s1, by simp [step, e1]⟩
  case wp_ctor_move j =>
    obtain ⟨b, hj⟩ := isSome_elim h
    obtain ⟨s1, e1, -⟩ := wp_ctor_move_spec hwf hj
    exact ⟨s1, by simp [step, e1]⟩
  case wp_dtor i =>
    obtain ⟨a, hi⟩ := isSome_elim h
    obtain ⟨s1, e1, -⟩ := wp_dtor_spec hwf hi
    exact ⟨s1, e1⟩
  case wp_assign_copy i j =>
    obtain ⟨a, hi⟩ := isSome_elim h.1
    obtain ⟨b, hj⟩ := isSome_elim h.2
    obtain ⟨s1, e1, -⟩ := wp_assign_copy_spec hwf hb hi hj
    exact ⟨s1, e1⟩
  case wp_assign_move i j =>
    obtain ⟨a, hi⟩ := isSome_elim h.1
    obtain ⟨b, hj⟩ := isSome_elim h.2
    obtain ⟨s1, e1, -⟩ := wp_assign_move_spec hwf hi hj
    exact ⟨s1, e1⟩
  case wp_swap i j =>
    obtain ⟨a, hi⟩ := isSome_elim h.1
    obtain ⟨b, hj⟩ := isSome_elim h.2
    exact ⟨_, wp_swap_eq hi hj⟩
  case wp_lock i =>
    obtain ⟨a, hi⟩ := isSome_elim h
    obtain ⟨s1, hh, e1, -⟩ := wp_lock_spec hwf hb hi
    exact ⟨s1, by simp [step, e1]⟩


/-! ## The bodies of the operations as sequences of constructor, `swap` and destructor calls -/

theorem run_single {s : State} (op : Op) (hb : s.live + 1 < SIZE_MOD) :
    run s [op] = step s op := by
  cases h : step s op with
  | none => simp only [run, if_pos hb, h]
  | some t => simp only [run, if_pos hb, h]

theorem live_of_eq {s t : State} (h1 : t.sps = s.sps) (h2 : t.wps = s.wps) :
    t.live = s.live := by
  simp only [State.live, h1, h2]

theorem live_of_sps_push {s t : State} {x : shared_ptr} (h1 : t.sps = s.sps ++ [some x])
    (h2 : t.wps = s.wps) : t.live = s.live + 1 := by
  simp only [State.live, h1, h2, countP_append_one, Option.isSome_some, if_true]
  omega

theorem live_of_wps_push {s t : State} {x : weak_ptr} (h1 : t.sps = s.sps)
    (h2 : t.wps = s.wps ++ [some x]) : t.live = s.live + 1 := by
  simp only [State.live, h1, h2, countP_append_one, Option.isSome_some, if_true]
  omega

theorem live_setSp_some {s : State} {i : Nat} {a : shared_ptr} (hi : s.sp i = some a)
    (h : shared_ptr) : (s.setSp i (some h)).live = s.live := by
  have e := countP_set_add Option.isSome rfl s.sps i (some h)
  have hlt := sp_lt hi
  have hg : s.sps.getD i none = some a := hi
  simp only [hg, Option.isSome_some, if_true, hlt, and_self] at e
  simp only [State.live, State.setSp]
  omega

theorem live_setWp_some {s : State} {i : Nat} {a : weak_ptr} (hi : s.wp i = some a)
    (h : weak_ptr) : (s.setWp i (some h)).live = s.live := by
  have e := countP_set_add Option.isSome rfl s.wps i (some h)
  have hlt := wp_lt hi
  have hg : s.wps.getD i none = some a := hi
  simp only [hg, Option.isSome_some, if_true, hlt, and_self] at e
  simp only [State.live, State.setWp]
  omega

theorem live_of_sps_set_none {s t : State} {i : Nat} (h1 : t.sps = s.sps.set i none)
    (h2 : t.wps = s.wps) : t.live ≤ s.live := by
  have e := countP_set_add Option.isSome rfl s.sps i none
  simp only [Option.isSome_none, Bool.false_eq_true, and_false, if_false] at e
  simp only [State.live, h1, h2]
  omega

theorem live_of_wps_set_none {s t : State} {i : Nat} (h1 : t.sps = s.sps)
    (h2 : t.wps = s.wps.set i none) : t.live ≤ s.live := by
  have e := countP_set_add Option.isSome rfl s.wps i none
  simp only [Option.isSome_none, Bool.false_eq_true, and_false, if_false] at e
  simp only [State.live, h1, h2]
  omega

theorem live_sp_swap {s t : State} {i j : Nat} (h : shared_ptr.swap s i j = some t) :
    t.live = s.live ∧ t.heap = s.heap := by
  cases hi : s.sp i with
  | none => simp [shared_ptr.swap, hi] at h
  | some a =>
    cases hj : s.sp j with
    | none => simp [shared_ptr.swap, hi, hj] at h
    | some b =>
      rw [sp_swap_eq hi hj] at h
      have h := Option.some.inj h
      subst h
      have h1 : (s.setSp i (some b)).sp j = some b := by
        by_cases hji : j = i
        · subst hji
          simp [sp_lt hi]
        · simp [hji, hj]
      exact ⟨by rw [live_setSp_some h1, live_setSp_some hi], rfl⟩

theorem live_wp_swap {s t : State} {i j : Nat} (h : weak_ptr.swap s i j = some t) :
    t.live = s.live ∧ t.heap = s.heap := by
  cases hi : s.wp i with
  | none => simp [weak_ptr.swap, hi] at h
  | some a =>
    cases hj : s.wp j with
    | none => simp [weak_ptr.swap, hi, hj] at h
    | some b =>
      rw [wp_swap_eq hi hj] at h
      have h := Option.some.inj h
      subst h
      have h1 : (s.setWp i (some b)).wp j = some b := by
        by_cases hji : j = i
        · subst hji
          simp [wp_lt hi]
        · simp [hji, hj]
      exact ⟨by rw [live_setWp_some h1, live_setWp_some hi], rfl⟩

theorem sp_ctor_cblock_live {s s1 : State} {cbo : Option Nat} {p : Ptr} {n : Nat}
    (h : shared_ptr.ctor_cblock s cbo p = some (s1, n)) :
    n = s.sps.length ∧ s1.live = s.live + 1 := by
  cases cbo with
  | none =>
    simp only [shared_ptr.ctor_cblock, Option.some.injEq, Prod.mk.injEq] at h
    refine ⟨h.2.symm, ?_⟩
    rw [← h.1]
    exact live_of_sps_push rfl rfl
  | some c =>
    simp only [shared_ptr.ctor_cblock] at h
    cases h1 : control_block.add_strong (s.pushSp ⟨some c, p⟩) c with
    | none => simp [h1] at h
    | some s2 =>
      simp only [h1, Option.some.injEq, Prod.mk.injEq] at h
      obtain ⟨f1, f2⟩ := add_strong_frame h1
      refine ⟨h.2.symm, ?_⟩
      rw [← h.1]
      exact live_of_sps_push f1 f2

theorem wp_ctor_cblock_live {s s1 : State} {cbo : Option Nat} {p : Ptr} {n : Nat}
    (h : weak_ptr.ctor_cblock s cbo p = some (s1, n)) :
    n = s.wps.length ∧ s1.live = s.live + 1 := by
  cases cbo with
  | none =>
    simp only [weak_ptr.ctor_cblock, Option.some.injEq, Prod.mk.injEq] at h
    refine ⟨h.2.symm, ?_⟩
    rw [← h.1]
    exact live_of_wps_push rfl rfl
  | some c =>
    simp only [weak_ptr.ctor_cblock] at h
    cases h1 : control_block.add_weak (s.pushWp ⟨some c, p⟩) c with
    | none => simp [h1] at h
    | some s2 =>
      simp only [h1, Option.some.injEq, Prod.mk.injEq] at h
      obtain ⟨f1, f2⟩ := add_weak_frame h1
      refine ⟨h.2.symm, ?_⟩
      rw [← h.1]
      exact live_of_wps_push f1 f2

theorem sp_dtor_live {s t : State} {i : Nat} (h : shared_ptr.dtor s i = some t) :
    t.live ≤ s.live := by
  rw [sp_dtor_closed] at h
  cases hi : s.sp i with
  | none => simp [hi] at h
  | some a =>
    cases ha : a.cblock with
    | none =>
      simp only [hi, ha, Option.some.injEq] at h
      rw [← h]
      exact live_of_sps_set_none rfl rfl
    | some c =>
      simp only [hi, ha, Option.map_eq_some'] at h
      obtain ⟨s1, h1, h2⟩ := h
      obtain ⟨f1, f2⟩ := del_strong_frame h1
      rw [← h2]
      have e : (s1.setSp i none).sps = s.sps.set i none := by simp [State.setSp, f1]
      exact live_of_sps_set_none e f2

theorem wp_dtor_live {s t : State} {i : Nat} (h : weak_ptr.dtor s i = some t) :
    t.live ≤ s.live := by
  cases hi : s.wp i with
  | none => simp [weak_ptr.dtor, hi] at h
  | some a =>
    cases ha : a.cblock with
    | none =>
      simp only [weak_ptr.dtor, hi, ha, Option.some.injEq] at h
      rw [← h]
      exact live_of_wps_set_none rfl rfl
    | some c =>
      simp only [weak_ptr.dtor, hi, ha] at h
      cases h1 : control_block.del_weak s c with
      | none => simp [h1] at h
      | some s1 =>
        simp only [h1, Option.some.injEq] at h
        obtain ⟨f1, f2⟩ := del_weak_frame h1
        rw [← h]
        have e : (s1.setWp i none).wps = s.wps.set i none := by simp [State.setWp, f2]
        exact live_of_wps_set_none f1 e

theorem expand_sp_ctor_move {s : State} {j : Nat} {b : shared_ptr} (hb : s.live + 2 < SIZE_MOD)
    (hj : s.sp j = some b) :
    step s (Op.sp_ctor_move j) = run s [Op.sp_ctor, Op.sp_swap s.sps.length j] := by
  have hb0 : s.live + 1 < SIZE_MOD := by omega
  have e0 : step s Op.sp_ctor = some (s.pushSp ⟨none, Ptr.null⟩) := rfl
  have hb1 : (s.pushSp ⟨none, Ptr.null⟩).live + 1 < SIZE_MOD := by
    have : (s.pushSp ⟨none, Ptr.null⟩).live = s.live + 1 := live_of_sps_push rfl rfl
    omega
  rw [run_cons_some _ hb0 e0, run_single _ hb1]
  simp only [step, shared_ptr.ctor_move, shared_ptr.ctor, hj]
  cases shared_ptr.swap (s.pushSp ⟨none, Ptr.null⟩) s.sps.length j <;> rfl

theorem expand_sp_reset {s : State} {i : Nat} {a : shared_ptr} (hb : s.live + 2 < SIZE_MOD)
    (hi : s.sp i = some a) :
    shared_ptr.reset s i
      = run s [Op.sp_ctor, Op.sp_swap i s.sps.length, Op.sp_dtor s.sps.length] := by
  have hb0 : s.live + 1 < SIZE_MOD := by omega
  have e0 : step s Op.sp_ctor = some (s.pushSp ⟨none, Ptr.null⟩) := rfl
  have hb1 : (s.pushSp ⟨none, Ptr.null⟩).live + 1 < SIZE_MOD := by
    have : (s.pushSp ⟨none, Ptr.null⟩).live = s.live + 1 := live_of_sps_push rfl rfl
    omega
  rw [run_cons_some _ hb0 e0]
  simp only [shared_ptr.reset, shared_ptr.ctor, hi]
  cases h2 : shared_ptr.swap (s.pushSp ⟨none, Ptr.null⟩) i s.sps.length with
  | none => simp only [run, if_pos hb1, step, h2]
  | some s2 =>
    have hb2 : s2.live + 1 < SIZE_MOD := by
      rw [(live_sp_swap h2).1]
      exact hb1
    have h3 : step (s.pushSp ⟨none, Ptr.null⟩) (Op.sp_swap i s.sps.length) = some s2 := h2
    rw [run_cons_some _ hb1 h3, run_single _ hb2]
    rfl


theorem run_cons_none {s : State} {op : Op} (ops : List Op) (hs : step s op = none) :
    run s (op :: ops) = none := by
  simp only [run, hs]
  split_ifs <;> rfl

theorem sp_reset_live {s s1 : State} {i : Nat} (h : shared_ptr.reset s i = some s1) :
    s1.live ≤ s.live + 1 := by
  cases hi : s.sp i with
  | none => simp [shared_ptr.reset, hi] at h
  | some a =>
    simp only [shared_ptr.reset, shared_ptr.ctor, hi] at h
    cases h2 : shared_ptr.swap (s.pushSp ⟨none, Ptr.null⟩) i s.sps.length with
    | none => simp [h2] at h
    | some s2 =>
      simp only [h2] at h
      have l1 : (s.pushSp ⟨none, Ptr.null⟩).live = s.live + 1 := live_of_sps_push rfl rfl
      have l2 := (live_sp_swap h2).1
      have l3 := sp_dtor_live h
      omega

theorem expand_sp_assign_copy {s : State} {i j : Nat} {a b : shared_ptr}
    (hb : s.live + 2 < SIZE_MOD) (hi : s.sp i = some a) (hj : s.sp j = some b)
    (hij : i ≠ j) :
    shared_ptr.assign_copy s i j
      = run s [Op.sp_ctor_copy j, Op.sp_swap i s.sps.length, Op.sp_dtor s.sps.length] := by
  have hb0 : s.live + 1 < SIZE_MOD := by omega
  simp only [shared_ptr.assign_copy, hi, hj, hij, ne_eq, not_false_eq_true, if_true]
  cases h1 : shared_ptr.ctor_copy s j with
  | none =>
    have e0 : step s (Op.sp_ctor_copy j) = none := by simp only [step, h1, Option.map_none']
    rw [run_cons_none _ e0]
  | some r =>
    obtain ⟨s1, safe⟩ := r
    have h1c : shared_ptr.ctor_cblock s b.cblock b.ptr = some (s1, safe) := by
      simpa only [shared_ptr.ctor_copy, hj] using h1
    obtain ⟨hn, l1⟩ := sp_ctor_cblock_live h1c
    subst hn
    have e0 : step s (Op.sp_ctor_copy j) = some s1 := by simp only [step, h1, Option.map_some']
    have hb1 : s1.live + 1 < SIZE_MOD := by omega
    rw [run_cons_some _ hb0 e0]
    cases h2 : shared_ptr.swap s1 i s.sps.length with
    | none =>
      have e1 : step s1 (Op.sp_swap i s.sps.length) = none := h2
      rw [run_cons_none _ e1]
      simp only [h2]
    | some s2 =>
      have e1 : step s1 (Op.sp_swap i s.sps.length) = some s2 := h2
      have hb2 : s2.live + 1 < SIZE_MOD := by
        rw [(live_sp_swap h2).1]
        exact hb1
      rw [run_cons_some _ hb1 e1, run_single _ hb2]
      simp only [h2, step]

theorem expand_sp_assign_move {s : State} {i j : Nat} {a b : shared_ptr}
    (hb : s.live + 2 < SIZE_MOD) (hi : s.sp i = some a) (hj : s.sp j = some b)
    (hij : i ≠ j) :
    shared_ptr.assign_move s i j
      = run s [Op.sp_ctor, Op.sp_swap i s.sps.length, Op.sp_dtor s.sps.length,
          Op.sp_swap i j] := by
  have e : [Op.sp_ctor, Op.sp_swap i s.sps.length, Op.sp_dtor s.sps.length, Op.sp_swap i j]
      = [Op.sp_ctor, Op.sp_swap i s.sps.length, Op.sp_dtor s.sps.length] ++ [Op.sp_swap i j] :=
    rfl
  rw [e, run_append, ← expand_sp_reset hb hi]
  simp only [shared_ptr.assign_move, hi, hj, hij, ne_eq, not_false_eq_true, if_true]
  cases h1 : shared_ptr.reset s i with
  | none => rfl
  | some s1 =>
    have l1 := sp_reset_live h1
    have hb1 : s1.live + 1 < SIZE_MOD := by omega
    simp only [Option.some_bind]
    rw [run_single _ hb1]
    rfl

theorem expand_sp_reset_ptr_deleter {s : State} {i : Nat} {a : shared_ptr} (p : Ptr) (d : Nat)
    (hb : s.live + 2 < SIZE_MOD) (hi : s.sp i = some a) :
    (shared_ptr.reset_ptr_deleter s i p d none).map Prod.fst
      = run s [Op.sp_ctor_ptr_deleter p d none, Op.sp_swap i s.sps.length,
          Op.sp_dtor s.sps.length] := by
  have hb0 : s.live + 1 < SIZE_MOD := by omega
  obtain ⟨s1, h1, hs1⟩ : ∃ s1, shared_ptr.ctor_ptr_deleter s p d none
      = some (s1, Except.ok s.sps.length) ∧
      s1.sps = s.sps ++ [some ⟨some s.heap.length, p⟩] ∧ s1.wps = s.wps :=
    ⟨_, sp_adopt_eq s p d, rfl, rfl⟩
  have l1 : s1.live = s.live + 1 := live_of_sps_push hs1.1 hs1.2
  have e0 : step s (Op.sp_ctor_ptr_deleter p d none) = some s1 := by
    simp only [step, h1, Option.map_some']
  have hb1 : s1.live + 1 < SIZE_MOD := by omega
  rw [run_cons_some _ hb0 e0]
  simp only [shared_ptr.reset_ptr_deleter, hi, h1]
  cases h2 : shared_ptr.swap s1 i s.sps.length with
  | none =>
    have e1 : step s1 (Op.sp_swap i s.sps.length) = none := h2
    rw [run_cons_none _ e1]
    rfl
  | some s2 =>
    have e1 : step s1 (Op.sp_swap i s.sps.length) = some s2 := h2
    have hb2 : s2.live + 1 < SIZE_MOD := by
      rw [(live_sp_swap h2).1]
      exact hb1
    rw [run_cons_some _ hb1 e1, run_single _ hb2]
    simp only [step]
    cases shared_ptr.dtor s2 s.sps.length <;> rfl

theorem expand_sp_reset_ptr_throw {s : State} {i : Nat} {a : shared_ptr} (p : Ptr) (d : Nat)
    (e : Exn) (hb : s.live + 1 < SIZE_MOD) (hi : s.sp i = some a) :
    (shared_ptr.reset_ptr_deleter s i p d (some e)).map Prod.fst
      = run s [Op.sp_ctor_ptr_deleter p d (some e)] := by
  rw [run_single _ hb]
  simp only [step, shared_ptr.reset_ptr_deleter, hi, shared_ptr.ctor_ptr_deleter,
    Option.map_some']


theorem expand_wp_ctor_move {s : State} {j : Nat} {b : weak_ptr} (hb : s.live + 2 < SIZE_MOD)
    (hj : s.wp j = some b) :
    step s (Op.wp_ctor_move j) = run s [Op.wp_ctor, Op.wp_swap s.wps.length j] := by
  have hb0 : s.live + 1 < SIZE_MOD := by omega
  have e0 : step s Op.wp_ctor = some (s.pushWp ⟨none, Ptr.null⟩) := rfl
  have hb1 : (s.pushWp ⟨none, Ptr.null⟩).live + 1 < SIZE_MOD := by
    have : (s.pushWp ⟨none, Ptr.null⟩).live = s.live + 1 := live_of_wps_push rfl rfl
    omega
  rw [run_cons_some _ hb0 e0, run_single _ hb1]
  simp only [step, weak_ptr.ctor_move, weak_ptr.ctor, hj]
  cases weak_ptr.swap (s.pushWp ⟨none, Ptr.null⟩) s.wps.length j <;> rfl

theorem expand_wp_assign_copy {s : State} {i j : Nat} {a b : weak_ptr}
    (hb : s.live + 2 < SIZE_MOD) (hi : s.wp i = some a) (hj : s.wp j = some b) :
    weak_ptr.assign_copy s i j
      = run s [Op.wp_ctor_copy j, Op.wp_swap i s.wps.length, Op.wp_dtor s.wps.length] := by
  have hb0 : s.live + 1 < SIZE_MOD := by omega
  simp only [weak_ptr.assign_copy, hi, hj]
  cases h1 : weak_ptr.ctor_copy s j with
  | none =>
    have e0 : step s (Op.wp_ctor_copy j) = none := by simp only [step, h1, Option.map_none']
    rw [run_cons_none _ e0]
  | some r =>
    obtain ⟨s1, safe⟩ := r
    have h1c : weak_ptr.ctor_cblock s b.cblock b.ptr = some (s1, safe) := by
      simpa only [weak_ptr.ctor_copy, hj] using h1
    obtain ⟨hn, l1⟩ := wp_ctor_cblock_live h1c
    subst hn
    have e0 : step s (Op.wp_ctor_copy j) = some s1 := by simp only [step, h1, Option.map_some']
    have hb1 : s1.live + 1 < SIZE_MOD := by omega
    rw [run_cons_some _ hb0 e0]
    cases h2 : weak_ptr.swap s1 i s.wps.length with
    | none =>
      have e1 : step s1 (Op.wp_swap i s.wps.length) = none := h2
      rw [run_cons_none _ e1]
      simp only [h2]
    | some s2 =>
      have e1 : step s1 (Op.wp_swap i s.wps.length) = some s2 := h2
      have hb2 : s2.live + 1 < SIZE_MOD := by
        rw [(live_wp_swap h2).1]
        exact hb1
      rw [run_cons_some _ hb1 e1, run_single _ hb2]
      simp only [h2, step]

theorem expand_wp_assign_move {s : State} {i j : Nat} {a b : weak_ptr}
    (hb : s.live + 3 < SIZE_MOD) (hi : s.wp i = some a) (hj : s.wp j = some b)
    (hij : i ≠ j) :
    weak_ptr.assign_move s i j
      = run s [Op.wp_ctor, Op.wp_ctor, Op.wp_swap (s.wps.length + 1) j,
          Op.wp_swap (s.wps.length + 1) i, Op.wp_dtor (s.wps.length + 1),
          Op.wp_dtor s.wps.length] := by
  have hb0 : s.live + 1 < SIZE_MOD := by omega
  have hltj := wp_lt hj
  have e0 : step s Op.wp_ctor = some (s.pushWp ⟨none, Ptr.null⟩) := rfl
  have l1 : (s.pushWp ⟨none, Ptr.null⟩).live = s.live + 1 := live_of_wps_push rfl rfl
  have hb1 : (s.pushWp ⟨none, Ptr.null⟩).live + 1 < SIZE_MOD := by omega
  have e1 : step (s.pushWp ⟨none, Ptr.null⟩) Op.wp_ctor
      = some ((s.pushWp ⟨none, Ptr.null⟩).pushWp ⟨none, Ptr.null⟩) := rfl
  have l2 : ((s.pushWp ⟨none, Ptr.null⟩).pushWp ⟨none, Ptr.null⟩).live = s.live + 2 := by
    have : ((s.pushWp ⟨none, Ptr.null⟩).pushWp ⟨none, Ptr.null⟩).live
        = (s.pushWp ⟨none, Ptr.null⟩).live + 1 := live_of_wps_push rfl rfl
    omega
  have hb2 : ((s.pushWp ⟨none, Ptr.null⟩).pushWp ⟨none, Ptr.null⟩).live + 1 < SIZE_MOD := by
    omega
  have hj1 : (s.pushWp ⟨none, Ptr.null⟩).wp j = some b := by
    simp [hj, Nat.ne_of_lt hltj]
  have hlen : (s.pushWp ⟨none, Ptr.null⟩).wps.length = s.wps.length + 1 := by
    simp [State.pushWp]
  rw [run_cons_some _ hb0 e0, run_cons_some _ hb1 e1]
  simp only [weak_ptr.assign_move, hi, hj, hij, ne_eq, not_false_eq_true, if_true,
    weak_ptr.ctor, weak_ptr.ctor_move, hj1, hlen]
  cases h2 : weak_ptr.swap ((s.pushWp ⟨none, Ptr.null⟩).pushWp ⟨none, Ptr.null⟩)
      (s.wps.length + 1) j with
  | none =>
    have e2 : step ((s.pushWp ⟨none, Ptr.null⟩).pushWp ⟨none, Ptr.null⟩)
        (Op.wp_swap (s.wps.length + 1) j) = none := h2
    rw [run_cons_none _ e2]
  | some s2 =>
    have e2 : step ((s.pushWp ⟨none, Ptr.null⟩).pushWp ⟨none, Ptr.null⟩)
        (Op.wp_swap (s.wps.length + 1) j) = some s2 := h2
    have hb3 : s2.live + 1 < SIZE_MOD := by
      rw [(live_wp_swap h2).1]
      exact hb2
    rw [run_cons_some _ hb2 e2]
    simp only
    cases h3 : weak_ptr.swap s2 (s.wps.length + 1) i with
    | none =>
      have e3 : step s2 (Op.wp_swap (s.wps.length + 1) i) = none := h3
      rw [run_cons_none _ e3]
    | some s3 =>
      have e3 : step s2 (Op.wp_swap (s.wps.length + 1) i) = some s3 := h3
      have hb4 : s3.live + 1 < SIZE_MOD := by
        rw [(live_wp_swap h3).1]
        exact hb3
      rw [run_cons_some _ hb3 e3]
      simp only
      cases h4 : weak_ptr.dtor s3 (s.wps.length + 1) with
      | none =>
        have e4 : step s3 (Op.wp_dtor (s.wps.length + 1)) = none := h4
        rw [run_cons_none _ e4]
      | some s4 =>
        have e4 : step s3 (Op.wp_dtor (s.wps.length + 1)) = some s4 := h4
        have hb5 : s4.live + 1 < SIZE_MOD := by
          have := wp_dtor_live h4
          omega
        rw [run_cons_some _ hb4 e4, run_single _ hb5]
        rfl


/-- A call on live handles, with room for three more handles, is the sequence of
constructor, `swap` and destructor calls of its body. -/
theorem step_expand {s : State} {op : Op} (hb : s.live + 3 < SIZE_MOD)
    (h : op.ready s = true) : step s op = run s (op.expand s) := by
  have hb1 : s.live + 1 < SIZE_MOD := by omega
  have hb2 : s.live + 2 < SIZE_MOD := by omega
  cases op <;> simp only [Op.ready, Bool.and_eq_true] at h <;>
    try (simp only [Op.expand]; rw [run_single _ hb1])
  case sp_ctor_move j =>
    obtain ⟨b, hj⟩ := isSome_elim h
    exact expand_sp_ctor_move hb2 hj
  case sp_assign_copy i j =>
    obtain ⟨a, hi⟩ := isSome_elim h.1
    obtain ⟨b, hj⟩ := isSome_elim h.2
    by_cases hij : i = j
    · subst hij
      simp [step, shared_ptr.assign_copy, hi, Op.expand, run_nil]
    · simp only [Op.expand, hij, ne_eq, not_false_eq_true, if_true]
      exact expand_sp_assign_copy hb2 hi hj hij
  case sp_assign_move i j =>
    obtain ⟨a, hi⟩ := isSome_elim h.1
    obtain ⟨b, hj⟩ := isSome_elim h.2
    by_cases hij : i = j
    · subst hij
      simp [step, shared_ptr.assign_move, hi, Op.expand, run_nil]
    · simp only [Op.expand, hij, ne_eq, not_false_eq_true, if_true]
      exact expand_sp_assign_move hb2 hi hj hij
  case sp_reset i =>
    obtain ⟨a, hi⟩ := isSome_elim h
    exact expand_sp_reset hb2 hi
  case sp_reset_ptr i p alloc =>
    obtain ⟨a, hi⟩ := isSome_elim h
    cases alloc with
    | none => exact expand_sp_reset_ptr_deleter p default_delete hb2 hi
    | some e => exact expand_sp_reset_ptr_throw p default_delete e hb1 hi
  case sp_reset_ptr_deleter i p d alloc =>
    obtain ⟨a, hi⟩ := isSome_elim h
    cases alloc with
    | none => exact expand_sp_reset_ptr_deleter p d hb2 hi
    | some e => exact expand_sp_reset_ptr_throw p d e hb1 hi
  case wp_ctor_move j =>
    obtain ⟨b, hj⟩ := isSome_elim h
    exact expand_wp_ctor_move hb2 hj
  case wp_assign_copy i j =>
    obtain ⟨a, hi⟩ := isSome_elim h.1
    obtain ⟨b, hj⟩ := isSome_elim h.2
    exact expand_wp_assign_copy hb2 hi hj
  case wp_assign_move i j =>
    obtain ⟨a, hi⟩ := isSome_elim h.1
    obtain ⟨b, hj⟩ := isSome_elim h.2
    by_cases hij : i = j
    · subst hij
      simp [step, weak_ptr.assign_move, hi, Op.expand, run_nil]
    · simp only [Op.expand, hij, ne_eq, not_false_eq_true, if_true]
      exact expand_wp_assign_move hb hi hj hij

theorem expand_primitive (s : State) (op : Op) :
    (op.expand s).all Op.primitive = true := by
  cases op <;> simp only [Op.expand] <;> (try split_ifs) <;> (try rfl)
  case sp_reset_ptr i p alloc => cases alloc <;> rfl
  case sp_reset_ptr_deleter i p d alloc => cases alloc <;> rfl

theorem run_prefix {s s1 : State} {ops : List Op} (h : run s ops = some s1) (k : Nat) :
    ∃ t, run s (ops.take k) = some t := by
  rw [← List.take_append_drop k ops, run_append] at h
  cases h1 : run s (ops.take k) with
  | none => simp [h1] at h
  | some t => exact ⟨t, rfl⟩

theorem Reachable.run {s t : State} {ops : List Op} (hr : Reachable s)
    (h : run s ops = some t) : Reachable t := by
  obtain ⟨ops0, h0⟩ := hr
  refine ⟨ops0 ++ ops, ?_⟩
  rw [run_append, h0]
  exact h


/-- The domain of the control-block functions in programs whose deleters and destructors
of managed objects destroy no handle, which are the calls of `step`: in every state that
such a program reaches, (1) the control block of every live owning handle exists and has
`refs ≥ 1` and `weak_refs ≥ 1`; `del_strong` on it, which is what the destructor of the
handle calls, returns, its `refs--` does not wrap, and when `refs` becomes 0 the
`del_weak` that it calls after `delete_object` finds the block in place with the same
`weak_refs ≥ 1`; (2) the control block of every live observing handle exists and has
`weak_refs ≥ 1`; `del_weak` on it returns and its `weak_refs--` does not wrap; (3) every
such call on live handles, with room for three more handles, returns, and it is the
sequence of the constructor, `swap` and destructor calls of its body. It says nothing
about a call during which user code destroys a handle. -/
theorem separate_handles_domain (s : State) (hr : Reachable s) :
    (∀ i a c, s.sp i = some a → a.cblock = some c →
      ∃ cb t, s.load c = some cb ∧ 1 ≤ cb.refs ∧ 1 ≤ cb.weak_refs ∧
        size_dec cb.refs + 1 = cb.refs ∧ size_dec cb.weak_refs + 1 = cb.weak_refs ∧
        control_block.del_strong s c = some t ∧
        shared_ptr.dtor s i = some (t.setSp i none) ∧
        (cb.refs = 1 → ∃ t1 t2,
          control_block.dec_refs s c = some t1 ∧
          control_block.delete_object t1 c = some t2 ∧
          t2.load c = some ⟨0, cb.weak_refs, cb.variant.after⟩ ∧
          control_block.del_weak t2 c = some t)) ∧
    (∀ i w c, s.wp i = some w → w.cblock = some c →
      ∃ cb t, s.load c = some cb ∧ 1 ≤ cb.weak_refs ∧
        size_dec cb.weak_refs + 1 = cb.weak_refs ∧
        control_block.del_weak s c = some t ∧
        weak_ptr.dtor s i = some (t.setWp i none)) ∧
    (∀ op, s.live + 3 < SIZE_MOD → op.ready s = true →
      (∃ s1, step s op = some s1) ∧ step s op = run s (op.expand s) ∧
      (op.expand s).all Op.primitive = true ∧
      ∀ k, ∃ t, run s ((op.expand s).take k) = some t ∧ Reachable t) := by
  have hwf := hr.wf
  refine ⟨?_, ?_, ?_⟩
  · intro i a c hi ha
    obtain ⟨cb, hcb, hpos, -⟩ := owner_block hwf hi ha
    obtain ⟨-, -, a3, a4, a5⟩ := (hwf c).live cb hcb
    have h1 : size_dec cb.refs = cb.refs - 1 := size_dec_eq a4 hpos
    have h2 : size_dec cb.weak_refs = cb.weak_refs - 1 := size_dec_eq a5 a3
    have hlt := load_lt hcb
    obtain ⟨t, ht⟩ : ∃ t, control_block.del_strong s c = some t := ⟨_, del_strong_eq hcb⟩
    refine ⟨cb, t, hcb, hpos, a3, by omega, by omega, ht, ?_, ?_⟩
    · rw [sp_dtor_closed]
      simp only [hi, ha, ht, Option.map_some']
    · intro hr1
      have hd : size_dec cb.refs = 0 := by omega
      have hl1 : (s.store c { cb with refs := size_dec cb.refs }).load c
          = some ⟨0, cb.weak_refs, cb.variant⟩ := by
        rw [hd]
        simp [hlt]
      have e2 := delete_object_eq hl1
      refine ⟨_, _, by simp only [control_block.dec_refs, hcb], e2, by simp [hlt], ?_⟩
      rw [← ht]
      simp only [control_block.del_strong, control_block.dec_refs, hcb, hl1, if_true, e2]
  · intro i w c hi hw
    obtain ⟨cb, hcb, hpos⟩ := observer_block hwf hi hw
    obtain ⟨-, -, a3, a4, a5⟩ := (hwf c).live cb hcb
    have h2 : size_dec cb.weak_refs = cb.weak_refs - 1 := size_dec_eq a5 a3
    obtain ⟨t, ht⟩ : ∃ t, control_block.del_weak s c = some t := ⟨_, del_weak_eq hcb⟩
    refine ⟨cb, t, hcb, a3, by omega, ht, ?_⟩
    simp only [weak_ptr.dtor, hi, hw, ht]
  · intro op hb h
    have hb1 : s.live + 1 < SIZE_MOD := by omega
    obtain ⟨s1, h1⟩ := step_progress hwf hb1 h
    have e := step_expand hb h
    refine ⟨⟨s1, h1⟩, e, expand_primitive s op, ?_⟩
    intro k
    rw [h1] at e
    obtain ⟨t, ht⟩ := run_prefix e.symm k
    exact ⟨t, ht, hr.run ht⟩

/-! ## Move assignment from a handle inside the object that the target owns -/

theorem delete_object_with_some (s : State) (c : Nat) :
    control_block.delete_object_with some s c = control_block.delete_object s c := by
  unfold control_block.delete_object_with control_block.delete_object
  cases hl : s.load c with
  | none => rfl
  | some cb =>
    obtain ⟨r, w, v⟩ := cb
    cases v with
    | regular p d =>
      have h2 : ((s.emit (Event.delete_object c)).emit (Event.deleter d p)).load c
          = some ⟨r, w, Variant.regular p d⟩ := hl
      simp only [h2]
    | inplace a => rfl

theorem del_strong_with_some (s : State) (c : Nat) :
    control_block.del_strong_with some s c = control_block.del_strong s c := by
  unfold control_block.del_strong_with control_block.del_strong
  simp only [delete_object_with_some]

theorem sp_dtor_with_some (s : State) (i : Nat) :
    shared_ptr.dtor_with some s i = shared_ptr.dtor s i := by
  unfold shared_ptr.dtor_with shared_ptr.dtor
  simp only [del_strong_with_some]

theorem sp_reset_with_some (s : State) (i : Nat) :
    shared_ptr.reset_with some s i = shared_ptr.reset s i := by
  unfold shared_ptr.reset_with shared_ptr.reset
  simp only [sp_dtor_with_some]

theorem sp_assign_move_with_some (s : State) (i j : Nat) :
    shared_ptr.assign_move_with some s i j = shared_ptr.assign_move s i j := by
  unfold shared_ptr.assign_move_with shared_ptr.assign_move
  simp only [sp_reset_with_some]

/-- C20: move assignment from a member of the owned object. In `linked_state` the handle 0 is the only owner
of the object 7, whose member is the handle 1, the only owner of the object 8. With user
code that does nothing the functions with user code are the functions of the model.
`reset()` of the handle 0 destroys the object 7, and with it the handle 1 and the object
8, before anything is read from the handle 1; the `swap(other)` that follows in
`operator=(shared_ptr&&)` reads a handle outside its lifetime, so the move assignment
has undefined behaviour. Reading the source first, as the move assignment of the
observing handle does (`shared_ptr(std::move(other)).swap(*this)`), gives the handle 0 the
members that the handle 1 had, leaves `strong_count` of its block at 1, and destroys the
object 7 once and the object 8 not at all. -/
theorem move_assign_owned_source :
    Reachable linked_state ∧
    shared_ptr.use_count linked_state 0 = some 1 ∧
    linked_state.sp 1 = some ⟨some 1, Ptr.obj 8⟩ ∧
    control_block.strong_count linked_state 1 = some 1 ∧
    (∀ s i j, shared_ptr.assign_move_with some s i j = shared_ptr.assign_move s i j) ∧
    (shared_ptr.reset_with linked_user linked_state 0).map
        (fun t => (t.sp 0, t.sp 1, t.load 0, t.load 1, t.log))
      = some (some ⟨none, Ptr.null⟩, none, none, none,
          [Event.delete_object 0, Event.deleter default_delete (Ptr.obj 7),
           Event.delete_object 1, Event.deleter default_delete (Ptr.obj 8),
           Event.delete_this 1, Event.delete_this 0]) ∧
    shared_ptr.assign_move_with linked_user linked_state 0 1 = none ∧
    ((shared_ptr.ctor_move linked_state 1).bind (fun r =>
        (shared_ptr.swap r.1 r.2 0).bind (fun t =>
          shared_ptr.dtor_with linked_user t r.2))).map
        (fun t => (t.sp 0, t.sp 1, t.load 1, t.load 0, t.log))
      = some (some ⟨some 1, Ptr.obj 8⟩, none,
          some ⟨1, 1, Variant.regular (Ptr.obj 8) default_delete⟩, none,
          [Event.delete_object 0, Event.deleter default_delete (Ptr.obj 7),
           Event.delete_this 0]) := by
  refine ⟨⟨[Op.sp_ctor_ptr (Ptr.obj 7) none, Op.sp_ctor_ptr (Ptr.obj 8) none], by decide⟩,
    by decide, by decide, by decide, sp_assign_move_with_some, by decide, by decide,
    by decide⟩


/-- C15: the code on a two-node list. `linked_state` is reached through the handle
operations; the handle 0 is the only owner of the object 7, whose member is the handle 1,
the only owner of the object 8, and both handles are live, so that the move assignment
`head = std::move(head->next)` is a call on live handles. Its `reset()` returns with the
handle 1 destroyed and both control blocks deleted, the block 1 having executed
`delete this` once; the `swap(other)` that follows reads the handle 1 outside its
lifetime, so the call leaves the domain of the handle operations; and in the state in
which it does so each of `add_strong`, `add_weak`, `del_strong` and `del_weak`, applied
to the block 1 that the handle 1 referred to, is applied to a block that has already
deleted itself. -/
theorem control_block_domain_violation :
    Reachable linked_state ∧
    (Op.sp_assign_move 0 1).ready linked_state = true ∧
    linked_state.sp 0 = some ⟨some 0, Ptr.obj 7⟩ ∧
    linked_state.sp 1 = some ⟨some 1, Ptr.obj 8⟩ ∧
    control_block.strong_count linked_state 1 = some 1 ∧
    control_block.weak_count linked_state 1 = some 1 ∧
    (shared_ptr.reset_with linked_user linked_state 0).map
        (fun t => (t.sp 0, t.sp 1, t.load 0, t.load 1, t.frees 1))
      = some (some ⟨none, Ptr.null⟩, none, none, none, 1) ∧
    shared_ptr.assign_move_with linked_user linked_state 0 1 = none ∧
    (shared_ptr.reset_with linked_user linked_state 0).map
        (fun t => control_block.add_strong t 1) = some none ∧
    (shared_ptr.reset_with linked_user linked_state 0).map
        (fun t => control_block.add_weak t 1) = some none ∧
    (shared_ptr.reset_with linked_user linked_state 0).map
        (fun t => control_block.del_strong t 1) = some none ∧
    (shared_ptr.reset_with linked_user linked_state 0).map
        (fun t => control_block.del_weak t 1) = some none := by
  constructor
  · exact ⟨[Op.sp_ctor_ptr (Ptr.obj 7) none, Op.sp_ctor_ptr (Ptr.obj 8) none], by decide⟩
  · decide

end SharedPtr
